import Mathlib

/-!
# Real-time collaboration: signaling relay, mesh coordinator and channel protocol

A shallow embedding of the JavaScript/TypeScript sources

* `src/supabase/functions/signaling/index.ts` (the signaling relay and its room registry),
* `src/webrtc.js` (`WebRTCManager`, the mesh coordinator),
* `src/app.js` (`RTCCollabApp`, the channel protocol layer: chat and chunked file transfer),
* `src/auth.js` (`AuthManager`, registration and login),

together with theorems about them.

Conventions of the embedding.

* A JavaScript value that travels as JSON is a `JsVal`.  `JSON.stringify` followed by
  `JSON.parse` is the identity on such values once the properties whose value is
  `undefined` have been dropped (`JsVal.stringifyObj`).  Numbers are integers.
* A JavaScript `Map` is an association list in insertion order (`JsMap`).
  Keys are compared structurally; on strings, numbers, booleans, `null` and `undefined`
  this is `SameValueZero`.
* Objects with identity (sockets, peer connections, data channels) are natural numbers.
* Effects (messages sent, collaborator calls, console output) are recorded in the state.
* Calls into the browser or the WebCrypto API are parameters of the definitions.
-/

namespace RTCCollab

/-! ## JavaScript values -/

/-- A JavaScript value as it appears in a parsed JSON message. -/
inductive JsVal where
  | undefined : JsVal
  | null : JsVal
  | bool (b : Bool) : JsVal
  | num (n : Int) : JsVal
  | str (s : String) : JsVal
  | arr (xs : List JsVal) : JsVal
  | obj (fields : List (String × JsVal)) : JsVal

mutual
/-- Structural equality of values. -/
def JsVal.beq : JsVal → JsVal → Bool
  | .undefined, .undefined => true
  | .null, .null => true
  | .bool a, .bool b => a == b
  | .num a, .num b => a == b
  | .str a, .str b => a == b
  | .arr a, .arr b => JsVal.beqList a b
  | .obj a, .obj b => JsVal.beqFields a b
  | _, _ => false
/-- Structural equality of lists of values. -/
def JsVal.beqList : List JsVal → List JsVal → Bool
  | [], [] => true
  | x :: xs, y :: ys => JsVal.beq x y && JsVal.beqList xs ys
  | _, _ => false
/-- Structural equality of property lists. -/
def JsVal.beqFields : List (String × JsVal) → List (String × JsVal) → Bool
  | [], [] => true
  | (k, x) :: xs, (l, y) :: ys => k == l && JsVal.beq x y && JsVal.beqFields xs ys
  | _, _ => false
end

mutual
theorem JsVal.beq_refl : ∀ a : JsVal, JsVal.beq a a = true
  | .undefined => by simp [JsVal.beq]
  | .null => by simp [JsVal.beq]
  | .bool _ => by simp [JsVal.beq]
  | .num _ => by simp [JsVal.beq]
  | .str _ => by simp [JsVal.beq]
  | .arr xs => by simp [JsVal.beq, JsVal.beqList_refl xs]
  | .obj fs => by simp [JsVal.beq, JsVal.beqFields_refl fs]
theorem JsVal.beqList_refl : ∀ xs : List JsVal, JsVal.beqList xs xs = true
  | [] => by simp [JsVal.beqList]
  | x :: xs => by simp [JsVal.beqList, JsVal.beq_refl x, JsVal.beqList_refl xs]
theorem JsVal.beqFields_refl : ∀ fs : List (String × JsVal), JsVal.beqFields fs fs = true
  | [] => by simp [JsVal.beqFields]
  | (_, x) :: fs => by simp [JsVal.beqFields, JsVal.beq_refl x, JsVal.beqFields_refl fs]
end

mutual
theorem JsVal.eq_of_beq : ∀ a b : JsVal, JsVal.beq a b = true → a = b
  | .undefined, b => by cases b <;> simp [JsVal.beq]
  | .null, b => by cases b <;> simp [JsVal.beq]
  | .bool _, b => by cases b <;> simp [JsVal.beq]
  | .num _, b => by cases b <;> simp [JsVal.beq]
  | .str _, b => by cases b <;> simp [JsVal.beq]
  | .arr xs, b => by
    cases b <;> simp [JsVal.beq]
    exact JsVal.eq_of_beqList xs _
  | .obj fs, b => by
    cases b <;> simp [JsVal.beq]
    exact JsVal.eq_of_beqFields fs _
theorem JsVal.eq_of_beqList : ∀ xs ys : List JsVal, JsVal.beqList xs ys = true → xs = ys
  | [], ys => by cases ys <;> simp [JsVal.beqList]
  | x :: xs, ys => by
    cases ys with
    | nil => simp [JsVal.beqList]
    | cons y ys =>
      simp only [JsVal.beqList, Bool.and_eq_true, List.cons.injEq]
      exact fun h => ⟨JsVal.eq_of_beq x y h.1, JsVal.eq_of_beqList xs ys h.2⟩
theorem JsVal.eq_of_beqFields :
    ∀ fs gs : List (String × JsVal), JsVal.beqFields fs gs = true → fs = gs
  | [], gs => by cases gs <;> simp [JsVal.beqFields]
  | (k, x) :: fs, gs => by
    cases gs with
    | nil => simp [JsVal.beqFields]
    | cons g gs =>
      obtain ⟨l, y⟩ := g
      simp only [JsVal.beqFields, Bool.and_eq_true, List.cons.injEq, Prod.mk.injEq,
        beq_iff_eq]
      exact fun h => ⟨⟨h.1.1, JsVal.eq_of_beq x y h.1.2⟩, JsVal.eq_of_beqFields fs gs h.2⟩
end

instance : DecidableEq JsVal := fun a b =>
  if h : JsVal.beq a b = true then isTrue (JsVal.eq_of_beq a b h)
  else isFalse (fun e => h (e ▸ JsVal.beq_refl a))

/-- Property read `v.name` on a value that is known not to be `null` or `undefined`:
the property of an object, `undefined` on everything else (none of the names read by
this program is a property of a string, number, boolean or array). -/
def JsVal.field : JsVal → String → JsVal
  | .obj fields, name =>
    match fields.find? (fun kv => kv.1 == name) with
    | some kv => kv.2
    | none => .undefined
  | _, _ => .undefined

/-- Property read `v.name`: a `TypeError` on `null` and `undefined`. -/
def JsVal.prop (v : JsVal) (name : String) : Except String JsVal :=
  match v with
  | .undefined => .error "TypeError: cannot read properties of undefined"
  | .null => .error "TypeError: cannot read properties of null"
  | v => .ok (v.field name)

/-- JavaScript truthiness (`if (v)`, `a && b`, `!v`). -/
def JsVal.truthy : JsVal → Bool
  | .undefined => false
  | .null => false
  | .bool b => b
  | .num n => n != 0
  | .str s => s != ""
  | .arr _ => true
  | .obj _ => true

/-- The comparison `v === "literal"`. -/
def JsVal.isStr : JsVal → String → Bool
  | .str s, lit => s == lit
  | _, _ => false

/-- What `JSON.parse(JSON.stringify({...}))` yields for an object literal with the given
properties: a property whose value is `undefined` is omitted. -/
def JsVal.stringifyObj (fields : List (String × JsVal)) : JsVal :=
  .obj (fields.filter (fun kv => kv.2 != .undefined))

/-- A byte array as a JSON array of numbers (`Array.from(uint8Array)`). -/
def JsVal.ofBytes (bytes : List Nat) : JsVal :=
  .arr (bytes.map (fun b => .num (Int.ofNat b)))

/-! ## JavaScript `Map` -/

/-- A JavaScript `Map`: the entries in insertion order. -/
abbrev JsMap (κ ν : Type) := List (κ × ν)

namespace JsMap

variable {κ ν : Type} [DecidableEq κ]

/-- `map.get(key)` (`none` for `undefined`). -/
def get (m : JsMap κ ν) (key : κ) : Option ν :=
  match m.find? (fun kv => decide (kv.1 = key)) with
  | some kv => some kv.2
  | none => none

/-- `map.has(key)`. -/
def has (m : JsMap κ ν) (key : κ) : Bool :=
  m.any (fun kv => decide (kv.1 = key))

/-- `map.set(key, value)`: an existing key keeps its position, a new key goes last. -/
def set (m : JsMap κ ν) (key : κ) (value : ν) : JsMap κ ν :=
  if has m key then m.map (fun kv => if kv.1 = key then (key, value) else kv)
  else m ++ [(key, value)]

/-- `map.delete(key)`. -/
def delete (m : JsMap κ ν) (key : κ) : JsMap κ ν :=
  m.filter (fun kv => !decide (kv.1 = key))

/-- The keys in iteration order. -/
def keys (m : JsMap κ ν) : List κ := m.map Prod.fst

end JsMap

/-! ## Arrays and typed arrays -/

/-- The `for` loop of `chunkArray`, with `fuel` iterations allowed; `none` when the fuel
runs out before the loop condition fails. -/
def chunkArrayLoop {α : Type} (array : List α) (chunkSize : Nat) :
    Nat → Nat → List (List α) → Option (List (List α))
  | 0, _, _ => none
  | fuel + 1, i, chunks =>
    if i < array.length then
      chunkArrayLoop array chunkSize fuel (i + chunkSize)
        (chunks ++ [(array.drop i).take chunkSize])
    else some chunks

/-- `RTCCollabApp.chunkArray(array, chunkSize)` (app.js 561-567).  The loop is given
`array.length + 1` iterations, which it never exceeds when `chunkSize ≥ 1`; with
`chunkSize = 0` and a non-empty array the JavaScript loop does not terminate and the
result here is `none`. -/
def chunkArray {α : Type} (array : List α) (chunkSize : Nat) : Option (List (List α)) :=
  chunkArrayLoop array chunkSize (array.length + 1) 0 []

/-- Conversion of an array element to a byte when a `Uint8Array` is built from an array
(`ToNumber` then modulo 256).  `null`, `undefined` give 0.  Strings, arrays and objects
are taken as `NaN`, hence 0. -/
def toUint8 : JsVal → Nat
  | .num n => (n % 256).toNat
  | .bool true => 1
  | _ => 0

/-- The constructor `new Uint8Array(v)`: the bytes of the new typed array, or the
`RangeError` of a negative length.  An array is converted element by element; a number is a
length (zero filled); `undefined`, `null` and `false` give the empty array.  Strings and
objects are taken as having no length (empty array). -/
def newUint8Array : JsVal → Except String (List Nat)
  | .arr xs => .ok (xs.map toUint8)
  | .num n => if n < 0 then .error "RangeError: invalid typed array length"
              else .ok (List.replicate n.toNat 0)
  | .bool true => .ok [0]
  | _ => .ok []

/-- The method `target.set(source, offset)` of a typed array: a `RangeError` when the source
does not fit at the offset. -/
def typedArraySet (target source : List Nat) (offset : Nat) : Except String (List Nat) :=
  if source.length + offset > target.length then .error "RangeError: offset is out of bounds"
  else .ok (target.take offset ++ source ++ target.drop (offset + source.length))

/-- A JavaScript array that may have holes: `none` is a hole. -/
abbrev SparseArray (α : Type) := List (Option α)

/-- The assignment `array[i] = v` for an array index `i`: the array grows, with holes, when
`i` is beyond its end. -/
def SparseArray.assign {α : Type} (a : SparseArray α) (i : Nat) (v : α) : SparseArray α :=
  if i < a.length then a.set i (some v)
  else a ++ List.replicate (i - a.length) none ++ [some v]

/-- The elements that `filter`, `forEach` and `flat` visit: holes are skipped. -/
def SparseArray.present {α : Type} (a : SparseArray α) : List α :=
  a.filterMap id

mutual
/-- Conversion `ToString` of a value used as a property key. -/
def JsVal.toPropertyKey : JsVal → String
  | .undefined => "undefined"
  | .null => "null"
  | .bool true => "true"
  | .bool false => "false"
  | .num n => toString n
  | .str s => s
  | .arr xs => String.intercalate "," (JsVal.joinElems xs)
  | .obj _ => "[object Object]"
/-- The pieces that `Array.prototype.join` puts between commas: `null` and `undefined`
elements are empty. -/
def JsVal.joinElems : List JsVal → List String
  | [] => []
  | .undefined :: xs => "" :: JsVal.joinElems xs
  | .null :: xs => "" :: JsVal.joinElems xs
  | x :: xs => JsVal.toPropertyKey x :: JsVal.joinElems xs
end

/-- The number written by a list of decimal digits, `none` if some character is not a
digit. -/
def digitsValue : List Char → Nat → Option Nat
  | [], acc => some acc
  | c :: cs, acc =>
    if c.isDigit then digitsValue cs (acc * 10 + (c.toNat - 48)) else none

/-- The array index that a property key denotes: a canonical decimal numeral below
`2^32 - 1`. -/
def arrayIndexOfKey (key : String) : Option Nat :=
  match key.data with
  | [] => none
  | [c] => digitsValue [c] 0
  | c :: cs =>
    if c = '0' then none
    else match digitsValue (c :: cs) 0 with
      | some n => if n < 4294967295 then some n else none
      | none => none

/-- The array index, if any, that `array[v]` addresses. -/
def JsVal.arrayIndex (v : JsVal) : Option Nat :=
  match v with
  | .num n => if 0 ≤ n ∧ n < 4294967295 then some n.toNat else none
  | v => arrayIndexOfKey v.toPropertyKey

/-! ## Channel protocol layer (`src/app.js`) -/

/-- A Pending File Transfer: the object that `file-start` stores in
`pendingFileTransfers`. -/
structure Transfer where
  fileName : JsVal
  fileType : JsVal
  fileSize : JsVal
  totalChunks : JsVal
  iv : JsVal
  chunks : SparseArray (List Nat)

/-- The `encryptedPackage` that `completeFileTransfer` hands to `decryptFile`. -/
structure FilePackage where
  iv : JsVal
  data : List Nat
  type : JsVal
  name : JsVal
  size : JsVal

/-- An argument of `addFileToList` on the receiving side. -/
structure FileInfo where
  name : JsVal
  size : JsVal
  type : JsVal
  blob : List Nat

/-- An `addChatMessage(sender, message, new Date(timestamp))` call. -/
structure ChatEntry where
  sender : JsVal
  message : JsVal
  timestamp : JsVal

/-- The collaborators of the channel protocol layer: `CryptoManager.decrypt` and
`CryptoManager.decryptFile` with the key the manager holds (an `error` is a rejected
promise). -/
structure Collaborators where
  decrypt : JsVal → Except String JsVal
  decryptFile : FilePackage → Except String (List Nat)

/-- The part of `RTCCollabApp` that the channel protocol layer reads and writes, with the
calls it makes on the page and on its collaborators. -/
structure App where
  pendingFileTransfers : JsMap JsVal Transfer
  /-- Whether `whiteboardManager` has been created. -/
  whiteboardReady : Bool
  /-- The `addChatMessage` calls made for received messages. -/
  chatMessages : List ChatEntry
  /-- The actions handed to `whiteboardManager.handleRemoteAction`. -/
  whiteboardActions : List JsVal
  /-- The `completeFileTransfer(fileId)` calls made. -/
  completeCalls : List JsVal
  /-- The packages handed to `cryptoManager.decryptFile`. -/
  decryptFileCalls : List FilePackage
  /-- The `addFileToList` calls made for received files. -/
  filesList : List FileInfo
  /-- The `console.error` calls of `handleDataChannelMessage`. -/
  errors : List String

/-- A freshly constructed application (`pendingFileTransfers = new Map()`). -/
def App.init : App :=
  { pendingFileTransfers := [], whiteboardReady := false, chatMessages := [],
    whiteboardActions := [], completeCalls := [], decryptFileCalls := [], filesList := [],
    errors := [] }

/-- The loop `transfer.chunks.forEach(chunk => { dataArray.set(chunk, offset); offset +=
chunk.length })` of `completeFileTransfer`, over the chunks that are present. -/
def copyChunks : List (List Nat) → List Nat → Nat → Except String (List Nat)
  | [], dataArray, _ => .ok dataArray
  | chunk :: rest, dataArray, offset =>
    match typedArraySet dataArray chunk offset with
    | .error e => .error e
    | .ok dataArray => copyChunks rest dataArray (offset + chunk.length)

/-- `RTCCollabApp.completeFileTransfer(fileId)` (app.js 439-469): the state afterwards and
the exception it ends with, if any.  `transfer.chunks.flat()` leaves the `Uint8Array`
elements as they are (a typed array is not an array), so `allChunks.length` is the number of
chunks present. -/
def completeFileTransfer (co : Collaborators) (app : App) (fileId : JsVal) :
    App × Option String :=
  let app := { app with completeCalls := app.completeCalls ++ [fileId] }
  match app.pendingFileTransfers.get fileId with
  | none => (app, none)
  | some transfer =>
    let allChunks := transfer.chunks.present
    let dataArray := List.replicate allChunks.length 0
    match copyChunks transfer.chunks.present dataArray 0 with
    | .error e => (app, some e)
    | .ok dataArray =>
      let encryptedPackage : FilePackage :=
        { iv := transfer.iv, data := dataArray, type := transfer.fileType,
          name := transfer.fileName, size := transfer.fileSize }
      let app := { app with decryptFileCalls := app.decryptFileCalls ++ [encryptedPackage] }
      match co.decryptFile encryptedPackage with
      | .error e => (app, some e)
      | .ok blob =>
        let fileInfo : FileInfo :=
          { name := transfer.fileName, size := transfer.fileSize,
            type := transfer.fileType, blob := blob }
        let app := { app with filesList := app.filesList ++ [fileInfo] }
        ({ app with pendingFileTransfers := app.pendingFileTransfers.delete fileId }, none)

/-- The `catch` block of `handleDataChannelMessage`. -/
def App.logError (app : App) (e : String) : App :=
  { app with errors := app.errors ++ [e] }

/-- The assignment `array.length = n`: the array is cut, or grows with holes. -/
def SparseArray.setLength {α : Type} (a : SparseArray α) (n : Nat) : SparseArray α :=
  if n ≤ a.length then a.take n else a ++ List.replicate (n - a.length) none

/-- Whether the property key of the value is `length`.  Only a string, or an array whose
elements join to it, has this key: the key of a number is a numeral, `NaN` or `Infinity`,
and that of a boolean, `null`, `undefined` or an object is `true`, `false`, `null`,
`undefined` or `[object Object]`. -/
def JsVal.isLengthKey (key : JsVal) : Bool :=
  match key with
  | .str s => s == "length"
  | .arr xs => (JsVal.arr xs).toPropertyKey == "length"
  | _ => false

/-- The assignment `transfer.chunks[data.chunkIndex] = new Uint8Array(data.chunk)`
(app.js 427) on the slot array, for the bytes of the new typed array.  With an array index
the element is stored.  With the key `length` the length of the array is assigned: the
typed array converts to a number through the string of its elements joined by commas, which
is 0 for no element and the element for one; for more it is `NaN` and the assignment throws
a `RangeError`.  Any other key names an ordinary property of the array object: its elements
and its length stay as they are (the methods of the array, which a property named `filter`,
`flat`, `forEach` or `__proto__` would hide, are taken as they were). -/
def storeChunk (chunks : SparseArray (List Nat)) (key : JsVal) (bytes : List Nat) :
    Except String (SparseArray (List Nat)) :=
  match key.arrayIndex with
  | some i => .ok (chunks.assign i bytes)
  | none =>
    if key.isLengthKey then
      match bytes with
      | [] => .ok (chunks.setLength 0)
      | [b] => .ok (chunks.setLength b)
      | _ => .error "RangeError: Invalid array length"
    else .ok chunks

/-- The branch `data.type === 'file-chunk'` of `handleDataChannelMessage`
(app.js 424-432). -/
def handleFileChunk (co : Collaborators) (app : App) (data : JsVal) : App :=
  match app.pendingFileTransfers.get (data.field "fileId") with
  | none => app
  | some transfer =>
    match newUint8Array (data.field "chunk") with
    | .error e => app.logError e
    | .ok bytes =>
      match storeChunk transfer.chunks (data.field "chunkIndex") bytes with
      | .error e => app.logError e
      | .ok chunks =>
        let transfer := { transfer with chunks := chunks }
        let app := { app with pendingFileTransfers :=
          app.pendingFileTransfers.set (data.field "fileId") transfer }
        if transfer.totalChunks = .num (Int.ofNat transfer.chunks.present.length) then
          match completeFileTransfer co app (data.field "fileId") with
          | (app, none) => app
          | (app, some e) => app.logError e
        else app

/-- `RTCCollabApp.handleDataChannelMessage(peerId, dataString)` (app.js 402-437).  The
argument is the result of `JSON.parse(dataString)`, `none` when it throws. -/
def handleDataChannelMessage (co : Collaborators) (app : App) (parsed : Option JsVal) : App :=
  match parsed with
  | none => app.logError "SyntaxError: JSON.parse"
  | some data =>
    match data.prop "type" with
    | .error e => app.logError e
    | .ok type =>
      if type.isStr "chat" then
        match co.decrypt data with
        | .error e => app.logError e
        | .ok decrypted =>
          match decrypted.prop "sender" with
          | .error e => app.logError e
          | .ok sender =>
            { app with chatMessages := app.chatMessages ++
              [{ sender := sender, message := decrypted.field "message",
                 timestamp := decrypted.field "timestamp" }] }
      else if type.isStr "whiteboard" then
        if app.whiteboardReady then
          match (data.field "action").prop "tool" with
          | .error e => app.logError e
          | .ok _ => { app with whiteboardActions := app.whiteboardActions ++
                        [data.field "action"] }
        else app.logError "TypeError: cannot read properties of null"
      else if type.isStr "file-start" then
        let transfer : Transfer :=
          { fileName := data.field "fileName", fileType := data.field "fileType",
            fileSize := data.field "fileSize", totalChunks := data.field "totalChunks",
            iv := data.field "iv", chunks := [] }
        { app with pendingFileTransfers :=
            app.pendingFileTransfers.set (data.field "fileId") transfer }
      else if type.isStr "file-chunk" then handleFileChunk co app data
      else app

/-- Delivery of a sequence of channel messages, in order. -/
def deliverAll (co : Collaborators) (app : App) (messages : List JsVal) : App :=
  messages.foldl (fun app m => handleDataChannelMessage co app (some m)) app

/-- `CryptoManager.encrypt(data)` (crypto.js 41-64): the returned object.  `iv` is the
value drawn by `getRandomValues`, `cipher` the bytes that AES-GCM gives for the encoded
`JSON.stringify(data)`. -/
def encrypt (iv : List Nat) (cipher : JsVal → List Nat) (data : JsVal) : JsVal :=
  .obj [("iv", JsVal.ofBytes iv), ("data", JsVal.ofBytes (cipher data))]

/-- `RTCCollabApp.sendChatMessage()` (app.js 310-330): the value handed to
`webrtcManager.sendData`, which writes its `JSON.stringify` on every open channel; `none`
when the method returns early.  `message` is the trimmed input, `username` the name of
the current user, `timestamp` the value of `new Date().toISOString()`. -/
def sendChatMessage (hasManager : Bool) (iv : List Nat) (cipher : JsVal → List Nat)
    (username message timestamp : String) : Option JsVal :=
  if message = "" ∨ hasManager = false then none
  else some (encrypt iv cipher (.obj [("type", .str "chat"), ("sender", .str username),
    ("message", .str message), ("timestamp", .str timestamp)]))

/-- The `file-start` message of `shareFile` (app.js 369-377). -/
def fileStartMessage (fileId fileName fileType fileSize iv : JsVal) (totalChunks : Nat) :
    JsVal :=
  JsVal.stringifyObj [("type", .str "file-start"), ("fileId", fileId), ("fileName", fileName),
    ("fileType", fileType), ("fileSize", fileSize),
    ("totalChunks", .num (Int.ofNat totalChunks)), ("iv", iv)]

/-- The `file-chunk` message of `shareFile` for the chunk at position `index`
(app.js 381-386). -/
def fileChunkMessage (fileId : JsVal) (index : Nat) (chunk : List Nat) : JsVal :=
  JsVal.stringifyObj [("type", .str "file-chunk"), ("fileId", fileId),
    ("chunkIndex", .num (Int.ofNat index)), ("chunk", JsVal.ofBytes chunk)]

/-- The `file-chunk` messages of `shareFile`, in the order in which the timers fire. -/
def fileChunkMessages (fileId : JsVal) (chunks : List (List Nat)) : List JsVal :=
  chunks.enum.map (fun ic => fileChunkMessage fileId ic.1 ic.2)

/-- The messages that `shareFile` (app.js 366-388) hands to `sendData` for the encrypted
file bytes `data`, in order; `none` if `chunkArray` does not return. -/
def shareFileMessages (fileId fileName fileType fileSize iv : JsVal) (data : List Nat) :
    Option (List JsVal) :=
  match chunkArray data 16384 with
  | none => none
  | some chunks =>
    some (fileStartMessage fileId fileName fileType fileSize iv chunks.length
      :: fileChunkMessages fileId chunks)

/-! ## Signaling relay (`src/supabase/functions/signaling/index.ts`) -/

/-- The identity of a `WebSocket` object. -/
abbrev Handle := Nat

/-- A room of the registry: peer identifier to socket (`Map<string, WebSocket>`). -/
abbrev Room := JsMap JsVal Handle

/-- The room registry `rooms` (index.ts 1). -/
abbrev Rooms := JsMap JsVal Room

/-- The variables `userId` and `roomId` of one connection (index.ts 29-30); both start
as `null`. -/
structure Closure where
  userId : JsVal
  roomId : JsVal
deriving DecidableEq

/-- The variables of a connection that has not joined. -/
def Closure.init : Closure := { userId := .null, roomId := .null }

/-- What a handler of the relay leaves behind: the registry, the variables of the
connection, and the `send` calls it made (socket and message, in order). -/
structure Effect where
  rooms : Rooms
  vars : Closure
  sent : List (Handle × JsVal)
deriving DecidableEq

/-- The message `peer-joined` of the protocol, `user-joined` on the wire
(index.ts 57-61). -/
def userJoined (userId roomId : JsVal) : JsVal :=
  JsVal.stringifyObj [("type", .str "user-joined"), ("from", userId), ("roomId", roomId)]

/-- The message `peer-left` of the protocol, `user-left` on the wire (index.ts 103-107). -/
def userLeft (userId roomId : JsVal) : JsVal :=
  JsVal.stringifyObj [("type", .str "user-left"), ("from", userId), ("roomId", roomId)]

/-- The message that the relay forwards for an offer, answer or candidate
(index.ts 74-81). -/
def forwarded (vars : Closure) (message : JsVal) : JsVal :=
  JsVal.stringifyObj [("type", message.field "type"), ("from", vars.userId),
    ("roomId", vars.roomId), ("offer", message.field "offer"),
    ("answer", message.field "answer"), ("candidate", message.field "candidate")]

/-- The case `"join"` of `socket.onmessage` (index.ts 42-64). -/
def onJoin (isOpen : Handle → Bool) (rooms : Rooms) (socket : Handle) (message : JsVal) :
    Effect :=
  let userId := message.field "username"
  let roomId := message.field "roomId"
  let rooms := if rooms.has roomId then rooms else rooms.set roomId []
  let room := ((rooms.get roomId).getD []).set userId socket
  { rooms := rooms.set roomId room
    vars := { userId := userId, roomId := roomId }
    sent := room.filterMap (fun entry =>
      if entry.1 ≠ userId ∧ isOpen entry.2 = true then
        some (entry.2, userJoined userId roomId)
      else none) }

/-- The cases `"offer"`, `"answer"`, `"ice-candidate"` of `socket.onmessage`
(index.ts 66-84). -/
def onForward (isOpen : Handle → Bool) (rooms : Rooms) (vars : Closure) (message : JsVal) :
    Effect :=
  if vars.roomId.truthy && rooms.has vars.roomId then
    let room := (rooms.get vars.roomId).getD []
    match room.get (message.field "to") with
    | some targetSocket =>
      if isOpen targetSocket then
        { rooms := rooms, vars := vars, sent := [(targetSocket, forwarded vars message)] }
      else { rooms := rooms, vars := vars, sent := [] }
    | none => { rooms := rooms, vars := vars, sent := [] }
  else { rooms := rooms, vars := vars, sent := [] }

/-- The `try` block of `socket.onmessage` (index.ts 38-88): an `error` is an exception
thrown inside it.  The argument `parsed` is the result of `JSON.parse(event.data)`, `none`
when it throws; `isOpen s` tells whether `s.readyState === WebSocket.OPEN`. -/
def onmessageTry (isOpen : Handle → Bool) (rooms : Rooms) (socket : Handle) (vars : Closure)
    (parsed : Option JsVal) : Except String Effect :=
  match parsed with
  | none => .error "SyntaxError: JSON.parse"
  | some message =>
    match message.prop "type" with
    | .error e => .error e
    | .ok type =>
      if type.isStr "join" then .ok (onJoin isOpen rooms socket message)
      else if type.isStr "offer" || type.isStr "answer" || type.isStr "ice-candidate" then
        .ok (onForward isOpen rooms vars message)
      else .ok { rooms := rooms, vars := vars, sent := [] }

/-- `socket.onmessage` (index.ts 36-92): the `catch` block logs the exception, which is
thrown before anything has been changed. -/
def onmessage (isOpen : Handle → Bool) (rooms : Rooms) (socket : Handle) (vars : Closure)
    (parsed : Option JsVal) : Effect :=
  match onmessageTry isOpen rooms socket vars parsed with
  | .ok effect => effect
  | .error _ => { rooms := rooms, vars := vars, sent := [] }

/-- `socket.onclose` (index.ts 94-115). -/
def onclose (isOpen : Handle → Bool) (rooms : Rooms) (vars : Closure) : Effect :=
  if vars.roomId.truthy && vars.userId.truthy && rooms.has vars.roomId then
    let room := ((rooms.get vars.roomId).getD []).delete vars.userId
    { rooms := if room.length = 0 then rooms.delete vars.roomId
               else rooms.set vars.roomId room
      vars := vars
      sent := room.filterMap (fun entry =>
        if isOpen entry.2 = true then some (entry.2, userLeft vars.userId vars.roomId)
        else none) }
  else { rooms := rooms, vars := vars, sent := [] }

/-- The client message `join` (webrtc.js 31-35). -/
def joinMessage (roomId username : JsVal) : JsVal :=
  JsVal.stringifyObj [("type", .str "join"), ("roomId", roomId), ("username", username)]

/-- The relay as a whole: the registry, the connections accepted so far with their
variables and whether their socket is in state `OPEN`, and the messages sent. -/
structure Relay where
  rooms : Rooms
  conns : JsMap Handle (Closure × Bool)
  sent : List (Handle × JsVal)
deriving DecidableEq

/-- The relay before any connection. -/
def Relay.init : Relay := { rooms := [], conns := [], sent := [] }

/-- Whether the socket is in state `OPEN`. -/
def Relay.isOpen (relay : Relay) (socket : Handle) : Bool :=
  match relay.conns.get socket with
  | some conn => conn.2
  | none => false

/-- What happens at the relay. -/
inductive RelayEvent where
  /-- A new connection is accepted (`Deno.upgradeWebSocket`) on a socket not seen before. -/
  | connect (socket : Handle)
  /-- A message event on an open socket, with the result of `JSON.parse`. -/
  | message (socket : Handle) (parsed : Option JsVal)
  /-- The socket leaves state `OPEN` and its close event fires. -/
  | close (socket : Handle)

/-- One event at the relay.  An event that cannot happen (a message or a close on a socket
that is not open, a second connection on the same socket) changes nothing. -/
def Relay.step (relay : Relay) : RelayEvent → Relay
  | .connect socket =>
    if relay.conns.has socket then relay
    else { relay with conns := relay.conns.set socket (Closure.init, true) }
  | .message socket parsed =>
    match relay.conns.get socket with
    | some (vars, true) =>
      let effect := onmessage relay.isOpen relay.rooms socket vars parsed
      { rooms := effect.rooms
        conns := relay.conns.set socket (effect.vars, true)
        sent := relay.sent ++ effect.sent }
    | _ => relay
  | .close socket =>
    match relay.conns.get socket with
    | some (vars, true) =>
      let conns := relay.conns.set socket (vars, false)
      let closing : Relay := { relay with conns := conns }
      let effect := onclose closing.isOpen relay.rooms vars
      { rooms := effect.rooms, conns := conns, sent := relay.sent ++ effect.sent }
    | _ => relay

/-- A sequence of events at the relay, from a given state. -/
def Relay.run (relay : Relay) (events : List RelayEvent) : Relay :=
  events.foldl Relay.step relay

/-- No room of the registry is empty. -/
def Rooms.NoEmptyRoom (rooms : Rooms) : Prop :=
  ∀ entry ∈ rooms, entry.2 ≠ []

/-! ## Mesh coordinator (`src/webrtc.js`) -/

/-- The `readyState` of a socket or of a data channel. -/
inductive ReadyState where
  | connecting
  | «open»
  | closing
  | closed
deriving DecidableEq

/-- What the browser's `RTCPeerConnection` answers to the calls that one handler makes on
it: the description that `createOffer()` and `createAnswer()` resolve to (an `error` is a
rejected promise), and the exception, if any, of `setLocalDescription`,
`setRemoteDescription` (given the description received) and `addIceCandidate`. -/
structure Transport where
  createOffer : Except String JsVal
  createAnswer : Except String JsVal
  setLocalDescription : JsVal → Option String
  setRemoteDescription : JsVal → Option String
  addIceCandidate : JsVal → Option String

/-- Every call of the handler on the browser's peer connection succeeds. -/
def Transport.Succeeds (transport : Transport) : Prop :=
  (∃ offer, transport.createOffer = .ok offer) ∧
  (∃ answer, transport.createAnswer = .ok answer) ∧
  (∀ description, transport.setLocalDescription description = none) ∧
  (∀ description, transport.setRemoteDescription description = none) ∧
  (∀ candidate, transport.addIceCandidate candidate = none)

/-- The state of a `WebRTCManager` (webrtc.js 2-22) with the calls it has made.  Peer
connections and data channels are numbered in the order of their creation. -/
structure Manager where
  username : JsVal
  roomId : JsVal
  /-- The local stream, if captured. -/
  localStream : Option Nat
  /-- The screen capture stream, if any. -/
  screenStream : Option Nat
  /-- The map `peers`: peer identifier to `RTCPeerConnection`. -/
  peers : JsMap JsVal Nat
  /-- The map `dataChannels`: peer identifier to `RTCDataChannel`. -/
  dataChannels : JsMap JsVal Nat
  /-- The relay socket `ws` with its `readyState`, `none` for `null`. -/
  ws : Option ReadyState
  /-- The number of peer connections and data channels created so far. -/
  created : Nat
  /-- The messages written on `ws`, in order. -/
  signals : List JsVal
  /-- The peer connections and data channels on which `close()` has been called. -/
  closed : List Nat
  /-- The `onRemoveStream` calls. -/
  removed : List JsVal

/-- A manager after `new WebRTCManager(url, username)` and `connect(roomId)` once the
socket is open (webrtc.js 2-37), before the join message is written. -/
def Manager.connected (username roomId : JsVal) : Manager :=
  { username := username, roomId := roomId, localStream := none, screenStream := none,
    peers := [], dataChannels := [], ws := some .open, created := 0, signals := [],
    closed := [], removed := [] }

/-- `WebRTCManager.sendSignal(message)` (webrtc.js 180-188) for a message with the given
properties, none of them named `roomId` or `from`. -/
def sendSignal (m : Manager) (fields : List (String × JsVal)) : Manager :=
  if m.ws = some .open then
    { m with signals := m.signals ++
        [JsVal.stringifyObj (fields ++ [("roomId", m.roomId), ("from", m.username)])] }
  else m

/-- The message that `sendSignal` writes for an offer, answer or candidate. -/
def signalMessage (m : Manager) (type : String) (peerId : JsVal) (name : String)
    (payload : JsVal) : JsVal :=
  JsVal.stringifyObj ([("type", .str type), ("to", peerId), (name, payload)] ++
    [("roomId", m.roomId), ("from", m.username)])

/-- The synchronous part of `WebRTCManager.createPeerConnection(peerId, _)`
(webrtc.js 77-118): a new connection is stored under `peerId` in `peers`, a new data
channel under `peerId` in `dataChannels`.  Returns the state and the new connection. -/
def newPeerConnection (m : Manager) (peerId : JsVal) : Manager × Nat :=
  ({ m with peers := m.peers.set peerId m.created
            dataChannels := m.dataChannels.set peerId (m.created + 1)
            created := m.created + 2 }, m.created)

/-- `WebRTCManager.createPeerConnection(peerId, createOffer)` (webrtc.js 76-132): the state
afterwards and the exception it ends with, if any. -/
def createPeerConnection (transport : Transport) (m : Manager) (peerId : JsVal)
    (createOffer : Bool) : Manager × Option String :=
  let m := (newPeerConnection m peerId).1
  if createOffer then
    match transport.createOffer with
    | .error e => (m, some e)
    | .ok offer =>
      match transport.setLocalDescription offer with
      | some e => (m, some e)
      | none => (sendSignal m [("type", .str "offer"), ("to", peerId), ("offer", offer)], none)
  else (m, none)

/-- `WebRTCManager.handleOffer(peerId, offer)` (webrtc.js 152-164). -/
def handleOffer (transport : Transport) (m : Manager) (peerId offer : JsVal) :
    Manager × Option String :=
  match createPeerConnection transport m peerId false with
  | (m, some e) => (m, some e)
  | (m, none) =>
    match transport.setRemoteDescription offer with
    | some e => (m, some e)
    | none =>
      match transport.createAnswer with
      | .error e => (m, some e)
      | .ok answer =>
        match transport.setLocalDescription answer with
        | some e => (m, some e)
        | none =>
          (sendSignal m [("type", .str "answer"), ("to", peerId), ("answer", answer)], none)

/-- `WebRTCManager.handleAnswer(peerId, answer)` (webrtc.js 166-171). -/
def handleAnswer (transport : Transport) (m : Manager) (peerId answer : JsVal) :
    Manager × Option String :=
  match m.peers.get peerId with
  | some _ => (m, transport.setRemoteDescription answer)
  | none => (m, none)

/-- `WebRTCManager.handleIceCandidate(peerId, candidate)` (webrtc.js 173-178). -/
def handleIceCandidate (transport : Transport) (m : Manager) (peerId candidate : JsVal) :
    Manager × Option String :=
  match m.peers.get peerId with
  | some _ => (m, transport.addIceCandidate candidate)
  | none => (m, none)

/-- `WebRTCManager.removePeer(peerId)` (webrtc.js 284-300), with `onRemoveStream` set. -/
def removePeer (m : Manager) (peerId : JsVal) : Manager :=
  let m := match m.peers.get peerId with
    | some peerConnection =>
      { m with closed := m.closed ++ [peerConnection], peers := m.peers.delete peerId }
    | none => m
  let m := match m.dataChannels.get peerId with
    | some dataChannel =>
      { m with closed := m.closed ++ [dataChannel],
               dataChannels := m.dataChannels.delete peerId }
    | none => m
  { m with removed := m.removed ++ [peerId] }

/-- `WebRTCManager.handleSignalingMessage(message)` (webrtc.js 50-74): the state afterwards
and the exception it ends with, if any. -/
def handleSignalingMessage (transport : Transport) (m : Manager) (message : JsVal) :
    Manager × Option String :=
  match message.prop "type" with
  | .error e => (m, some e)
  | .ok type =>
    let sender := message.field "from"
    if type.isStr "user-joined" then createPeerConnection transport m sender true
    else if type.isStr "offer" then handleOffer transport m sender (message.field "offer")
    else if type.isStr "answer" then handleAnswer transport m sender (message.field "answer")
    else if type.isStr "ice-candidate" then
      handleIceCandidate transport m sender (message.field "candidate")
    else if type.isStr "user-left" then (removePeer m sender, none)
    else (m, none)

/-- The callback `peerConnection.onicecandidate` of the connection created for `peerId`
(webrtc.js 103-111), for an event with the given candidate. -/
def onicecandidate (m : Manager) (peerId candidate : JsVal) : Manager :=
  if candidate.truthy then
    sendSignal m [("type", .str "ice-candidate"), ("to", peerId), ("candidate", candidate)]
  else m

/-! ## The mesh: one relay and the participants of one room -/

/-- The endpoint of a participant whose relay socket is open: its manager, the messages
that the relay has sent on its socket and that it has not handled yet (in order), and the
messages that it has written on its socket and that the relay has not received yet. -/
structure Client where
  manager : Manager
  inbox : List JsVal
  outbox : List JsVal

/-- The relay together with the connected participants, by socket. -/
structure Mesh where
  relay : Relay
  clients : JsMap Handle Client

/-- The mesh before anybody connects. -/
def Mesh.init : Mesh := { relay := Relay.init, clients := [] }

/-- What happens in the mesh. -/
inductive MeshEvent where
  /-- A participant opens a connection to the relay, on a socket not seen before, and
  writes its join message (webrtc.js 24-37). -/
  | connect (socket : Handle) (username : String)
  /-- The relay receives one of the messages that a participant has written. -/
  | receive (socket : Handle) (index : Nat)
  /-- A participant handles the next message from the relay (webrtc.js 43-46); the
  `transport` says what the browser answers during the handler. -/
  | handle (socket : Handle) (transport : Transport)
  /-- The browser of a participant reports a connectivity candidate on the connection
  that `peers` holds for `peerId` (webrtc.js 103-111). -/
  | candidate (socket : Handle) (peerId candidate : JsVal)
  /-- The connection of a participant closes. -/
  | disconnect (socket : Handle)

/-- The messages sent by the relay arrive, in order, in the inbox of the participant that
holds the socket. -/
def Mesh.deliver (clients : JsMap Handle Client) (sent : List (Handle × JsVal)) :
    JsMap Handle Client :=
  clients.map (fun entry => (entry.1, { entry.2 with inbox := entry.2.inbox ++
    (sent.filter (fun hm => decide (hm.1 = entry.1))).map Prod.snd }))

/-- An event at the relay, and the delivery of what the relay sends. -/
def Mesh.atRelay (mesh : Mesh) (event : RelayEvent) : Mesh :=
  let relay := ({ mesh.relay with sent := [] }).step event
  { relay := { relay with sent := [] }, clients := Mesh.deliver mesh.clients relay.sent }

/-- One event in the mesh of room `room`.  An event that cannot happen changes nothing. -/
def Mesh.step (room : String) (mesh : Mesh) : MeshEvent → Mesh
  | .connect socket username =>
    if mesh.relay.conns.has socket then mesh
    else
      let mesh := mesh.atRelay (.connect socket)
      let client : Client :=
        { manager := Manager.connected (.str username) (.str room), inbox := [],
          outbox := [joinMessage (.str room) (.str username)] }
      { mesh with clients := mesh.clients.set socket client }
  | .receive socket index =>
    match mesh.clients.get socket with
    | some client =>
      match client.outbox.get? index with
      | some message =>
        let client : Client := { client with outbox := client.outbox.eraseIdx index }
        let mesh : Mesh := { mesh with clients := mesh.clients.set socket client }
        mesh.atRelay (.message socket (some message))
      | none => mesh
    | none => mesh
  | .handle socket transport =>
    match mesh.clients.get socket with
    | some client =>
      match client.inbox with
      | message :: rest =>
        let manager :=
          (handleSignalingMessage transport { client.manager with signals := [] } message).1
        let client : Client :=
          { manager := { manager with signals := [] }, inbox := rest,
            outbox := client.outbox ++ manager.signals }
        { mesh with clients := mesh.clients.set socket client }
      | [] => mesh
    | none => mesh
  | .candidate socket peerId candidate =>
    match mesh.clients.get socket with
    | some client =>
      if client.manager.peers.has peerId then
        let manager := onicecandidate { client.manager with signals := [] } peerId candidate
        let client : Client :=
          { client with manager := { manager with signals := [] },
                        outbox := client.outbox ++ manager.signals }
        { mesh with clients := mesh.clients.set socket client }
      else mesh
    | none => mesh
  | .disconnect socket =>
    match mesh.clients.get socket with
    | some _ =>
      let mesh : Mesh := { mesh with clients := mesh.clients.delete socket }
      mesh.atRelay (.close socket)
    | none => mesh

/-- A sequence of events in the mesh of room `room`, from a given state. -/
def Mesh.run (room : String) (mesh : Mesh) (events : List MeshEvent) : Mesh :=
  events.foldl (Mesh.step room) mesh

/-- Every message has been handled: no participant has a message waiting in either
direction. -/
def Mesh.Quiescent (mesh : Mesh) : Prop :=
  ∀ entry ∈ mesh.clients, entry.2.inbox = [] ∧ entry.2.outbox = []

/-- The identifiers of the participants still connected, other than the one on `socket`. -/
def Mesh.others (mesh : Mesh) (socket : Handle) : List JsVal :=
  (mesh.clients.filter (fun entry => decide (entry.1 ≠ socket))).map
    (fun entry => entry.2.manager.username)

/-- The event is one that the participants of the mesh can cause: a participant that
connects has a non-empty identifier, different from those of the participants already
connected, and the browser's calls succeed during a handler. -/
def Mesh.Admissible (mesh : Mesh) : MeshEvent → Prop
  | .connect _ username =>
    username ≠ "" ∧ ∀ entry ∈ mesh.clients, entry.2.manager.username ≠ .str username
  | .handle _ transport => transport.Succeeds
  | _ => True

/-- Every event of the sequence is admissible in the state in which it happens. -/
def Mesh.AdmissibleRun (room : String) : Mesh → List MeshEvent → Prop
  | _, [] => True
  | mesh, event :: events =>
    mesh.Admissible event ∧ Mesh.AdmissibleRun room (mesh.step room event) events

/-- A browser whose calls all succeed. -/
def Transport.succeeding : Transport :=
  { createOffer := .ok (.obj [("type", .str "offer"), ("sdp", .str "v=0")])
    createAnswer := .ok (.obj [("type", .str "answer"), ("sdp", .str "v=0")])
    setLocalDescription := fun _ => none
    setRemoteDescription := fun _ => none
    addIceCandidate := fun _ => none }

/-! ## Mesh completeness: the invariant

A participant's map `peers` changes only when it handles a relay message, so what it will
hold once the inbox is empty can be read off the inbox (`Client.finalHas`).  The invariant
`MeshInv` says that the relay and the participants agree on who has joined, that every
participant is on its way to holding every other participant that has joined (the
notification or the offer that will make it so is in flight), and that it is on its way to
holding nobody else. -/

/-- The effect of a relay message on the map `peers`: the peer identifier that
`handleSignalingMessage` stores (`true`) or deletes (`false`), if any. -/
def peerEffect (message : JsVal) : Option (JsVal × Bool) :=
  match message.prop "type" with
  | .error _ => none
  | .ok type =>
    if type.isStr "user-joined" then some (message.field "from", true)
    else if type.isStr "offer" then some (message.field "from", true)
    else if type.isStr "answer" then none
    else if type.isStr "ice-candidate" then none
    else if type.isStr "user-left" then some (message.field "from", false)
    else none

/-- Whether `peers` has the key `peerId` after a message with the given effect. -/
def applyEffect (peerId : JsVal) (has : Bool) (message : JsVal) : Bool :=
  match peerEffect message with
  | some (p, v) => if p = peerId then v else has
  | none => has

/-- Whether `peers` has the key `peerId` once the messages have been handled. -/
def finalHas (peerId : JsVal) (has : Bool) (inbox : List JsVal) : Bool :=
  inbox.foldl (applyEffect peerId) has

/-- Whether the participant will have `peerId` in `peers` once it has handled its inbox. -/
def Client.finalHas (client : Client) (peerId : JsVal) : Bool :=
  RTCCollab.finalHas peerId (client.manager.peers.has peerId) client.inbox

/-- The messages of a list of sends that go to one socket. -/
def messagesTo (sent : List (Handle × JsVal)) (socket : Handle) : List JsVal :=
  (sent.filter (fun hm => decide (hm.1 = socket))).map Prod.snd

/-- The members of the room of the mesh in the registry. -/
def Mesh.members (room : String) (mesh : Mesh) : Room :=
  (mesh.relay.rooms.get (.str room)).getD []

/-- The relay has registered the join of the participant on `socket`. -/
def Mesh.Joined (room : String) (mesh : Mesh) (socket : Handle) (client : Client) : Prop :=
  mesh.relay.conns.get socket = some (⟨client.manager.username, .str room⟩, true)

/-- A message that a participant named `u` may have written after its join. -/
def OutOk (u : String) (message : JsVal) : Prop :=
  ∃ t, message.prop "type" = .ok (.str t) ∧
    (t = "offer" ∨ t = "answer" ∨ t = "ice-candidate") ∧
    (t = "offer" → message.field "to" ≠ .str u)

/-- A message that the relay may have sent to a participant named `u`: it does not make
the participant a peer of itself. -/
def InOk (u : String) (message : JsVal) : Prop :=
  peerEffect message ≠ some (.str u, true)

/-- An offer addressed to `peerId`. -/
def IsOfferTo (peerId : JsVal) (message : JsVal) : Prop :=
  message.prop "type" = .ok (.str "offer") ∧ message.field "to" = peerId

/-- A joined-notification about `peerId`. -/
def IsUserJoinedFrom (peerId : JsVal) (message : JsVal) : Prop :=
  message.prop "type" = .ok (.str "user-joined") ∧ message.field "from" = peerId

/-- The state of one participant agrees with the relay: either its join message is still
on its way, or the relay has registered it. -/
def ClientOk (room : String) (mesh : Mesh) (socket : Handle) (client : Client) : Prop :=
  ∃ u : String, u ≠ "" ∧ client.manager.username = .str u ∧
    client.manager.roomId = .str room ∧ client.manager.ws = some .open ∧
    ((mesh.relay.conns.get socket = some (Closure.init, true) ∧
        JsMap.get (mesh.members room) (.str u) = none ∧
        client.outbox = [joinMessage (.str room) (.str u)] ∧ client.inbox = [] ∧
        client.manager.peers = []) ∨
     (mesh.relay.conns.get socket = some (⟨.str u, .str room⟩, true) ∧
        JsMap.get (mesh.members room) (.str u) = some socket ∧
        (∀ message ∈ client.outbox, OutOk u message) ∧
        (∀ message ∈ client.inbox, InOk u message)))

/-- The invariant of the mesh of room `room`. -/
structure MeshInv (room : String) (mesh : Mesh) : Prop where
  nodup : (mesh.clients.map Prod.fst).Nodup
  closed : ∀ h, mesh.clients.get h = none → mesh.relay.isOpen h = false
  names : ∀ h g c d, mesh.clients.get h = some c → mesh.clients.get g = some d →
    c.manager.username = d.manager.username → h = g
  clientOk : ∀ h c, mesh.clients.get h = some c → ClientOk room mesh h c
  membersOk : ∀ entry ∈ mesh.members room, ∃ c, mesh.clients.get entry.2 = some c ∧
    c.manager.username = entry.1 ∧ mesh.Joined room entry.2 c
  expect : ∀ h g c d, h ≠ g → mesh.clients.get h = some c → mesh.clients.get g = some d →
    mesh.Joined room h c → mesh.Joined room g d →
    c.finalHas d.manager.username = true ∨
    (∃ message ∈ d.outbox, IsOfferTo c.manager.username message) ∨
    (∃ message ∈ d.inbox, IsUserJoinedFrom c.manager.username message)
  absent : ∀ h c b, mesh.clients.get h = some c →
    (∀ g d, g ≠ h → mesh.clients.get g = some d → mesh.Joined room g d →
      d.manager.username ≠ b) →
    c.finalHas b = false

/-- The participant with more messages in its inbox. -/
def Client.push (client : Client) (messages : List JsVal) : Client :=
  { client with inbox := client.inbox ++ messages }

/-- The participant after it has handled the first message of its inbox. -/
def Client.handled (transport : Transport) (client : Client) (message : JsVal)
    (rest : List JsVal) : Client :=
  { manager :=
      { (handleSignalingMessage transport { client.manager with signals := [] }
          message).1 with signals := [] },
    inbox := rest,
    outbox := client.outbox ++
      (handleSignalingMessage transport { client.manager with signals := [] }
        message).1.signals }

/-- A run of the mesh: `alice` joins, `bob` joins, `alice` offers, `bob` answers. -/
def Mesh.exampleRun : List MeshEvent :=
  [.connect 1 "alice", .receive 1 0, .connect 2 "bob", .receive 2 0,
   .handle 1 Transport.succeeding, .receive 1 0, .handle 2 Transport.succeeding,
   .receive 2 0, .handle 1 Transport.succeeding]

/-! ## Mesh coordinator: data channels, broadcast and leaving -/

/-- `WebRTCManager.setupDataChannel(peerId, channel)` (webrtc.js 134-150): the channel is
stored under `peerId` in `dataChannels`; its handlers change nothing in the manager. -/
def setupDataChannel (m : Manager) (peerId : JsVal) (channel : Nat) : Manager :=
  { m with dataChannels := m.dataChannels.set peerId channel }

/-- The callback `peerConnection.ondatachannel` of a connection created for `peerId`
(webrtc.js 93-95): the channel of the event is a new object. -/
def ondatachannel (m : Manager) (peerId : JsVal) : Manager :=
  setupDataChannel { m with created := m.created + 1 } peerId m.created

/-- The callback `peerConnection.oniceconnectionstatechange` of a connection created for
`peerId` (webrtc.js 113-118), when the state is `disconnected` or `failed`. -/
def oniceconnectionstatechange (m : Manager) (peerId : JsVal) : Manager :=
  removePeer m peerId

/-- What the browser answers about the data channels during one call of `sendData`: the
`readyState` of each channel and the exception, if any, that `channel.send(message)`
throws. -/
structure Channels where
  readyState : Nat → ReadyState
  send : Nat → String → Option String

/-- The loop `this.dataChannels.forEach(...)` of `sendData` (webrtc.js 199-203) over the
entries still to visit: the writes made (channel and text, in order) and the exception that
ends the loop, if any. -/
def sendDataLoop (channels : Channels) (message : String) :
    List (JsVal × Nat) → List (Nat × String) → List (Nat × String) × Option String
  | [], written => (written, none)
  | (_, channel) :: rest, written =>
    if channels.readyState channel = .open then
      match channels.send channel message with
      | some e => (written, some e)
      | none => sendDataLoop channels message rest (written ++ [(channel, message)])
    else sendDataLoop channels message rest written

/-- The text that `sendData` writes for `data` (webrtc.js 191): `data` itself when it is a
string, `JSON.stringify(data)` otherwise. -/
def serialized (stringify : JsVal → String) (data : JsVal) : String :=
  match data with
  | .str text => text
  | data => stringify data

/-- `WebRTCManager.sendData(data, targetPeer)` (webrtc.js 190-205): the writes made on data
channels (channel and text, in order) and the exception it ends with, if any.  `stringify`
is `JSON.stringify`; `targetPeer` is `null` when the argument is left out. -/
def sendData (stringify : JsVal → String) (channels : Channels) (m : Manager) (data : JsVal)
    (targetPeer : JsVal) : List (Nat × String) × Option String :=
  let message := serialized stringify data
  if targetPeer.truthy then
    match m.dataChannels.get targetPeer with
    | some channel =>
      if channels.readyState channel = .open then
        match channels.send channel message with
        | some e => ([], some e)
        | none => ([(channel, message)], none)
      else ([], none)
    | none => ([], none)
  else sendDataLoop channels message m.dataChannels []

/-- `WebRTCManager.disconnect()` (webrtc.js 302-321).  `peers.forEach` visits every entry of
`peers`: the callback deletes from `peers` only the entry it is visiting.  Stopping the
tracks and closing the socket change nothing else in the manager. -/
def disconnect (m : Manager) : Manager :=
  let m := m.peers.keys.foldl removePeer m
  { m with localStream := none, screenStream := none, ws := none }

/-- A manager with the peer connections it has created that can still fire events: each
with the `peerId` that its callbacks hold (webrtc.js 93-118). -/
structure Session where
  manager : Manager
  callbacks : JsMap Nat JsVal

/-- A session right after `connect(roomId)`. -/
def Session.connected (username roomId : JsVal) : Session :=
  { manager := Manager.connected username roomId, callbacks := [] }

/-- What happens to a manager. -/
inductive ManagerEvent where
  /-- A message from the relay is handled (webrtc.js 43-46). -/
  | signal (transport : Transport) (message : JsVal)
  /-- The event `datachannel` fires on a connection that has not been closed. -/
  | datachannel (connection : Nat)
  /-- The event `iceconnectionstatechange` fires on a connection that has not been closed,
  with state `disconnected` or `failed`. -/
  | iceFailed (connection : Nat)
  /-- The application calls `disconnect()`. -/
  | disconnect

/-- One event of a session.  An event on a connection that the manager has not created or
has closed changes nothing. -/
def Session.step (s : Session) : ManagerEvent → Session
  | .signal transport message =>
    let m := (handleSignalingMessage transport s.manager message).1
    { manager := m
      callbacks :=
        if m.created = s.manager.created then s.callbacks
        else s.callbacks.set s.manager.created (message.field "from") }
  | .datachannel connection =>
    match s.callbacks.get connection with
    | some peerId =>
      if connection ∈ s.manager.closed then s
      else { s with manager := ondatachannel s.manager peerId }
    | none => s
  | .iceFailed connection =>
    match s.callbacks.get connection with
    | some peerId =>
      if connection ∈ s.manager.closed then s
      else { s with manager := oniceconnectionstatechange s.manager peerId }
    | none => s
  | .disconnect => { s with manager := disconnect s.manager }

/-- A sequence of events of a session. -/
def Session.run (s : Session) (events : List ManagerEvent) : Session :=
  events.foldl Session.step s

/-! ## Channel protocol layer: the slot array of a pending transfer -/

/-- The length of an array that started empty and whose elements at the given indices have
been assigned: one more than the largest index. -/
def slotBound (indices : List Nat) : Nat :=
  indices.foldr (fun i bound => max (i + 1) bound) 0

/-- The array that started empty and in which `stored i` has been assigned at every index
`i` of the list: holes at the other indices below the length. -/
def slotsOf (stored : Nat → List Nat) (indices : List Nat) : SparseArray (List Nat) :=
  (List.range (slotBound indices)).map
    (fun j => if j ∈ indices then some (stored j) else none)

/-- Whether `completeFileTransfer` runs to its end on the transfer: the copy into
`dataArray` does not throw and `decryptFile` resolves (app.js 443-468). -/
def Transfer.completes (co : Collaborators) (t : Transfer) : Bool :=
  match copyChunks t.chunks.present (List.replicate t.chunks.present.length 0) 0 with
  | .error _ => false
  | .ok dataArray =>
    match co.decryptFile { iv := t.iv, data := dataArray, type := t.fileType,
                           name := t.fileName, size := t.fileSize } with
    | .error _ => false
    | .ok _ => true

/-- The transfer with the chunks of the given indices stored in an empty slot array. -/
def Transfer.withChunks (t : Transfer) (stored : Nat → List Nat) (indices : List Nat) :
    Transfer :=
  { t with chunks := slotsOf stored indices }

/-- The transfer of `n` chunks has been reassembled and discarded once the chunks of the
given indices have been delivered: some chunk has been delivered, every index below `n`
has been, and `completeFileTransfer` runs to its end on the full slot array. -/
def Transfer.DoneAfter (co : Collaborators) (t : Transfer) (stored : Nat → List Nat)
    (n : Nat) (indices : List Nat) : Prop :=
  indices ≠ [] ∧ (∀ j, j < n → j ∈ indices) ∧
    (t.withChunks stored indices).completes co = true

/-- The message keeps within the declared chunk counts: a `file-start` message declares a
natural number of chunks, and the `chunkIndex` of a `file-chunk` message for a pending
transfer is a natural number below the declared chunk count of the transfer. -/
def WithinDeclared (app : App) (data : JsVal) : Prop :=
  (data.prop "type" = .ok (.str "file-start") →
    ∃ n : Nat, data.field "totalChunks" = .num (Int.ofNat n)) ∧
  (data.prop "type" = .ok (.str "file-chunk") →
    ∀ t, app.pendingFileTransfers.get (data.field "fileId") = some t →
      ∃ i n : Nat, data.field "chunkIndex" = .num (Int.ofNat i) ∧
        t.totalChunks = .num (Int.ofNat n) ∧ i < n)

/-- Every message of the sequence keeps within the declared chunk counts in the state in
which it is handled. -/
def WithinDeclaredRun (co : Collaborators) : App → List JsVal → Prop
  | _, [] => True
  | app, data :: rest =>
    WithinDeclared app data ∧
      WithinDeclaredRun co (handleDataChannelMessage co app (some data)) rest

/-- Every pending transfer declares a natural number of chunks and its slot array is not
longer than that. -/
def SlotsWithinDeclared (app : App) : Prop :=
  ∀ entry ∈ app.pendingFileTransfers,
    ∃ n : Nat, entry.2.totalChunks = .num (Int.ofNat n) ∧ entry.2.chunks.length ≤ n

/-! ## Accounts (`src/auth.js`) -/

/-- The UTF-16 code units of a string: what `charCodeAt` reads and `length` counts.  A
character outside the basic plane is a surrogate pair. -/
def utf16 (s : String) : List Nat :=
  (s.data.map (fun c =>
    if c.val.toNat < 65536 then [c.val.toNat]
    else [55296 + (c.val.toNat - 65536) / 1024, 56320 + (c.val.toNat - 65536) % 1024])).flatten

/-- The conversion `ToInt32`: the integer modulo `2^32`, as a signed 32-bit number. -/
def toInt32 (x : Int) : Int :=
  (x + 2147483648) % 4294967296 - 2147483648

/-- One iteration of the loop of `hashPassword` (auth.js 92-94):
`hash = ((hash << 5) - hash) + char; hash = hash & hash`. -/
def hashStep (hash : Int) (char : Nat) : Int :=
  toInt32 (toInt32 (hash * 32) - hash + Int.ofNat char)

/-- The digit of `toString(36)` for a value below 36. -/
def digit36 (d : Nat) : Char :=
  Char.ofNat (if d < 10 then 48 + d else 87 + d)

/-- The digits of a natural number in base 36, most significant first, before `acc`; the
first argument bounds the number of digits. -/
def digits36 : Nat → Nat → List Char → List Char
  | 0, _, acc => acc
  | fuel + 1, n, acc =>
    if n / 36 = 0 then digit36 (n % 36) :: acc
    else digits36 fuel (n / 36) (digit36 (n % 36) :: acc)

/-- The method `toString(36)` of an integer. -/
def toString36 (n : Int) : String :=
  if n < 0 then String.mk ('-' :: digits36 (n.natAbs + 1) n.natAbs [])
  else String.mk (digits36 (n.natAbs + 1) n.natAbs [])

/-- `AuthManager.hashPassword(password)` (auth.js 89-97). -/
def hashPassword (password : String) : String :=
  toString36 ((utf16 password).foldl hashStep 0)

/-- A value of the object `users`. -/
structure UserRecord where
  username : String
  password : String
  createdAt : String
deriving DecidableEq

/-- The object `currentUser`. -/
structure CurrentUser where
  username : String
  createdAt : String
deriving DecidableEq

/-- The state of an `AuthManager` with the local storage it uses: the field `currentUser`
(`none` for `null`), and the items `users` (the own properties of the parsed object, empty
when the item is absent) and `currentUser` of `localStorage`. -/
structure Auth where
  currentUser : Option CurrentUser
  users : JsMap String UserRecord
  storedCurrentUser : Option CurrentUser
deriving DecidableEq

/-- An `AuthManager` constructed on an empty `localStorage`. -/
def Auth.init : Auth := { currentUser := none, users := [], storedCurrentUser := none }

/-- The names of the properties that every object inherits from `Object.prototype`; all
of them have a truthy value without a property `password`. -/
def objectPrototypeKeys : List String :=
  ["constructor", "__defineGetter__", "__defineSetter__", "hasOwnProperty",
   "__lookupGetter__", "__lookupSetter__", "isPrototypeOf", "propertyIsEnumerable",
   "toString", "valueOf", "__proto__", "toLocaleString"]

/-- `AuthManager.register(username, password, confirmPassword)` (auth.js 14-42): the state
after a `true` result, or the message of the error thrown.  `now` is the value of
`new Date().toISOString()`. -/
def register (auth : Auth) (username password confirmPassword now : String) :
    Except String Auth :=
  if username = "" ∨ password = "" ∨ confirmPassword = "" then
    .error "All fields are required"
  else if password ≠ confirmPassword then .error "Passwords do not match"
  else if (utf16 password).length < 6 then .error "Password must be at least 6 characters"
  else if auth.users.has username = true ∨ username ∈ objectPrototypeKeys then
    .error "Username already exists"
  else
    let user : UserRecord :=
      { username := username, password := hashPassword password, createdAt := now }
    .ok { auth with users := auth.users.set username user }

/-- `AuthManager.login(username, password)` (auth.js 44-69): the state and the returned
`currentUser`, or the message of the error thrown.  A user found only on the prototype of
`users` has no `password`, which differs from every hash. -/
def login (auth : Auth) (username password : String) : Except String (Auth × CurrentUser) :=
  if username = "" ∨ password = "" then .error "Username and password are required"
  else
    match auth.users.get username with
    | none => .error "Invalid username or password"
    | some user =>
      if user.password ≠ hashPassword password then .error "Invalid username or password"
      else
        let currentUser : CurrentUser :=
          { username := user.username, createdAt := user.createdAt }
        .ok ({ auth with currentUser := some currentUser,
                         storedCurrentUser := some currentUser }, currentUser)

/-- `AuthManager.logout()` (auth.js 71-74). -/
def logout (auth : Auth) : Auth :=
  { auth with currentUser := none, storedCurrentUser := none }

/-- A call on an `AuthManager`. -/
inductive AuthCall where
  | register (username password confirmPassword now : String)
  | login (username password : String)
  | logout

/-- The state after a call; a call that throws leaves the state as it is. -/
def Auth.step (auth : Auth) : AuthCall → Auth
  | .register username password confirmPassword now =>
    match RTCCollab.register auth username password confirmPassword now with
    | .ok auth => auth
    | .error _ => auth
  | .login username password =>
    match RTCCollab.login auth username password with
    | .ok (auth, _) => auth
    | .error _ => auth
  | .logout => RTCCollab.logout auth

/-- The state after a sequence of calls. -/
def Auth.run (auth : Auth) (calls : List AuthCall) : Auth :=
  calls.foldl Auth.step auth

/-! ## Lemmas on `JsMap` -/

namespace JsMap

variable {κ ν : Type} [DecidableEq κ]

theorem get_nil (key : κ) : get ([] : JsMap κ ν) key = none := rfl

theorem get_cons (k : κ) (v : ν) (m : JsMap κ ν) (key : κ) :
    get ((k, v) :: m) key = if k = key then some v else get m key := by
  unfold get
  by_cases h : k = key <;> simp [List.find?, h]

theorem has_cons (k : κ) (v : ν) (m : JsMap κ ν) (key : κ) :
    has ((k, v) :: m) key = (decide (k = key) || has m key) := by
  simp [has]

theorem has_eq_isSome (m : JsMap κ ν) (key : κ) : has m key = (get m key).isSome := by
  induction m with
  | nil => rfl
  | cons kv m ih =>
    obtain ⟨k, v⟩ := kv
    rw [has_cons, get_cons, ih]
    by_cases h : k = key <;> simp [h]

theorem has_false_iff (m : JsMap κ ν) (key : κ) : has m key = false ↔ get m key = none := by
  rw [has_eq_isSome]
  cases get m key <;> simp

theorem get_append (m n : JsMap κ ν) (key : κ) :
    get (m ++ n) key = (get m key).orElse (fun _ => get n key) := by
  induction m with
  | nil => simp [get_nil]
  | cons kv m ih =>
    obtain ⟨k, v⟩ := kv
    rw [List.cons_append, get_cons, get_cons, ih]
    by_cases h : k = key <;> simp [h]

theorem get_map_replace (m : JsMap κ ν) (key : κ) (value : ν) (k : κ) :
    get (m.map (fun kv => if kv.1 = key then (key, value) else kv)) k =
      if k = key then (get m key).map (fun _ => value) else get m k := by
  induction m with
  | nil => simp [get_nil]
  | cons kv m ih =>
    obtain ⟨k', v'⟩ := kv
    rw [List.map_cons]
    by_cases h : k' = key
    · subst h
      simp only [if_true]
      rw [get_cons, get_cons, get_cons]
      by_cases hk : k = k'
      · subst hk; simp
      · have hk' : ¬ k' = k := fun e => hk e.symm
        simp only [hk, hk', if_false] at ih ⊢
        exact ih
    · simp only [h, if_false]
      rw [get_cons, get_cons, get_cons, ih]
      by_cases hk : k = key
      · subst hk; simp [h]
      · simp only [hk, if_false]

theorem get_set (m : JsMap κ ν) (key : κ) (value : ν) (k : κ) :
    get (set m key value) k = if k = key then some value else get m k := by
  unfold set
  by_cases hh : has m key = true
  · rw [if_pos hh, get_map_replace]
    by_cases hk : k = key
    · rw [has_eq_isSome] at hh
      simp only [hk, if_true]
      cases hg : get m key with
      | none => simp [hg] at hh
      | some _ => rfl
    · simp [hk]
  · rw [if_neg hh, get_append]
    have hn : get m key = none := (has_false_iff m key).1 (by simpa using hh)
    by_cases hk : k = key
    · subst hk; simp [hn, get_cons, get_nil]
    · have hk' : ¬ key = k := fun e => hk e.symm
      cases hg : get m k <;> simp [hk, hk', get_cons, get_nil]

theorem get_set_self (m : JsMap κ ν) (key : κ) (value : ν) :
    get (set m key value) key = some value := by
  rw [get_set]; simp

theorem get_set_of_ne (m : JsMap κ ν) (key : κ) (value : ν) (k : κ) (h : k ≠ key) :
    get (set m key value) k = get m k := by
  rw [get_set]; simp [h]

theorem get_delete (m : JsMap κ ν) (key : κ) (k : κ) :
    get (delete m key) k = if k = key then none else get m k := by
  induction m with
  | nil => simp [delete, get_nil]
  | cons kv m ih =>
    obtain ⟨k', v'⟩ := kv
    unfold delete at ih ⊢
    rw [List.filter_cons]
    by_cases h : k' = key
    · subst h
      simp only [decide_True, Bool.not_true, Bool.false_eq_true, if_false]
      rw [ih, get_cons]
      by_cases hk : k = k'
      · simp [hk]
      · have hk' : ¬ k' = k := fun e => hk e.symm
        simp [hk, hk']
    · simp only [h, decide_False, Bool.not_false, if_true]
      rw [get_cons, get_cons, ih]
      by_cases hk' : k' = k
      · subst hk'; simp [h]
      · simp [hk']

theorem get_delete_self (m : JsMap κ ν) (key : κ) : get (delete m key) key = none := by
  rw [get_delete]; simp

theorem has_set_self (m : JsMap κ ν) (key : κ) (value : ν) :
    has (set m key value) key = true := by
  rw [has_eq_isSome, get_set_self]; rfl

theorem mem_of_get (m : JsMap κ ν) (key : κ) (value : ν) (h : get m key = some value) :
    (key, value) ∈ m := by
  induction m with
  | nil => simp [get_nil] at h
  | cons kv m ih =>
    obtain ⟨k, v⟩ := kv
    rw [get_cons] at h
    by_cases hk : k = key
    · simp only [hk, if_true, Option.some.injEq] at h
      simp [hk, h]
    · simp only [hk, if_false] at h
      exact List.mem_cons_of_mem _ (ih h)

end JsMap

/-! ## Lemmas on JSON objects -/

theorem JsVal.field_obj_nil (name : String) : (JsVal.obj []).field name = .undefined := rfl

theorem JsVal.field_obj_cons (k : String) (v : JsVal) (fields : List (String × JsVal))
    (name : String) :
    (JsVal.obj ((k, v) :: fields)).field name =
      if k = name then v else (JsVal.obj fields).field name := by
  by_cases h : k = name
  · simp [JsVal.field, List.find?, h]
  · have hb : (k == name) = false := by simpa using h
    simp [JsVal.field, List.find?, h, hb]

theorem JsVal.field_stringifyObj_of_not_mem (fields : List (String × JsVal)) (name : String)
    (h : name ∉ fields.map Prod.fst) : (JsVal.stringifyObj fields).field name = .undefined := by
  induction fields with
  | nil => rfl
  | cons kv fields ih =>
    obtain ⟨k, v⟩ := kv
    simp only [List.map_cons, List.mem_cons, not_or] at h
    have hk : ¬ k = name := fun e => h.1 e.symm
    unfold JsVal.stringifyObj at ih ⊢
    rw [List.filter_cons]
    split
    · rw [JsVal.field_obj_cons, if_neg hk]; exact ih h.2
    · exact ih h.2

/-- Dropping the `undefined` properties does not change what a property read gives. -/
theorem JsVal.field_stringifyObj (fields : List (String × JsVal)) (name : String)
    (h : (fields.map Prod.fst).Nodup) :
    (JsVal.stringifyObj fields).field name = (JsVal.obj fields).field name := by
  induction fields with
  | nil => rfl
  | cons kv fields ih =>
    obtain ⟨k, v⟩ := kv
    simp only [List.map_cons, List.nodup_cons] at h
    have ih := ih h.2
    rw [JsVal.field_obj_cons]
    by_cases hv : v = .undefined
    · have hdrop : JsVal.stringifyObj ((k, v) :: fields) = JsVal.stringifyObj fields := by
        unfold JsVal.stringifyObj
        rw [List.filter_cons]
        simp [hv]
      rw [hdrop]
      by_cases hk : k = name
      · rw [if_pos hk, hv]
        exact JsVal.field_stringifyObj_of_not_mem fields name (hk ▸ h.1)
      · rw [if_neg hk]; exact ih
    · have hkeep : JsVal.stringifyObj ((k, v) :: fields) =
          .obj ((k, v) :: fields.filter (fun kv => kv.2 != .undefined)) := by
        unfold JsVal.stringifyObj
        rw [List.filter_cons]
        simp [hv]
      rw [hkeep, JsVal.field_obj_cons]
      by_cases hk : k = name
      · simp [hk]
      · simp only [hk, if_false]; exact ih

/-! ## Channel protocol layer: file round trip and chat delivery -/

/-- C1, at the failing input.  The two-byte file `[7, 9]` is split by `chunkArray(d, 16384)`
into one chunk; after the `file-start` message and that `file-chunk` message have been
delivered to `handleDataChannelMessage`, `completeFileTransfer` has thrown a `RangeError`
(its `dataArray` has one element per chunk, not one per byte), nothing has been handed to
`decryptFile`, no file has been added and the transfer is still pending.  This holds
whatever the decryption collaborator does. -/
theorem C1_two_byte_file_is_not_reassembled (co : Collaborators) :
    ∃ messages,
      shareFileMessages (.str "f1") (.str "a.bin") (.str "text/plain") (.num 2)
        (JsVal.ofBytes [1, 2, 3]) [7, 9] = some messages ∧
      (deliverAll co App.init messages).decryptFileCalls = [] ∧
      (deliverAll co App.init messages).filesList = [] ∧
      (deliverAll co App.init messages).errors = ["RangeError: offset is out of bounds"] ∧
      ((deliverAll co App.init messages).pendingFileTransfers.get (.str "f1")).isSome = true :=
  ⟨_, rfl, rfl, rfl, rfl, rfl⟩

/-- C2, as the code behaves.  For every sender name and non-empty chat text, the value that
`sendChatMessage` hands to `sendData` is the object `{iv, data}` returned by `encrypt`: it
has no `type` property (the tag `chat` is inside the encrypted payload), and a receiver's
`handleDataChannelMessage` takes none of its branches on it, whatever its key and its
decryption do: no chat entry is delivered and the receiver's state is unchanged. -/
theorem C2_chat_message_is_untagged_and_dropped (co : Collaborators) (app : App)
    (iv : List Nat) (cipher : JsVal → List Nat) (username message timestamp : String)
    (hmessage : message ≠ "") :
    ∃ data, sendChatMessage true iv cipher username message timestamp = some data ∧
      data.field "type" = .undefined ∧
      handleDataChannelMessage co app (some data) = app := by
  refine ⟨encrypt iv cipher (.obj [("type", .str "chat"), ("sender", .str username),
    ("message", .str message), ("timestamp", .str timestamp)]), ?_, rfl, rfl⟩
  simp only [sendChatMessage, hmessage, false_or, Bool.true_eq_false, if_false]

/-- C2, witness: the chat text `hi` sent by `alice`. -/
theorem C2_chat_message_is_untagged_and_dropped_witness :
    ∃ data, sendChatMessage true [1, 2] (fun _ => [3, 4]) "alice" "hi" "2024-01-01" = some data ∧
      data.field "type" = .undefined ∧
      handleDataChannelMessage ⟨fun v => .ok v, fun p => .ok p.data⟩ App.init (some data)
        = App.init :=
  C2_chat_message_is_untagged_and_dropped _ _ _ _ _ _ _ (by decide)

/-! ## Signaling relay: forwarding, join, disconnect, drop, malformed input -/

theorem JsVal.field_of_prop (v w : JsVal) (name : String) (h : v.prop name = .ok w) :
    v.field name = w := by
  cases v <;> simp_all [JsVal.prop]

theorem JsVal.truthy_str (s : String) (h : s ≠ "") : (JsVal.str s).truthy = true := by
  simp [JsVal.truthy, h]

theorem filterMap_ite_eq_map_filter {α β : Type} (p : α → Prop) [DecidablePred p] (f : α → β)
    (l : List α) :
    l.filterMap (fun a => if p a then some (f a) else none) =
      (l.filter (fun a => decide (p a))).map f := by
  induction l with
  | nil => rfl
  | cons a l ih =>
    by_cases h : p a <;> simp [List.filterMap_cons, List.filter_cons, h, ih]

theorem userJoined_fields (u r : String) :
    (userJoined (.str u) (.str r)).field "type" = .str "user-joined" ∧
    (userJoined (.str u) (.str r)).field "from" = .str u ∧
    (userJoined (.str u) (.str r)).field "roomId" = .str r :=
  ⟨rfl, rfl, rfl⟩

theorem userLeft_fields (u r : String) :
    (userLeft (.str u) (.str r)).field "type" = .str "user-left" ∧
    (userLeft (.str u) (.str r)).field "from" = .str u ∧
    (userLeft (.str u) (.str r)).field "roomId" = .str r :=
  ⟨rfl, rfl, rfl⟩

theorem forwarded_field (vars : Closure) (message : JsVal) (name : String) :
    (forwarded vars message).field name =
      (JsVal.obj [("type", message.field "type"), ("from", vars.userId),
        ("roomId", vars.roomId), ("offer", message.field "offer"),
        ("answer", message.field "answer"), ("candidate", message.field "candidate")]).field
        name :=
  JsVal.field_stringifyObj _ name (by simp)

/-- C3, amended: forwarding inside a room with a non-empty identifier.  When a connection
whose variables are `userId = u`, `roomId = r` (it joined room `r` as `u`), with `r` not the
empty string, sends a message of type `t` in offer, answer, ice-candidate with `to = v`, and
`v` is a member of `r` whose socket is open, the handler does not throw, sends exactly one
message, on the socket of `v`, leaves the registry and the variables as they are, and the
message has type `t`, `from = u`, `roomId = r` and the `offer`, `answer` and `candidate` of
the client's message, whatever else that message contains. -/
theorem C3_forward_to_member (isOpen : Handle → Bool) (rooms : Rooms) (socket : Handle)
    (r u v t : String) (message : JsVal) (room : Room) (target : Handle)
    (hr : r ≠ "")
    (ht : t = "offer" ∨ t = "answer" ∨ t = "ice-candidate")
    (htype : message.prop "type" = .ok (.str t))
    (hto : message.field "to" = .str v)
    (hroom : rooms.get (.str r) = some room)
    (hmember : room.get (.str v) = some target)
    (hopen : isOpen target = true) :
    ∃ m, onmessageTry isOpen rooms socket ⟨.str u, .str r⟩ (some message) =
        .ok ⟨rooms, ⟨.str u, .str r⟩, [(target, m)]⟩ ∧
      m.field "type" = .str t ∧ m.field "from" = .str u ∧ m.field "roomId" = .str r ∧
      m.field "offer" = message.field "offer" ∧ m.field "answer" = message.field "answer" ∧
      m.field "candidate" = message.field "candidate" := by
  refine ⟨forwarded ⟨.str u, .str r⟩ message, ?_, ?_, ?_, ?_, ?_, ?_, ?_⟩
  · have hjoin : (JsVal.str t).isStr "join" = false := by
      rcases ht with h | h | h <;> subst h <;> decide
    have hfwd : ((JsVal.str t).isStr "offer" || (JsVal.str t).isStr "answer" ||
        (JsVal.str t).isStr "ice-candidate") = true := by
      rcases ht with h | h | h <;> subst h <;> decide
    have hhas : JsMap.has rooms (.str r) = true := by
      rw [JsMap.has_eq_isSome, hroom]; rfl
    simp only [onmessageTry, htype, hjoin, hfwd, onForward, JsVal.truthy_str r hr, hhas,
      hroom, hto, Option.getD_some, hmember, hopen, Bool.and_self, if_true,
      Bool.false_eq_true, if_false]
  · rw [forwarded_field, JsVal.field_of_prop _ _ _ htype]; rfl
  · rw [forwarded_field]; rfl
  · rw [forwarded_field]; rfl
  · rw [forwarded_field]; rfl
  · rw [forwarded_field]; rfl
  · rw [forwarded_field]; rfl

/-- C3, witness: `alice` in room `R1` sends an offer to `bob`, whose socket 2 is open. -/
theorem C3_forward_to_member_witness :
    ∃ m, onmessageTry (fun _ => true) [(.str "R1", [(.str "alice", 1), (.str "bob", 2)])] 1
        ⟨.str "alice", .str "R1"⟩
        (some (.obj [("type", .str "offer"), ("to", .str "bob"), ("from", .str "mallory"),
          ("offer", .obj [("sdp", .str "v=0")])])) =
        .ok ⟨[(.str "R1", [(.str "alice", 1), (.str "bob", 2)])],
          ⟨.str "alice", .str "R1"⟩, [(2, m)]⟩ ∧
      m.field "type" = .str "offer" ∧ m.field "from" = .str "alice" ∧
      m.field "roomId" = .str "R1" ∧
      m.field "offer" = (JsVal.obj [("type", .str "offer"), ("to", .str "bob"),
        ("from", .str "mallory"), ("offer", .obj [("sdp", .str "v=0")])]).field "offer" ∧
      m.field "answer" = (JsVal.obj [("type", .str "offer"), ("to", .str "bob"),
        ("from", .str "mallory"), ("offer", .obj [("sdp", .str "v=0")])]).field "answer" ∧
      m.field "candidate" = (JsVal.obj [("type", .str "offer"), ("to", .str "bob"),
        ("from", .str "mallory"), ("offer", .obj [("sdp", .str "v=0")])]).field "candidate" :=
  C3_forward_to_member (fun _ => true) _ 1 "R1" "alice" "bob" "offer" _
    [(.str "alice", 1), (.str "bob", 2)] 2 (by decide) (Or.inl rfl) rfl rfl rfl rfl rfl

/-- C3 as stated fails for the room whose identifier is the empty string.  Connections 1
and 2 join room `""` as `a` and `b`; both are registered there and both sockets are open;
yet when `b` sends an offer addressed to `a` the relay sends nothing, because the guard
`roomId && rooms.has(roomId)` takes the empty string as no room. -/
theorem C3_empty_room_id_is_not_forwarded :
    (Relay.run Relay.init [.connect 1, .message 1 (some (joinMessage (.str "") (.str "a"))),
       .connect 2, .message 2 (some (joinMessage (.str "") (.str "b")))]).rooms
      = [(.str "", [(.str "a", 1), (.str "b", 2)])] ∧
    (Relay.run Relay.init [.connect 1, .message 1 (some (joinMessage (.str "") (.str "a"))),
       .connect 2, .message 2 (some (joinMessage (.str "") (.str "b")))]).conns
      = [(1, (⟨.str "a", .str ""⟩, true)), (2, (⟨.str "b", .str ""⟩, true))] ∧
    (Relay.run Relay.init [.connect 1, .message 1 (some (joinMessage (.str "") (.str "a"))),
       .connect 2, .message 2 (some (joinMessage (.str "") (.str "b"))),
       .message 2 (some (.obj [("type", .str "offer"), ("to", .str "a"),
         ("offer", .str "sdp")]))]).sent
      = [(1, userJoined (.str "b") (.str ""))] := by
  decide

theorem JsMap.filter_ne_map_replace {κ ν : Type} [DecidableEq κ] (m : JsMap κ ν) (key : κ)
    (value : ν) :
    (m.map (fun kv => if kv.1 = key then (key, value) else kv)).filter
        (fun kv => decide (kv.1 ≠ key)) =
      m.filter (fun kv => decide (kv.1 ≠ key)) := by
  induction m with
  | nil => rfl
  | cons kv m ih =>
    by_cases h : kv.1 = key <;> simp [List.filter_cons, h] <;> simpa using ih

theorem JsMap.filter_ne_set {κ ν : Type} [DecidableEq κ] (m : JsMap κ ν) (key : κ)
    (value : ν) :
    (JsMap.set m key value).filter (fun kv => decide (kv.1 ≠ key)) =
      m.filter (fun kv => decide (kv.1 ≠ key)) := by
  unfold JsMap.set
  split
  · exact JsMap.filter_ne_map_replace m key value
  · simp [List.filter_append, List.filter_cons]

/-- C4, amended: join.  For every registry state, when a connection (socket `socket`) sends
a join for room `r` with peer identifier `u`, the handler does not throw; afterwards `r`
exists, its members are those it had with `u` set to this connection's socket, and the
connection's variables are `u` and `r`; the messages sent are exactly one
joined-notification, with `from = u` and `roomId = r`, on the socket of each member of `r`
other than `u` whose socket is open, the other members being those `r` had before; a socket
that no member of `r` other than `u` holds (the joiner's own, unless it is also registered
in `r` under another identifier, and one that belongs to members of other rooms only) is
sent nothing; and every other room is unchanged. -/
theorem C4_join (isOpen : Handle → Bool) (rooms : Rooms) (socket : Handle) (vars : Closure)
    (r u : String) (message : JsVal)
    (htype : message.prop "type" = .ok (.str "join"))
    (hroom : message.field "roomId" = .str r)
    (huser : message.field "username" = .str u) :
    ∃ effect room,
      onmessageTry isOpen rooms socket vars (some message) = .ok effect ∧
      effect.vars = ⟨.str u, .str r⟩ ∧
      effect.rooms.get (.str r) = some room ∧
      room = JsMap.set ((rooms.get (.str r)).getD []) (.str u) socket ∧
      room.get (.str u) = some socket ∧
      room.filter (fun entry => decide (entry.1 ≠ .str u)) =
        ((rooms.get (.str r)).getD []).filter (fun entry => decide (entry.1 ≠ .str u)) ∧
      effect.sent =
        (room.filter (fun entry => decide (entry.1 ≠ .str u ∧ isOpen entry.2 = true))).map
          (fun entry => (entry.2, userJoined (.str u) (.str r))) ∧
      (userJoined (.str u) (.str r)).field "type" = .str "user-joined" ∧
      (userJoined (.str u) (.str r)).field "from" = .str u ∧
      (userJoined (.str u) (.str r)).field "roomId" = .str r ∧
      (∀ s, (∀ p, (p, s) ∈ room → p = .str u) → ∀ m, (s, m) ∉ effect.sent) ∧
      (∀ r', r' ≠ .str r → effect.rooms.get r' = rooms.get r') := by
  have hsent : (onJoin isOpen rooms socket message).sent =
      ((JsMap.set ((rooms.get (.str r)).getD []) (.str u) socket).filter
        (fun entry => decide (entry.1 ≠ .str u ∧ isOpen entry.2 = true))).map
          (fun entry => (entry.2, userJoined (.str u) (.str r))) := by
    simp only [onJoin, hroom, huser]
    rw [filterMap_ite_eq_map_filter]
    congr 3
    by_cases hh : JsMap.has rooms (.str r) = true
    · simp [hh]
    · have hn := (JsMap.has_false_iff rooms (.str r)).1 (by simpa using hh)
      simp [hh, JsMap.get_set_self, hn]
  have hrooms : (onJoin isOpen rooms socket message).rooms =
      JsMap.set (if JsMap.has rooms (.str r) = true then rooms
        else JsMap.set rooms (.str r) []) (.str r)
        (JsMap.set ((rooms.get (.str r)).getD []) (.str u) socket) := by
    simp only [onJoin, hroom, huser]
    congr 2
    by_cases hh : JsMap.has rooms (.str r) = true
    · simp [hh]
    · have hn := (JsMap.has_false_iff rooms (.str r)).1 (by simpa using hh)
      simp [hh, JsMap.get_set_self, hn]
  refine ⟨onJoin isOpen rooms socket message,
    JsMap.set ((rooms.get (.str r)).getD []) (.str u) socket, ?_, ?_, ?_, rfl, ?_, ?_, hsent,
    rfl, rfl, rfl, ?_, ?_⟩
  · simp [onmessageTry, htype, JsVal.isStr]
  · simp [onJoin, hroom, huser]
  · rw [hrooms, JsMap.get_set_self]
  · exact JsMap.get_set_self _ _ _
  · exact JsMap.filter_ne_set _ _ _
  · intro s hs m hm
    rw [hsent, List.mem_map] at hm
    obtain ⟨entry, hentry, heq⟩ := hm
    rw [List.mem_filter] at hentry
    obtain ⟨p, s'⟩ := entry
    simp only [Prod.mk.injEq] at heq
    obtain ⟨hmem, hcond⟩ := hentry
    simp only [decide_eq_true_eq] at hcond
    exact hcond.1 (hs p (heq.1 ▸ hmem))
  · intro r' hr'
    rw [hrooms, JsMap.get_set_of_ne _ _ _ _ hr']
    split
    · rfl
    · exact JsMap.get_set_of_ne _ _ _ _ hr'

/-- C4, witness: `carol` joins room `R1`, where `alice` (socket 1, open) and `bob`
(socket 2, closed) are; room `R2` holds `dave`. -/
theorem C4_join_witness :
    ∃ effect room,
      onmessageTry (fun s => decide (s ≠ 2))
        [(.str "R1", [(.str "alice", 1), (.str "bob", 2)]), (.str "R2", [(.str "dave", 4)])]
        3 Closure.init (some (joinMessage (.str "R1") (.str "carol"))) = .ok effect ∧
      effect.vars = ⟨.str "carol", .str "R1"⟩ ∧
      effect.rooms.get (.str "R1") = some room ∧
      room = JsMap.set ((JsMap.get
        [(JsVal.str "R1", [(JsVal.str "alice", 1), (.str "bob", 2)]),
          (.str "R2", [(.str "dave", 4)])] (.str "R1")).getD []) (.str "carol") 3 ∧
      room.get (.str "carol") = some 3 ∧
      room.filter (fun entry => decide (entry.1 ≠ .str "carol")) =
        ((JsMap.get [(JsVal.str "R1", [(JsVal.str "alice", 1), (.str "bob", 2)]),
          (.str "R2", [(.str "dave", 4)])] (.str "R1")).getD []).filter
          (fun entry => decide (entry.1 ≠ .str "carol")) ∧
      effect.sent =
        (room.filter (fun entry => decide (entry.1 ≠ .str "carol" ∧
          (fun s => decide (s ≠ 2)) entry.2 = true))).map
          (fun entry => (entry.2, userJoined (.str "carol") (.str "R1"))) ∧
      (userJoined (.str "carol") (.str "R1")).field "type" = .str "user-joined" ∧
      (userJoined (.str "carol") (.str "R1")).field "from" = .str "carol" ∧
      (userJoined (.str "carol") (.str "R1")).field "roomId" = .str "R1" ∧
      (∀ s, (∀ p, (p, s) ∈ room → p = .str "carol") → ∀ m, (s, m) ∉ effect.sent) ∧
      (∀ r', r' ≠ .str "R1" → effect.rooms.get r' =
        JsMap.get [(JsVal.str "R1", [(JsVal.str "alice", 1), (.str "bob", 2)]),
          (.str "R2", [(.str "dave", 4)])] r') :=
  C4_join (fun s => decide (s ≠ 2)) _ 3 Closure.init "R1" "carol" _ rfl rfl rfl

/-- C4 as stated fails when the joiner's connection is already a member of the room under
another identifier.  Connection 1 joins room `R1` as `a` and then joins `R1` again as `b`:
the loop compares identifiers, so the relay sends the joined-notification of `b` on socket
1, which is the joiner's own. -/
theorem C4_second_join_notifies_the_joiner :
    (Relay.run Relay.init [.connect 1, .message 1 (some (joinMessage (.str "R1") (.str "a"))),
      .message 1 (some (joinMessage (.str "R1") (.str "b")))]).sent
      = [(1, userJoined (.str "b") (.str "R1"))] ∧
    (Relay.run Relay.init [.connect 1, .message 1 (some (joinMessage (.str "R1") (.str "a"))),
      .message 1 (some (joinMessage (.str "R1") (.str "b")))]).rooms
      = [(.str "R1", [(.str "a", 1), (.str "b", 1)])] := by
  decide

/-- C5, amended: disconnect with non-empty identifiers.  When a connection whose variables
are `userId = u`, `roomId = r` (it joined room `r` as `u`), both non-empty strings, closes:
`u` is no longer a member of `r`, whose members are the former ones other than `u`; the
messages sent are exactly one left-notification, with `from = u` and `roomId = r`, on the
socket of each remaining member of `r` whose socket is open; and every other room is
unchanged. -/
theorem C5_disconnect (isOpen : Handle → Bool) (rooms : Rooms) (r u : String)
    (hr : r ≠ "") (hu : u ≠ "") :
    ((onclose isOpen rooms ⟨.str u, .str r⟩).rooms.get (.str r)).getD [] =
      ((rooms.get (.str r)).getD []).filter (fun entry => decide (entry.1 ≠ .str u)) ∧
    JsMap.get (((onclose isOpen rooms ⟨.str u, .str r⟩).rooms.get (.str r)).getD []) (.str u)
      = none ∧
    (onclose isOpen rooms ⟨.str u, .str r⟩).sent =
      ((((rooms.get (.str r)).getD []).filter
          (fun entry => decide (entry.1 ≠ .str u))).filter
          (fun entry => isOpen entry.2)).map
        (fun entry => (entry.2, userLeft (.str u) (.str r))) ∧
    (userLeft (.str u) (.str r)).field "type" = .str "user-left" ∧
    (userLeft (.str u) (.str r)).field "from" = .str u ∧
    (userLeft (.str u) (.str r)).field "roomId" = .str r ∧
    (∀ r', r' ≠ .str r → (onclose isOpen rooms ⟨.str u, .str r⟩).rooms.get r' = rooms.get r') := by
  have hdel : ∀ room : Room, JsMap.delete room (.str u) =
      room.filter (fun entry => decide (entry.1 ≠ .str u)) := by
    intro room
    unfold JsMap.delete
    congr 1
    funext entry
    simp
  have hfm : ∀ room : Room, room.filterMap (fun entry =>
      if isOpen entry.2 = true then some (entry.2, userLeft (.str u) (.str r)) else none) =
      (room.filter (fun entry => isOpen entry.2)).map
        (fun entry => (entry.2, userLeft (.str u) (.str r))) := by
    intro room
    rw [filterMap_ite_eq_map_filter]
    simp
  have hkey : ((onclose isOpen rooms ⟨.str u, .str r⟩).rooms.get (.str r)).getD [] =
      ((rooms.get (.str r)).getD []).filter (fun entry => decide (entry.1 ≠ .str u)) := by
    by_cases hh : JsMap.has rooms (.str r) = true
    · simp only [onclose, JsVal.truthy_str r hr, JsVal.truthy_str u hu, hh, Bool.and_self,
        if_true, hdel]
      split
      · rename_i hlen
        rw [JsMap.get_delete_self, List.length_eq_zero.1 hlen]
        rfl
      · rw [JsMap.get_set_self]
        rfl
    · have hn := (JsMap.has_false_iff rooms (.str r)).1 (by simpa using hh)
      simp [onclose, hh, hn]
  refine ⟨hkey, ?_, ?_, rfl, rfl, rfl, ?_⟩
  · rw [hkey, ← hdel, JsMap.get_delete_self]
  · by_cases hh : JsMap.has rooms (.str r) = true
    · simp only [onclose, JsVal.truthy_str r hr, JsVal.truthy_str u hu, hh, Bool.and_self,
        if_true, hdel, hfm]
    · have hn := (JsMap.has_false_iff rooms (.str r)).1 (by simpa using hh)
      simp [onclose, hh, hn]
  · intro r' hr'
    by_cases hh : JsMap.has rooms (.str r) = true
    · simp only [onclose, JsVal.truthy_str r hr, JsVal.truthy_str u hu, hh, Bool.and_self,
        if_true]
      split
      · rw [JsMap.get_delete]; simp [hr']
      · exact JsMap.get_set_of_ne _ _ _ _ hr'
    · simp [onclose, hh]

/-- C5, witness: `bob` leaves room `R1`, where `alice` (socket 1, open) stays. -/
theorem C5_disconnect_witness :
    ((onclose (fun _ => true) [(.str "R1", [(.str "alice", 1), (.str "bob", 2)])]
        ⟨.str "bob", .str "R1"⟩).rooms.get (.str "R1")).getD [] =
      ((JsMap.get [(JsVal.str "R1", [(JsVal.str "alice", 1), (.str "bob", 2)])]
        (.str "R1")).getD []).filter (fun entry => decide (entry.1 ≠ .str "bob")) ∧
    JsMap.get (((onclose (fun _ => true) [(.str "R1", [(.str "alice", 1), (.str "bob", 2)])]
        ⟨.str "bob", .str "R1"⟩).rooms.get (.str "R1")).getD []) (.str "bob") = none ∧
    (onclose (fun _ => true) [(.str "R1", [(.str "alice", 1), (.str "bob", 2)])]
        ⟨.str "bob", .str "R1"⟩).sent =
      ((((JsMap.get [(JsVal.str "R1", [(JsVal.str "alice", 1), (.str "bob", 2)])]
          (.str "R1")).getD []).filter
          (fun entry => decide (entry.1 ≠ .str "bob"))).filter
          (fun entry => (fun _ => true) entry.2)).map
        (fun entry => (entry.2, userLeft (.str "bob") (.str "R1"))) ∧
    (userLeft (.str "bob") (.str "R1")).field "type" = .str "user-left" ∧
    (userLeft (.str "bob") (.str "R1")).field "from" = .str "bob" ∧
    (userLeft (.str "bob") (.str "R1")).field "roomId" = .str "R1" ∧
    (∀ r', r' ≠ .str "R1" →
      (onclose (fun _ => true) [(.str "R1", [(.str "alice", 1), (.str "bob", 2)])]
        ⟨.str "bob", .str "R1"⟩).rooms.get r' =
      JsMap.get [(JsVal.str "R1", [(JsVal.str "alice", 1), (.str "bob", 2)])] r') :=
  C5_disconnect (fun _ => true) _ "R1" "bob" (by decide) (by decide)

/-- C5 as stated fails for the empty peer identifier.  Connection 2 joins room `R1` as `b`,
connection 1 joins `R1` as `""`, then connection 1 closes: `""` is still a member of `R1`
and no left-notification has been sent to `b`, whose socket is open (the only message sent
is the joined-notification). -/
theorem C5_empty_peer_id_is_not_removed :
    (Relay.run Relay.init [.connect 2, .message 2 (some (joinMessage (.str "R1") (.str "b"))),
       .connect 1, .message 1 (some (joinMessage (.str "R1") (.str ""))),
       .close 1]).rooms = [(.str "R1", [(.str "b", 2), (.str "", 1)])] ∧
    (Relay.run Relay.init [.connect 2, .message 2 (some (joinMessage (.str "R1") (.str "b"))),
       .connect 1, .message 1 (some (joinMessage (.str "R1") (.str ""))),
       .close 1]).sent = [(2, userJoined (.str "") (.str "R1"))] ∧
    (Relay.run Relay.init [.connect 2, .message 2 (some (joinMessage (.str "R1") (.str "b"))),
       .connect 1, .message 1 (some (joinMessage (.str "R1") (.str ""))),
       .close 1]).conns = [(2, (⟨.str "b", .str "R1"⟩, true)),
         (1, (⟨.str "", .str "R1"⟩, false))] := by
  decide

/-- C7: drop.  When a connection sends an offer, answer or ice-candidate and either it has
not joined any room (`roomId` is `null`) or the `to` identifier is not a member of its room,
the handler does not throw, sends nothing, and leaves the registry and the variables of the
connection as they are. -/
theorem C7_drop (isOpen : Handle → Bool) (rooms : Rooms) (socket : Handle) (vars : Closure)
    (t : String) (message : JsVal)
    (ht : t = "offer" ∨ t = "answer" ∨ t = "ice-candidate")
    (htype : message.prop "type" = .ok (.str t))
    (habsent : vars.roomId = .null ∨
      JsMap.get ((rooms.get vars.roomId).getD []) (message.field "to") = none) :
    onmessageTry isOpen rooms socket vars (some message) = .ok ⟨rooms, vars, []⟩ := by
  have hjoin : (JsVal.str t).isStr "join" = false := by
    rcases ht with h | h | h <;> subst h <;> decide
  have hfwd : ((JsVal.str t).isStr "offer" || (JsVal.str t).isStr "answer" ||
      (JsVal.str t).isStr "ice-candidate") = true := by
    rcases ht with h | h | h <;> subst h <;> decide
  simp only [onmessageTry, htype, hjoin, hfwd, if_true, Bool.false_eq_true, if_false]
  congr 1
  unfold onForward
  rcases habsent with hnull | hnone
  · simp [hnull, JsVal.truthy]
  · split
    · simp only [hnone]
    · rfl

/-- C7, witness: `alice` in room `R1` sends an offer to `zoe`, who is not in `R1`. -/
theorem C7_drop_witness :
    onmessageTry (fun _ => true) [(.str "R1", [(.str "alice", 1), (.str "bob", 2)])] 1
      ⟨.str "alice", .str "R1"⟩
      (some (.obj [("type", .str "offer"), ("to", .str "zoe"), ("offer", .str "sdp")])) =
      .ok ⟨[(.str "R1", [(.str "alice", 1), (.str "bob", 2)])], ⟨.str "alice", .str "R1"⟩, []⟩ :=
  C7_drop (fun _ => true) _ 1 _ "offer" _ (Or.inl rfl) rfl (Or.inr (by decide))

/-- C8: malformed input.  For every inbound text that `JSON.parse` rejects, and for every
parsed value whose `type` is none of join, offer, answer, ice-candidate (the value `null`
included, on which reading `type` throws), `socket.onmessage` sends nothing and leaves the
registry and the variables of the connection as they are; the exception, if any, is caught
inside the handler. -/
theorem C8_malformed_input (isOpen : Handle → Bool) (rooms : Rooms) (socket : Handle)
    (vars : Closure) (parsed : Option JsVal)
    (hbad : ∀ v, parsed = some v → ∀ t ∈ ["join", "offer", "answer", "ice-candidate"],
      v.field "type" ≠ .str t) :
    onmessage isOpen rooms socket vars parsed = ⟨rooms, vars, []⟩ := by
  cases parsed with
  | none => rfl
  | some v =>
    have h := hbad v rfl
    cases hp : v.prop "type" with
    | error e => simp [onmessage, onmessageTry, hp]
    | ok type =>
      have hf := JsVal.field_of_prop _ _ _ hp
      have hno : ∀ t ∈ ["join", "offer", "answer", "ice-candidate"],
          type.isStr t = false := by
        intro t ht
        have hne := h t ht
        rw [hf] at hne
        cases type <;> simp_all [JsVal.isStr]
      simp [onmessage, onmessageTry, hp, hno]

/-- C8, witness: a message of the unknown type `ping`. -/
theorem C8_malformed_input_witness :
    onmessage (fun _ => true) [(.str "R1", [(.str "alice", 1)])] 1 ⟨.str "alice", .str "R1"⟩
      (some (.obj [("type", .str "ping")])) =
      ⟨[(.str "R1", [(.str "alice", 1)])], ⟨.str "alice", .str "R1"⟩, []⟩ :=
  C8_malformed_input (fun _ => true) _ 1 _ _ (by
    intro v hv t ht
    cases hv
    simp only [List.mem_cons, List.mem_singleton, List.not_mem_nil, or_false] at ht
    rcases ht with h | h | h | h <;> subst h <;> decide)

/-! ## Signaling relay: room lifecycle -/

theorem JsMap.mem_set {κ ν : Type} [DecidableEq κ] (m : JsMap κ ν) (key : κ) (value : ν)
    (entry : κ × ν) (h : entry ∈ JsMap.set m key value) :
    (entry ∈ m ∧ entry.1 ≠ key) ∨ entry = (key, value) := by
  unfold JsMap.set at h
  split at h
  · rw [List.mem_map] at h
    obtain ⟨kv, hkv, heq⟩ := h
    by_cases hk : kv.1 = key
    · rw [if_pos hk] at heq; exact Or.inr heq.symm
    · rw [if_neg hk] at heq; subst heq; exact Or.inl ⟨hkv, hk⟩
  · rename_i hh
    rw [List.mem_append, List.mem_singleton] at h
    rcases h with h | h
    · refine Or.inl ⟨h, fun hk => hh ?_⟩
      simp only [JsMap.has, List.any_eq_true, decide_eq_true_eq]
      exact ⟨entry, h, hk⟩
    · exact Or.inr h

theorem JsMap.set_ne_nil {κ ν : Type} [DecidableEq κ] (m : JsMap κ ν) (key : κ) (value : ν) :
    JsMap.set m key value ≠ [] := by
  intro h
  have := JsMap.get_set_self m key value
  rw [h] at this
  simp [JsMap.get_nil] at this

theorem onJoin_noEmptyRoom (isOpen : Handle → Bool) (rooms : Rooms) (socket : Handle)
    (message : JsVal) (h : Rooms.NoEmptyRoom rooms) :
    Rooms.NoEmptyRoom (onJoin isOpen rooms socket message).rooms := by
  intro entry hentry
  simp only [onJoin] at hentry
  rcases JsMap.mem_set _ _ _ _ hentry with ⟨hmem, hne⟩ | heq
  · split at hmem
    · exact h entry hmem
    · rcases JsMap.mem_set _ _ _ _ hmem with ⟨hmem', _⟩ | heq
      · exact h entry hmem'
      · exact absurd (by rw [heq]) hne
  · rw [heq]
    exact JsMap.set_ne_nil _ _ _

theorem onForward_rooms (isOpen : Handle → Bool) (rooms : Rooms) (vars : Closure)
    (message : JsVal) : (onForward isOpen rooms vars message).rooms = rooms := by
  unfold onForward
  split
  · simp only
    split
    · split <;> rfl
    · rfl
  · rfl

theorem onForward_vars (isOpen : Handle → Bool) (rooms : Rooms) (vars : Closure)
    (message : JsVal) : (onForward isOpen rooms vars message).vars = vars := by
  unfold onForward
  split
  · simp only
    split
    · split <;> rfl
    · rfl
  · rfl

/-- The handler `socket.onmessage` either is the `join` case or leaves the registry and the
variables of the connection as they are. -/
theorem onmessage_cases (isOpen : Handle → Bool) (rooms : Rooms) (socket : Handle)
    (vars : Closure) (parsed : Option JsVal) :
    (∃ message, parsed = some message ∧ (message.field "type").isStr "join" = true ∧
      onmessage isOpen rooms socket vars parsed = onJoin isOpen rooms socket message) ∨
    ((onmessage isOpen rooms socket vars parsed).rooms = rooms ∧
      (onmessage isOpen rooms socket vars parsed).vars = vars) := by
  cases parsed with
  | none => exact Or.inr ⟨rfl, rfl⟩
  | some message =>
    cases hp : message.prop "type" with
    | error e => exact Or.inr (by simp [onmessage, onmessageTry, hp])
    | ok type =>
      have hf := JsVal.field_of_prop _ _ _ hp
      by_cases hj : type.isStr "join" = true
      · exact Or.inl ⟨message, rfl, hf ▸ hj, by simp [onmessage, onmessageTry, hp, hj]⟩
      · right
        by_cases hfw : (type.isStr "offer" || type.isStr "answer" ||
            type.isStr "ice-candidate") = true
        · have : onmessage isOpen rooms socket vars (some message) =
              onForward isOpen rooms vars message := by
            simp [onmessage, onmessageTry, hp, hj, hfw]
          rw [this]
          exact ⟨onForward_rooms _ _ _ _, onForward_vars _ _ _ _⟩
        · have : onmessage isOpen rooms socket vars (some message) = ⟨rooms, vars, []⟩ := by
            simp [onmessage, onmessageTry, hp, hj, hfw]
          rw [this]
          exact ⟨rfl, rfl⟩

theorem onmessage_noEmptyRoom (isOpen : Handle → Bool) (rooms : Rooms) (socket : Handle)
    (vars : Closure) (parsed : Option JsVal) (h : Rooms.NoEmptyRoom rooms) :
    Rooms.NoEmptyRoom (onmessage isOpen rooms socket vars parsed).rooms := by
  rcases onmessage_cases isOpen rooms socket vars parsed with ⟨message, _, _, heq⟩ | ⟨heq, _⟩
  · rw [heq]; exact onJoin_noEmptyRoom _ _ _ _ h
  · rw [heq]; exact h

theorem onclose_noEmptyRoom (isOpen : Handle → Bool) (rooms : Rooms) (vars : Closure)
    (h : Rooms.NoEmptyRoom rooms) : Rooms.NoEmptyRoom (onclose isOpen rooms vars).rooms := by
  unfold onclose
  split
  · simp only
    split
    · intro entry hentry
      exact h entry (List.mem_of_mem_filter hentry)
    · rename_i hlen
      intro entry hentry
      rcases JsMap.mem_set _ _ _ _ hentry with ⟨hmem, _⟩ | heq
      · exact h entry hmem
      · rw [heq]
        intro hnil
        simp only at hnil
        exact hlen (by rw [hnil]; rfl)
  · exact h

theorem Relay.step_noEmptyRoom (relay : Relay) (event : RelayEvent)
    (h : Rooms.NoEmptyRoom relay.rooms) : Rooms.NoEmptyRoom (relay.step event).rooms := by
  cases event with
  | connect socket =>
    simp only [Relay.step]
    split <;> exact h
  | message socket parsed =>
    simp only [Relay.step]
    split
    · exact onmessage_noEmptyRoom _ _ _ _ _ h
    · exact h
  | close socket =>
    simp only [Relay.step]
    split
    · exact onclose_noEmptyRoom _ _ _ h
    · exact h

theorem Relay.run_noEmptyRoom (events : List RelayEvent) (relay : Relay)
    (h : Rooms.NoEmptyRoom relay.rooms) : Rooms.NoEmptyRoom (relay.run events).rooms := by
  induction events generalizing relay with
  | nil => exact h
  | cons event events ih => exact ih _ (Relay.step_noEmptyRoom relay event h)

/-- C6, amended: room lifecycle with non-empty identifiers.  For all non-empty strings `r`
and `u`: if the connection that joined `r` as `u` is the only member of `r`, then after it
closes the registry has no entry for `r`; a join to `r` while the registry has no entry for
it (in particular right after that close) produces a room whose only member is the new
joiner; and no registry state reachable from the empty registry contains a room with zero
members. -/
theorem C6_room_lifecycle (r u : String) (hr : r ≠ "") (hu : u ≠ "") :
    (∀ (isOpen : Handle → Bool) (rooms : Rooms) (socket : Handle),
      rooms.get (.str r) = some [(.str u, socket)] →
      (onclose isOpen rooms ⟨.str u, .str r⟩).rooms.get (.str r) = none ∧
      JsMap.has (onclose isOpen rooms ⟨.str u, .str r⟩).rooms (.str r) = false) ∧
    (∀ (isOpen : Handle → Bool) (rooms : Rooms) (socket : Handle) (vars : Closure)
      (joiner : JsVal),
      rooms.get (.str r) = none →
      (onmessage isOpen rooms socket vars (some (joinMessage (.str r) joiner))).rooms.get
        (.str r) = some [(joiner, socket)]) ∧
    (∀ (isOpen isOpen' : Handle → Bool) (rooms : Rooms) (socket socket' : Handle)
      (vars : Closure) (joiner : JsVal),
      rooms.get (.str r) = some [(.str u, socket)] →
      (onmessage isOpen' (onclose isOpen rooms ⟨.str u, .str r⟩).rooms socket' vars
        (some (joinMessage (.str r) joiner))).rooms.get (.str r) = some [(joiner, socket')]) ∧
    (∀ (events : List RelayEvent) (entry : JsVal × Room),
      entry ∈ (Relay.run Relay.init events).rooms → entry.2 ≠ []) := by
  have hclose : ∀ (isOpen : Handle → Bool) (rooms : Rooms) (socket : Handle),
      rooms.get (.str r) = some [(.str u, socket)] →
      (onclose isOpen rooms ⟨.str u, .str r⟩).rooms.get (.str r) = none := by
    intro isOpen rooms socket hroom
    have hhas : JsMap.has rooms (.str r) = true := by
      rw [JsMap.has_eq_isSome, hroom]; rfl
    have hdel : JsMap.delete [(JsVal.str u, socket)] (JsVal.str u) = [] := by
      simp [JsMap.delete]
    simp only [onclose, JsVal.truthy_str r hr, JsVal.truthy_str u hu, hhas, Bool.and_self,
      if_true, hroom, Option.getD_some, hdel, List.length_nil]
    exact JsMap.get_delete_self _ _
  have hjoin : ∀ (isOpen : Handle → Bool) (rooms : Rooms) (socket : Handle) (vars : Closure)
      (joiner : JsVal), rooms.get (.str r) = none →
      (onmessage isOpen rooms socket vars (some (joinMessage (.str r) joiner))).rooms.get
        (.str r) = some [(joiner, socket)] := by
    intro isOpen rooms socket vars joiner hnone
    have hhas : JsMap.has rooms (.str r) = false := (JsMap.has_false_iff _ _).2 hnone
    have hprop : (joinMessage (.str r) joiner).prop "type" = .ok (.str "join") := by
      unfold joinMessage JsVal.stringifyObj
      by_cases hj : joiner = .undefined <;> simp [List.filter_cons, hj, JsVal.prop] <;> rfl
    have hroomId : (joinMessage (.str r) joiner).field "roomId" = .str r := by
      unfold joinMessage
      rw [JsVal.field_stringifyObj _ _ (by simp)]
      rfl
    have huser : (joinMessage (.str r) joiner).field "username" = joiner := by
      unfold joinMessage
      rw [JsVal.field_stringifyObj _ _ (by simp)]
      rfl
    simp only [onmessage, onmessageTry, hprop, JsVal.isStr, beq_self_eq_true, if_true, onJoin,
      hroomId, huser, hhas, Bool.false_eq_true, if_false, JsMap.get_set_self,
      Option.getD_some]
    rfl
  refine ⟨fun isOpen rooms socket hroom => ⟨hclose isOpen rooms socket hroom, ?_⟩, hjoin, ?_, ?_⟩
  · exact (JsMap.has_false_iff _ _).2 (hclose isOpen rooms socket hroom)
  · intro isOpen isOpen' rooms socket socket' vars joiner hroom
    exact hjoin _ _ _ _ _ (hclose isOpen rooms socket hroom)
  · intro events entry hentry
    exact Relay.run_noEmptyRoom events Relay.init (fun e he => by cases he) entry hentry

/-- C6, witness: `alice` is alone in room `R1` and closes, then `bob` joins `R1`. -/
theorem C6_room_lifecycle_witness :
    (onclose (fun _ => true) [(.str "R1", [(.str "alice", 1)])]
      ⟨.str "alice", .str "R1"⟩).rooms.get (.str "R1") = none ∧
    (onmessage (fun _ => true)
      (onclose (fun _ => true) [(.str "R1", [(.str "alice", 1)])]
        ⟨.str "alice", .str "R1"⟩).rooms 2 Closure.init
      (some (joinMessage (.str "R1") (.str "bob")))).rooms.get (.str "R1")
      = some [(.str "bob", 2)] ∧
    (∀ entry ∈ (Relay.run Relay.init [.connect 1,
        .message 1 (some (joinMessage (.str "R1") (.str "alice"))), .close 1, .connect 2,
        .message 2 (some (joinMessage (.str "R1") (.str "bob")))]).rooms, entry.2 ≠ []) :=
  have h := C6_room_lifecycle "R1" "alice" (by decide) (by decide)
  ⟨(h.1 (fun _ => true) [(.str "R1", [(.str "alice", 1)])] 1 (by decide)).1,
    h.2.2.1 (fun _ => true) (fun _ => true) [(.str "R1", [(.str "alice", 1)])] 1 2 _ _
      (by decide),
    fun entry hentry => h.2.2.2 _ entry hentry⟩

/-- C6 as stated fails.  (1) With the empty string as room identifier, and (2) with the
empty string as peer identifier, a connection joins, is the only member and closes: the
registry still has the room, with the closed connection as its member.  (3) With non-empty
identifiers, a connection that joins room `A` and then room `B` and closes leaves room `A`
with a member that has disconnected. -/
theorem C6_room_of_disconnected_member_remains :
    (Relay.run Relay.init [.connect 1, .message 1 (some (joinMessage (.str "") (.str "a"))),
      .close 1]).rooms = [(.str "", [(.str "a", 1)])] ∧
    (Relay.run Relay.init [.connect 1, .message 1 (some (joinMessage (.str "") (.str "a"))),
      .close 1]).isOpen 1 = false ∧
    (Relay.run Relay.init [.connect 1, .message 1 (some (joinMessage (.str "R1") (.str ""))),
      .close 1]).rooms = [(.str "R1", [(.str "", 1)])] ∧
    (Relay.run Relay.init [.connect 1, .message 1 (some (joinMessage (.str "R1") (.str ""))),
      .close 1]).isOpen 1 = false ∧
    (Relay.run Relay.init [.connect 1, .message 1 (some (joinMessage (.str "A") (.str "x"))),
      .message 1 (some (joinMessage (.str "B") (.str "x"))), .close 1]).rooms
      = [(.str "A", [(.str "x", 1)])] ∧
    (Relay.run Relay.init [.connect 1, .message 1 (some (joinMessage (.str "A") (.str "x"))),
      .message 1 (some (joinMessage (.str "B") (.str "x"))), .close 1]).isOpen 1 = false := by
  decide

/-! ## Mesh coordinator: who offers and who answers -/

theorem signalMessage_type (m : Manager) (type : String) (peerId : JsVal) (name : String)
    (payload : JsVal) :
    (signalMessage m type peerId name payload).field "type" = .str type := by
  have hne : (JsVal.str type != JsVal.undefined) = true := by simp
  simp only [signalMessage, JsVal.stringifyObj, List.cons_append, List.nil_append,
    List.filter_cons, hne, if_true]
  rw [JsVal.field_obj_cons]
  simp

theorem signalMessage_to (m : Manager) (type : String) (p : String) (name : String)
    (payload : JsVal) :
    (signalMessage m type (.str p) name payload).field "to" = .str p := by
  have hne : (JsVal.str type != JsVal.undefined) = true := by simp
  have hne' : (JsVal.str p != JsVal.undefined) = true := by simp
  simp only [signalMessage, JsVal.stringifyObj, List.cons_append, List.nil_append,
    List.filter_cons, hne, hne', if_true]
  rw [JsVal.field_obj_cons, JsVal.field_obj_cons]
  simp

theorem sendSignal_signals (m : Manager) (fields : List (String × JsVal)) :
    (sendSignal m fields).signals = m.signals ∨
    (sendSignal m fields).signals = m.signals ++
      [JsVal.stringifyObj (fields ++ [("roomId", m.roomId), ("from", m.username)])] := by
  unfold sendSignal
  split
  · exact Or.inr rfl
  · exact Or.inl rfl

theorem sendSignal_open (m : Manager) (fields : List (String × JsVal))
    (h : m.ws = some .open) :
    (sendSignal m fields).signals = m.signals ++
      [JsVal.stringifyObj (fields ++ [("roomId", m.roomId), ("from", m.username)])] := by
  simp [sendSignal, h]

theorem handleSignalingMessage_eq (transport : Transport) (m : Manager) (message type : JsVal)
    (hp : message.prop "type" = .ok type) :
    handleSignalingMessage transport m message =
      if type.isStr "user-joined" then
        createPeerConnection transport m (message.field "from") true
      else if type.isStr "offer" then
        handleOffer transport m (message.field "from") (message.field "offer")
      else if type.isStr "answer" then
        handleAnswer transport m (message.field "from") (message.field "answer")
      else if type.isStr "ice-candidate" then
        handleIceCandidate transport m (message.field "from") (message.field "candidate")
      else if type.isStr "user-left" then (removePeer m (message.field "from"), none)
      else (m, none) := by
  simp only [handleSignalingMessage, hp]

theorem createPeerConnection_offer_signals (transport : Transport) (m : Manager)
    (peerId : JsVal) :
    (createPeerConnection transport m peerId true).1.signals = m.signals ∨
    ∃ offer, (createPeerConnection transport m peerId true).1.signals =
      m.signals ++ [signalMessage m "offer" peerId "offer" offer] := by
  cases h1 : transport.createOffer with
  | error e => exact Or.inl (by simp only [createPeerConnection, if_true, h1]; rfl)
  | ok offer =>
    cases h2 : transport.setLocalDescription offer with
    | some e => exact Or.inl (by simp only [createPeerConnection, if_true, h1, h2]; rfl)
    | none =>
      simp only [createPeerConnection, if_true, h1, h2]
      rcases sendSignal_signals (newPeerConnection m peerId).1
        [("type", .str "offer"), ("to", peerId), ("offer", offer)] with h | h
      · exact Or.inl h
      · exact Or.inr ⟨offer, h⟩

theorem handleOffer_signals (transport : Transport) (m : Manager) (peerId offer : JsVal) :
    (handleOffer transport m peerId offer).1.signals = m.signals ∨
    ∃ answer, (handleOffer transport m peerId offer).1.signals =
      m.signals ++ [signalMessage m "answer" peerId "answer" answer] := by
  cases h1 : transport.setRemoteDescription offer with
  | some e =>
    exact Or.inl (by
      simp only [handleOffer, createPeerConnection, Bool.false_eq_true, if_false, h1]; rfl)
  | none =>
    cases h2 : transport.createAnswer with
    | error e =>
      exact Or.inl (by
        simp only [handleOffer, createPeerConnection, Bool.false_eq_true, if_false, h1, h2]
        rfl)
    | ok answer =>
      cases h3 : transport.setLocalDescription answer with
      | some e =>
        exact Or.inl (by
          simp only [handleOffer, createPeerConnection, Bool.false_eq_true, if_false, h1, h2,
            h3]
          rfl)
      | none =>
        simp only [handleOffer, createPeerConnection, Bool.false_eq_true, if_false, h1, h2, h3]
        rcases sendSignal_signals (newPeerConnection m peerId).1
          [("type", .str "answer"), ("to", peerId), ("answer", answer)] with h | h
        · exact Or.inl h
        · exact Or.inr ⟨answer, h⟩

theorem handleAnswer_fst (transport : Transport) (m : Manager) (peerId answer : JsVal) :
    (handleAnswer transport m peerId answer).1 = m := by
  unfold handleAnswer
  split <;> rfl

theorem handleIceCandidate_fst (transport : Transport) (m : Manager)
    (peerId candidate : JsVal) :
    (handleIceCandidate transport m peerId candidate).1 = m := by
  unfold handleIceCandidate
  split <;> rfl

theorem removePeer_signals (m : Manager) (peerId : JsVal) :
    (removePeer m peerId).signals = m.signals := by
  cases h1 : m.peers.get peerId <;> cases h2 : m.dataChannels.get peerId <;>
    simp [removePeer, h1, h2]

theorem handleSignalingMessage_userJoined (transport : Transport) (m : Manager)
    (message : JsVal) (hp : message.prop "type" = .ok (.str "user-joined")) :
    handleSignalingMessage transport m message =
      createPeerConnection transport m (message.field "from") true := by
  rw [handleSignalingMessage_eq _ _ _ _ hp, if_pos (by decide)]

theorem handleSignalingMessage_offer (transport : Transport) (m : Manager)
    (message : JsVal) (hp : message.prop "type" = .ok (.str "offer")) :
    handleSignalingMessage transport m message =
      handleOffer transport m (message.field "from") (message.field "offer") := by
  rw [handleSignalingMessage_eq _ _ _ _ hp, if_neg (by decide), if_pos (by decide)]

theorem handleSignalingMessage_userLeft (transport : Transport) (m : Manager)
    (message : JsVal) (hp : message.prop "type" = .ok (.str "user-left")) :
    handleSignalingMessage transport m message =
      (removePeer m (message.field "from"), none) := by
  rw [handleSignalingMessage_eq _ _ _ _ hp, if_neg (by decide), if_neg (by decide),
    if_neg (by decide), if_neg (by decide), if_pos (by decide)]

/-- What `handleSignalingMessage` writes on the relay socket: nothing, or one offer
addressed to the sender of a `user-joined`, or one answer addressed to the sender of an
`offer`. -/
theorem handleSignalingMessage_signals (transport : Transport) (m : Manager)
    (message : JsVal) :
    (handleSignalingMessage transport m message).1.signals = m.signals ∨
    (∃ offer, (message.field "type").isStr "user-joined" = true ∧
      (handleSignalingMessage transport m message).1.signals = m.signals ++
        [signalMessage m "offer" (message.field "from") "offer" offer]) ∨
    (∃ answer, (message.field "type").isStr "user-joined" = false ∧
      (message.field "type").isStr "offer" = true ∧
      (handleSignalingMessage transport m message).1.signals = m.signals ++
        [signalMessage m "answer" (message.field "from") "answer" answer]) := by
  cases hp : message.prop "type" with
  | error e => exact Or.inl (by simp only [handleSignalingMessage, hp])
  | ok type =>
    have hf := JsVal.field_of_prop _ _ _ hp
    rw [handleSignalingMessage_eq _ _ _ _ hp]
    by_cases h1 : type.isStr "user-joined" = true
    · rw [if_pos h1]
      rcases createPeerConnection_offer_signals transport m (message.field "from")
        with h | ⟨offer, h⟩
      · exact Or.inl h
      · exact Or.inr (Or.inl ⟨offer, hf ▸ h1, h⟩)
    · rw [if_neg h1]
      by_cases h2 : type.isStr "offer" = true
      · rw [if_pos h2]
        rcases handleOffer_signals transport m (message.field "from") (message.field "offer")
          with h | ⟨answer, h⟩
        · exact Or.inl h
        · exact Or.inr (Or.inr ⟨answer, hf ▸ (by simpa using h1), hf ▸ h2, h⟩)
      · rw [if_neg h2]
        left
        split_ifs
        · rw [handleAnswer_fst]
        · rw [handleIceCandidate_fst]
        · exact removePeer_signals _ _
        · rfl

/-- C10, amended: no glare.  With the relay socket open and the calls on the browser's peer
connection succeeding, for every peer identifier `p`: handling a `user-joined` from `p`
writes exactly one message on the relay socket, an offer addressed to `p` (and no answer);
handling an `offer` from `p` writes exactly one message, an answer addressed to `p` (and no
offer).  And in every state, whatever the browser answers: a handler writes at most one
message; if it is an offer, the message handled is a `user-joined` and the offer is
addressed to its sender; if it is an answer, the message handled is an `offer`; so only the
side that saw the other arrive originates an offer. -/
theorem C10_no_glare (transport : Transport) (m : Manager) (p : String) (message : JsVal)
    (hws : m.ws = some .open) (hok : transport.Succeeds)
    (hfrom : message.field "from" = .str p) :
    (message.prop "type" = .ok (.str "user-joined") →
      ∃ signal, (handleSignalingMessage transport m message).1.signals =
          m.signals ++ [signal] ∧
        (handleSignalingMessage transport m message).2 = none ∧
        signal.field "type" = .str "offer" ∧ signal.field "to" = .str p) ∧
    (message.prop "type" = .ok (.str "offer") →
      ∃ signal, (handleSignalingMessage transport m message).1.signals =
          m.signals ++ [signal] ∧
        (handleSignalingMessage transport m message).2 = none ∧
        signal.field "type" = .str "answer" ∧ signal.field "to" = .str p) ∧
    (∀ (transport' : Transport) (m' : Manager),
      ∃ written, (handleSignalingMessage transport' m' message).1.signals =
          m'.signals ++ written ∧ written.length ≤ 1 ∧
        ∀ signal ∈ written,
          (signal.field "type" = .str "offer" ∧ signal.field "to" = .str p ∧
            message.field "type" = .str "user-joined") ∨
          (signal.field "type" = .str "answer" ∧ signal.field "to" = .str p ∧
            message.field "type" = .str "offer")) := by
  obtain ⟨⟨offer, hoffer⟩, ⟨answer, hanswer⟩, hlocal, hremote, _⟩ := hok
  refine ⟨?_, ?_, ?_⟩
  · intro hp
    refine ⟨signalMessage m "offer" (.str p) "offer" offer, ?_, ?_,
      signalMessage_type _ _ _ _ _, signalMessage_to _ _ _ _ _⟩
    · rw [handleSignalingMessage_userJoined _ _ _ hp]
      simp only [createPeerConnection, if_true, hoffer, hlocal, hfrom]
      rw [sendSignal_open _ _ (by simpa [newPeerConnection] using hws)]
      rfl
    · rw [handleSignalingMessage_userJoined _ _ _ hp]
      simp only [createPeerConnection, if_true, hoffer, hlocal]
  · intro hp
    refine ⟨signalMessage m "answer" (.str p) "answer" answer, ?_, ?_,
      signalMessage_type _ _ _ _ _, signalMessage_to _ _ _ _ _⟩
    · rw [handleSignalingMessage_offer _ _ _ hp]
      simp only [handleOffer, createPeerConnection, Bool.false_eq_true, if_false, hanswer,
        hlocal, hremote, hfrom]
      rw [sendSignal_open _ _ (by simpa [newPeerConnection] using hws)]
      rfl
    · rw [handleSignalingMessage_offer _ _ _ hp]
      simp only [handleOffer, createPeerConnection, Bool.false_eq_true, if_false, hanswer,
        hlocal, hremote]
  · intro transport' m'
    have hstr : ∀ (v : JsVal) (lit : String), v.isStr lit = true → v = .str lit := by
      intro v lit h
      cases v <;> simp_all [JsVal.isStr]
    rcases handleSignalingMessage_signals transport' m' message with h | ⟨o, ht, h⟩ | ⟨a, _, ht, h⟩
    · exact ⟨[], by simpa using h, by simp, by simp⟩
    · refine ⟨_, h, by simp, ?_⟩
      intro signal hs
      rw [List.mem_singleton] at hs
      subst hs
      rw [hfrom]
      exact Or.inl ⟨signalMessage_type _ _ _ _ _,
        signalMessage_to _ _ _ _ _, hstr _ _ ht⟩
    · refine ⟨_, h, by simp, ?_⟩
      intro signal hs
      rw [List.mem_singleton] at hs
      subst hs
      rw [hfrom]
      exact Or.inr ⟨signalMessage_type _ _ _ _ _,
        signalMessage_to _ _ _ _ _, hstr _ _ ht⟩

theorem Transport.succeeding_succeeds : Transport.succeeding.Succeeds :=
  ⟨⟨_, rfl⟩, ⟨_, rfl⟩, fun _ => rfl, fun _ => rfl, fun _ => rfl⟩

/-- C10, witness: `alice`, connected to room `R1`, handles the `user-joined` of `bob`. -/
theorem C10_no_glare_witness :
    ∃ signal, (handleSignalingMessage Transport.succeeding
        (Manager.connected (.str "alice") (.str "R1"))
        (userJoined (.str "bob") (.str "R1"))).1.signals =
        (Manager.connected (.str "alice") (.str "R1")).signals ++ [signal] ∧
      (handleSignalingMessage Transport.succeeding
        (Manager.connected (.str "alice") (.str "R1"))
        (userJoined (.str "bob") (.str "R1"))).2 = none ∧
      signal.field "type" = .str "offer" ∧ signal.field "to" = .str "bob" :=
  (C10_no_glare Transport.succeeding (Manager.connected (.str "alice") (.str "R1")) "bob"
    (userJoined (.str "bob") (.str "R1")) rfl Transport.succeeding_succeeds rfl).1 rfl

/-- C10 as stated fails when the offer cannot be sent or the answer cannot be made.
(1) `alice`, whose relay socket is closing, handles the `user-joined` of `bob`: `sendSignal`
writes nothing, so no offer is sent.  (2) `alice` handles an `offer` from `bob` whose
description the browser rejects in `setRemoteDescription` (here the relay forwarded an offer
message without description): `handleOffer` throws after it has stored the new connection
and no answer is sent. -/
theorem C10_no_message_without_socket_or_description :
    (handleSignalingMessage Transport.succeeding
      { Manager.connected (.str "alice") (.str "R1") with ws := some .closing }
      (userJoined (.str "bob") (.str "R1"))).1.signals = [] ∧
    (handleSignalingMessage
      { Transport.succeeding with setRemoteDescription := fun _ => some "TypeError" }
      (Manager.connected (.str "alice") (.str "R1"))
      (forwarded ⟨.str "bob", .str "R1"⟩
        (.obj [("type", .str "offer"), ("to", .str "alice")]))).1.signals = [] ∧
    (handleSignalingMessage
      { Transport.succeeding with setRemoteDescription := fun _ => some "TypeError" }
      (Manager.connected (.str "alice") (.str "R1"))
      (forwarded ⟨.str "bob", .str "R1"⟩
        (.obj [("type", .str "offer"), ("to", .str "alice")]))).1.peers.keys
      = [.str "bob"] := by
  decide

/-! ## Mesh completeness -/

theorem removePeer_peers (m : Manager) (peerId : JsVal) :
    (removePeer m peerId).peers = m.peers.delete peerId := by
  cases h1 : m.peers.get peerId <;> cases h2 : m.dataChannels.get peerId <;>
    simp [removePeer, h1, h2]
  all_goals
    have hn : JsMap.has m.peers peerId = false := (JsMap.has_false_iff _ _).2 h1
    simp only [JsMap.has, List.any_eq_false, decide_eq_true_eq] at hn
    unfold JsMap.delete
    symm
    rw [List.filter_eq_self]
    intro entry hentry
    simpa using hn entry hentry

theorem createPeerConnection_peers (transport : Transport) (m : Manager) (peerId : JsVal)
    (createOffer : Bool) :
    (createPeerConnection transport m peerId createOffer).1.peers =
      m.peers.set peerId m.created := by
  unfold createPeerConnection
  cases createOffer
  · rfl
  · simp only [if_true]
    cases transport.createOffer with
    | error e => rfl
    | ok offer =>
      simp only
      cases transport.setLocalDescription offer with
      | some e => rfl
      | none =>
        simp only [sendSignal]
        split <;> rfl

theorem sendSignal_frame (m : Manager) (fields : List (String × JsVal)) :
    (sendSignal m fields).username = m.username ∧ (sendSignal m fields).roomId = m.roomId ∧
    (sendSignal m fields).ws = m.ws ∧ (sendSignal m fields).peers = m.peers := by
  unfold sendSignal
  split <;> exact ⟨rfl, rfl, rfl, rfl⟩

theorem createPeerConnection_frame (transport : Transport) (m : Manager) (peerId : JsVal)
    (createOffer : Bool) :
    (createPeerConnection transport m peerId createOffer).1.username = m.username ∧
    (createPeerConnection transport m peerId createOffer).1.roomId = m.roomId ∧
    (createPeerConnection transport m peerId createOffer).1.ws = m.ws := by
  unfold createPeerConnection
  cases createOffer
  · exact ⟨rfl, rfl, rfl⟩
  · simp only [if_true]
    cases transport.createOffer with
    | error e => exact ⟨rfl, rfl, rfl⟩
    | ok offer =>
      simp only
      cases transport.setLocalDescription offer with
      | some e => exact ⟨rfl, rfl, rfl⟩
      | none =>
        simp only
        have h := sendSignal_frame (newPeerConnection m peerId).1
          [("type", .str "offer"), ("to", peerId), ("offer", offer)]
        exact ⟨h.1, h.2.1, h.2.2.1⟩

theorem handleOffer_frame (transport : Transport) (m : Manager) (peerId offer : JsVal) :
    (handleOffer transport m peerId offer).1.username = m.username ∧
    (handleOffer transport m peerId offer).1.roomId = m.roomId ∧
    (handleOffer transport m peerId offer).1.ws = m.ws ∧
    (handleOffer transport m peerId offer).1.peers = m.peers.set peerId m.created := by
  simp only [handleOffer, createPeerConnection, Bool.false_eq_true, if_false]
  cases transport.setRemoteDescription offer with
  | some e => exact ⟨rfl, rfl, rfl, rfl⟩
  | none =>
    simp only
    cases transport.createAnswer with
    | error e => exact ⟨rfl, rfl, rfl, rfl⟩
    | ok answer =>
      simp only
      cases transport.setLocalDescription answer with
      | some e => exact ⟨rfl, rfl, rfl, rfl⟩
      | none =>
        simp only
        have h := sendSignal_frame (newPeerConnection m peerId).1
          [("type", .str "answer"), ("to", peerId), ("answer", answer)]
        exact ⟨h.1, h.2.1, h.2.2.1, h.2.2.2⟩

theorem removePeer_frame (m : Manager) (peerId : JsVal) :
    (removePeer m peerId).username = m.username ∧ (removePeer m peerId).roomId = m.roomId ∧
    (removePeer m peerId).ws = m.ws := by
  cases h1 : m.peers.get peerId <;> cases h2 : m.dataChannels.get peerId <;>
    simp [removePeer, h1, h2]

/-- A handler leaves the name, the room and the socket of the manager as they are. -/
theorem handleSignalingMessage_frame (transport : Transport) (m : Manager) (message : JsVal) :
    (handleSignalingMessage transport m message).1.username = m.username ∧
    (handleSignalingMessage transport m message).1.roomId = m.roomId ∧
    (handleSignalingMessage transport m message).1.ws = m.ws := by
  cases hp : message.prop "type" with
  | error e => simp only [handleSignalingMessage, hp, and_self]
  | ok type =>
    rw [handleSignalingMessage_eq _ _ _ _ hp]
    split_ifs
    · exact createPeerConnection_frame _ _ _ _
    · have h := handleOffer_frame transport m (message.field "from") (message.field "offer")
      exact ⟨h.1, h.2.1, h.2.2.1⟩
    · rw [handleAnswer_fst]; exact ⟨rfl, rfl, rfl⟩
    · rw [handleIceCandidate_fst]; exact ⟨rfl, rfl, rfl⟩
    · exact removePeer_frame _ _
    · exact ⟨rfl, rfl, rfl⟩

theorem JsMap.has_set {κ ν : Type} [DecidableEq κ] (m : JsMap κ ν) (key : κ) (value : ν)
    (k : κ) : JsMap.has (JsMap.set m key value) k = (decide (k = key) || JsMap.has m k) := by
  rw [JsMap.has_eq_isSome, JsMap.has_eq_isSome, JsMap.get_set]
  by_cases h : k = key <;> simp [h]

theorem JsMap.has_delete {κ ν : Type} [DecidableEq κ] (m : JsMap κ ν) (key : κ) (k : κ) :
    JsMap.has (JsMap.delete m key) k = (!decide (k = key) && JsMap.has m k) := by
  rw [JsMap.has_eq_isSome, JsMap.has_eq_isSome, JsMap.get_delete]
  by_cases h : k = key <;> simp [h]

/-- What a handler does to the keys of `peers`. -/
theorem handleSignalingMessage_has (transport : Transport) (m : Manager) (message : JsVal)
    (peerId : JsVal) :
    JsMap.has (handleSignalingMessage transport m message).1.peers peerId =
      applyEffect peerId (JsMap.has m.peers peerId) message := by
  unfold applyEffect peerEffect
  cases hp : message.prop "type" with
  | error e => simp only [handleSignalingMessage, hp]
  | ok type =>
    rw [handleSignalingMessage_eq _ _ _ _ hp]
    simp only
    split_ifs with h1 h2 h3 h4 h5
    · rw [createPeerConnection_peers, JsMap.has_set]
      by_cases h : message.field "from" = peerId
      · simp [h]
      · have h' : ¬ peerId = message.field "from" := fun e => h e.symm
        simp [h, h']
    · rw [(handleOffer_frame _ _ _ _).2.2.2, JsMap.has_set]
      by_cases h : message.field "from" = peerId
      · simp [h]
      · have h' : ¬ peerId = message.field "from" := fun e => h e.symm
        simp [h, h']
    · rw [handleAnswer_fst]
    · rw [handleIceCandidate_fst]
    · simp only
      rw [removePeer_peers, JsMap.has_delete]
      by_cases h : message.field "from" = peerId
      · simp [h]
      · have h' : ¬ peerId = message.field "from" := fun e => h e.symm
        simp [h, h']
    · rfl

theorem signalMessage_prop_type (m : Manager) (type : String) (peerId : JsVal) (name : String)
    (payload : JsVal) :
    (signalMessage m type peerId name payload).prop "type" = .ok (.str type) := by
  have h := signalMessage_type m type peerId name payload
  unfold signalMessage JsVal.stringifyObj at h ⊢
  simp only [JsVal.prop, h]

theorem signalMessage_field_to (m : Manager) (type : String) (peerId : JsVal) (name : String)
    (payload : JsVal) (hname : name = "offer" ∨ name = "answer" ∨ name = "candidate") :
    (signalMessage m type peerId name payload).field "to" = peerId := by
  unfold signalMessage
  rw [JsVal.field_stringifyObj _ _ (by rcases hname with h | h | h <;> subst h <;> simp)]
  rfl

/-- With the socket open and the browser's calls succeeding, handling a `user-joined`
writes an offer addressed to its sender. -/
theorem handleSignalingMessage_offers (transport : Transport) (m : Manager) (message : JsVal)
    (hws : m.ws = some .open) (hok : transport.Succeeds)
    (hp : message.prop "type" = .ok (.str "user-joined")) :
    ∃ offer, (handleSignalingMessage transport m message).1.signals =
      m.signals ++ [signalMessage m "offer" (message.field "from") "offer" offer] := by
  obtain ⟨⟨offer, hoffer⟩, _, hlocal, _, _⟩ := hok
  refine ⟨offer, ?_⟩
  rw [handleSignalingMessage_userJoined _ _ _ hp]
  simp only [createPeerConnection, if_true, hoffer, hlocal]
  rw [sendSignal_open _ _ (by simpa [newPeerConnection] using hws)]
  rfl

theorem joinMessage_prop_type (roomId username : JsVal) :
    (joinMessage roomId username).prop "type" = .ok (.str "join") := by
  unfold joinMessage JsVal.stringifyObj
  by_cases h1 : roomId = .undefined <;> by_cases h2 : username = .undefined <;>
    simp [List.filter_cons, h1, h2, JsVal.prop] <;> rfl

theorem joinMessage_roomId (roomId username : JsVal) :
    (joinMessage roomId username).field "roomId" = roomId := by
  unfold joinMessage
  rw [JsVal.field_stringifyObj _ _ (by simp)]
  rfl

theorem joinMessage_username (roomId username : JsVal) :
    (joinMessage roomId username).field "username" = username := by
  unfold joinMessage
  rw [JsVal.field_stringifyObj _ _ (by simp)]
  rfl

theorem JsMap.filter_of_get_none {κ ν : Type} [DecidableEq κ] (m : JsMap κ ν) (key : κ)
    (p : κ × ν → Bool) (h : JsMap.get m key = none) :
    m.filter (fun entry => decide (entry.1 ≠ key ∧ p entry = true)) = m.filter p := by
  have hn : JsMap.has m key = false := (JsMap.has_false_iff _ _).2 h
  simp only [JsMap.has, List.any_eq_false, decide_eq_true_eq] at hn
  apply List.filter_congr
  intro entry hentry
  have := hn entry hentry
  simp [this]

theorem JsMap.set_of_get_none {κ ν : Type} [DecidableEq κ] (m : JsMap κ ν) (key : κ)
    (value : ν) (h : JsMap.get m key = none) : JsMap.set m key value = m ++ [(key, value)] := by
  have hn : JsMap.has m key = false := (JsMap.has_false_iff _ _).2 h
  simp [JsMap.set, hn]

/-- The relay on the join of a peer that is not a member yet. -/
theorem onmessage_join (isOpen : Handle → Bool) (rooms : Rooms) (socket : Handle)
    (vars : Closure) (roomId username : JsVal)
    (h : JsMap.get ((rooms.get roomId).getD []) username = none) :
    (onmessage isOpen rooms socket vars (some (joinMessage roomId username))).vars =
      ⟨username, roomId⟩ ∧
    ((onmessage isOpen rooms socket vars (some (joinMessage roomId username))).rooms.get
      roomId).getD [] = (rooms.get roomId).getD [] ++ [(username, socket)] ∧
    (onmessage isOpen rooms socket vars (some (joinMessage roomId username))).sent =
      (((rooms.get roomId).getD []).filter (fun entry => isOpen entry.2)).map
        (fun entry => (entry.2, userJoined username roomId)) := by
  have heq : onmessage isOpen rooms socket vars (some (joinMessage roomId username)) =
      onJoin isOpen rooms socket (joinMessage roomId username) := by
    simp [onmessage, onmessageTry, joinMessage_prop_type, JsVal.isStr]
  have hroom : (JsMap.get (if JsMap.has rooms roomId = true then rooms
      else JsMap.set rooms roomId []) roomId).getD [] = (rooms.get roomId).getD [] := by
    by_cases hh : JsMap.has rooms roomId = true
    · simp [hh]
    · have hn := (JsMap.has_false_iff rooms roomId).1 (by simpa using hh)
      simp [hh, JsMap.get_set_self, hn]
  rw [heq]
  refine ⟨?_, ?_, ?_⟩
  · simp only [onJoin, joinMessage_roomId, joinMessage_username]
  · simp only [onJoin, joinMessage_roomId, joinMessage_username, hroom]
    rw [JsMap.get_set_self, Option.getD_some, JsMap.set_of_get_none _ _ _ h]
  · simp only [onJoin, joinMessage_roomId, joinMessage_username, hroom]
    rw [filterMap_ite_eq_map_filter, JsMap.set_of_get_none _ _ _ h, List.filter_append]
    have := JsMap.filter_of_get_none ((rooms.get roomId).getD []) username
      (fun entry => isOpen entry.2) h
    simp only [ne_eq, Bool.decide_and, Bool.decide_eq_true, decide_not] at this
    simp [this]

theorem stringifyObj_prop_type (type : String) (fields : List (String × JsVal)) :
    (JsVal.stringifyObj (("type", .str type) :: fields)).prop "type" = .ok (.str type) := by
  have hne : (JsVal.str type != JsVal.undefined) = true := by simp
  simp only [JsVal.stringifyObj, List.filter_cons, hne, if_true, JsVal.prop]
  rw [JsVal.field_obj_cons]
  simp

/-- The relay on an offer, answer or candidate of a connection that has joined a room
with a non-empty identifier. -/
theorem onmessage_forward (isOpen : Handle → Bool) (rooms : Rooms) (socket : Handle)
    (vars : Closure) (message : JsVal) (t : String)
    (ht : t = "offer" ∨ t = "answer" ∨ t = "ice-candidate")
    (hp : message.prop "type" = .ok (.str t)) (hroom : vars.roomId.truthy = true) :
    onmessage isOpen rooms socket vars (some message) =
      ⟨rooms, vars,
        match JsMap.get ((rooms.get vars.roomId).getD []) (message.field "to") with
        | some target => if isOpen target then [(target, forwarded vars message)] else []
        | none => []⟩ := by
  have hjoin : (JsVal.str t).isStr "join" = false := by
    rcases ht with h | h | h <;> subst h <;> decide
  have hfwd : ((JsVal.str t).isStr "offer" || (JsVal.str t).isStr "answer" ||
      (JsVal.str t).isStr "ice-candidate") = true := by
    rcases ht with h | h | h <;> subst h <;> decide
  simp only [onmessage, onmessageTry, hp, hjoin, hfwd, if_true, Bool.false_eq_true, if_false,
    onForward, hroom, Bool.true_and]
  by_cases hh : JsMap.has rooms vars.roomId = true
  · simp only [hh, if_true]
    cases JsMap.get ((rooms.get vars.roomId).getD []) (message.field "to") with
    | none => rfl
    | some target =>
      simp only
      split <;> rfl
  · have hn := (JsMap.has_false_iff rooms vars.roomId).1 (by simpa using hh)
    simp [hh, hn, JsMap.get_nil]

theorem forwarded_prop_type (vars : Closure) (message : JsVal) (t : String)
    (hp : message.prop "type" = .ok (.str t)) :
    (forwarded vars message).prop "type" = .ok (.str t) := by
  unfold forwarded
  rw [JsVal.field_of_prop _ _ _ hp]
  exact stringifyObj_prop_type _ _

theorem forwarded_from (vars : Closure) (message : JsVal) :
    (forwarded vars message).field "from" = vars.userId := by
  rw [forwarded_field]
  rfl

theorem userJoined_prop_type (userId roomId : JsVal) :
    (userJoined userId roomId).prop "type" = .ok (.str "user-joined") :=
  stringifyObj_prop_type _ _

theorem userJoined_from (userId roomId : JsVal) :
    (userJoined userId roomId).field "from" = userId := by
  unfold userJoined
  rw [JsVal.field_stringifyObj _ _ (by simp)]
  rfl

theorem userLeft_prop_type (userId roomId : JsVal) :
    (userLeft userId roomId).prop "type" = .ok (.str "user-left") :=
  stringifyObj_prop_type _ _

theorem userLeft_from (userId roomId : JsVal) :
    (userLeft userId roomId).field "from" = userId := by
  unfold userLeft
  rw [JsVal.field_stringifyObj _ _ (by simp)]
  rfl

theorem peerEffect_userJoined (userId roomId : JsVal) :
    peerEffect (userJoined userId roomId) = some (userId, true) := by
  simp only [peerEffect, userJoined_prop_type, userJoined_from]
  rfl

theorem peerEffect_userLeft (userId roomId : JsVal) :
    peerEffect (userLeft userId roomId) = some (userId, false) := by
  simp only [peerEffect, userLeft_prop_type, userLeft_from]
  rfl

theorem peerEffect_of_type (message : JsVal) (t : String)
    (hp : message.prop "type" = .ok (.str t)) :
    peerEffect message =
      if t = "user-joined" ∨ t = "offer" then some (message.field "from", true)
      else if t = "user-left" then some (message.field "from", false)
      else none := by
  simp only [peerEffect, hp, JsVal.isStr, beq_iff_eq]
  split_ifs <;> simp_all

/-- The relay on the close of a connection that has joined with non-empty identifiers. -/
theorem onclose_joined (isOpen : Handle → Bool) (rooms : Rooms) (vars : Closure)
    (hroom : vars.roomId.truthy = true) (huser : vars.userId.truthy = true) :
    ((onclose isOpen rooms vars).rooms.get vars.roomId).getD [] =
      JsMap.delete ((rooms.get vars.roomId).getD []) vars.userId ∧
    (onclose isOpen rooms vars).sent =
      ((JsMap.delete ((rooms.get vars.roomId).getD []) vars.userId).filter
        (fun entry => isOpen entry.2)).map
        (fun entry => (entry.2, userLeft vars.userId vars.roomId)) := by
  have hfm : ∀ room : Room, room.filterMap (fun entry =>
      if isOpen entry.2 = true then some (entry.2, userLeft vars.userId vars.roomId)
      else none) =
      (room.filter (fun entry => isOpen entry.2)).map
        (fun entry => (entry.2, userLeft vars.userId vars.roomId)) := by
    intro room
    rw [filterMap_ite_eq_map_filter]
    simp
  by_cases hh : JsMap.has rooms vars.roomId = true
  · simp only [onclose, hroom, huser, hh, Bool.and_self, if_true, hfm, and_true]
    split
    · rename_i hlen
      rw [JsMap.get_delete_self, List.length_eq_zero.1 hlen]
      rfl
    · rw [JsMap.get_set_self]
      rfl
  · have hn := (JsMap.has_false_iff rooms vars.roomId).1 (by simpa using hh)
    simp [onclose, hh, hn, JsMap.delete]

theorem onclose_init (isOpen : Handle → Bool) (rooms : Rooms) :
    onclose isOpen rooms Closure.init = ⟨rooms, Closure.init, []⟩ := rfl

theorem deliver_get (clients : JsMap Handle Client) (sent : List (Handle × JsVal))
    (socket : Handle) :
    JsMap.get (Mesh.deliver clients sent) socket =
      (JsMap.get clients socket).map
        (fun client => { client with inbox := client.inbox ++ messagesTo sent socket }) := by
  induction clients with
  | nil => rfl
  | cons entry clients ih =>
    obtain ⟨h, c⟩ := entry
    unfold Mesh.deliver at ih ⊢
    rw [List.map_cons, JsMap.get_cons, JsMap.get_cons, ih]
    by_cases hh : h = socket
    · subst hh; simp [messagesTo]
    · simp [hh]

theorem deliver_keys (clients : JsMap Handle Client) (sent : List (Handle × JsVal)) :
    (Mesh.deliver clients sent).map Prod.fst = clients.map Prod.fst := by
  simp [Mesh.deliver, List.map_map, Function.comp_def]

theorem messagesTo_nil (socket : Handle) : messagesTo [] socket = [] := rfl

theorem messagesTo_broadcast (room : Room) (p : JsVal × Handle → Bool) (message : JsVal)
    (socket : Handle) :
    messagesTo ((room.filter p).map (fun entry => (entry.2, message))) socket =
      List.replicate ((room.filter (fun entry => p entry && decide (entry.2 = socket))).length)
        message := by
  induction room with
  | nil => rfl
  | cons entry room ih =>
    unfold messagesTo at ih ⊢
    by_cases hp : p entry = true <;> by_cases hs : entry.2 = socket <;>
      simp [List.filter_cons, hp, hs, List.replicate_succ] <;> simpa using ih

theorem finalHas_append (peerId : JsVal) (has : Bool) (l l' : List JsVal) :
    finalHas peerId has (l ++ l') = finalHas peerId (finalHas peerId has l) l' := by
  simp [finalHas, List.foldl_append]

theorem finalHas_cons (peerId : JsVal) (has : Bool) (message : JsVal) (l : List JsVal) :
    finalHas peerId has (message :: l) = finalHas peerId (applyEffect peerId has message) l :=
  rfl

theorem applyEffect_idem (peerId : JsVal) (has : Bool) (message : JsVal) :
    applyEffect peerId (applyEffect peerId has message) message =
      applyEffect peerId has message := by
  unfold applyEffect
  cases peerEffect message with
  | none => rfl
  | some pv =>
    obtain ⟨p, v⟩ := pv
    by_cases h : p = peerId <;> simp [h]

theorem finalHas_replicate (peerId : JsVal) (has : Bool) (message : JsVal) (n : Nat) :
    finalHas peerId has (List.replicate n message) =
      if n = 0 then has else applyEffect peerId has message := by
  induction n generalizing has with
  | zero => rfl
  | succ n ih =>
    rw [List.replicate_succ, finalHas_cons, ih]
    by_cases hn : n = 0
    · simp [hn]
    · simp [hn, applyEffect_idem]

theorem applyEffect_of_ne (peerId : JsVal) (has : Bool) (message : JsVal) (p : JsVal)
    (v : Bool) (he : peerEffect message = some (p, v)) (hne : p ≠ peerId) :
    applyEffect peerId has message = has := by
  simp [applyEffect, he, hne]

theorem applyEffect_of_eq (peerId : JsVal) (has : Bool) (message : JsVal) (v : Bool)
    (he : peerEffect message = some (peerId, v)) :
    applyEffect peerId has message = v := by
  simp [applyEffect, he]

theorem applyEffect_of_none (peerId : JsVal) (has : Bool) (message : JsVal)
    (he : peerEffect message = none) :
    applyEffect peerId has message = has := by
  simp [applyEffect, he]

theorem Client.push_finalHas (client : Client) (messages : List JsVal) (peerId : JsVal) :
    (client.push messages).finalHas peerId =
      RTCCollab.finalHas peerId (client.finalHas peerId) messages := by
  simp [Client.finalHas, Client.push, finalHas_append]

theorem Client.push_nil (client : Client) : client.push [] = client := by
  cases client
  simp [Client.push]

theorem deliver_get' (clients : JsMap Handle Client) (sent : List (Handle × JsVal))
    (socket : Handle) :
    JsMap.get (Mesh.deliver clients sent) socket =
      (JsMap.get clients socket).map (fun client => client.push (messagesTo sent socket)) :=
  deliver_get clients sent socket

theorem atRelay_message (mesh : Mesh) (socket : Handle) (vars : Closure) (message : JsVal)
    (hc : mesh.relay.conns.get socket = some (vars, true)) :
    mesh.atRelay (.message socket (some message)) =
      { relay :=
          { rooms := (onmessage mesh.relay.isOpen mesh.relay.rooms socket vars
              (some message)).rooms,
            conns := mesh.relay.conns.set socket
              ((onmessage mesh.relay.isOpen mesh.relay.rooms socket vars (some message)).vars,
                true),
            sent := [] },
        clients := Mesh.deliver mesh.clients
          (onmessage mesh.relay.isOpen mesh.relay.rooms socket vars (some message)).sent } := by
  simp only [Mesh.atRelay, Relay.step, hc, List.nil_append]
  rfl

theorem atRelay_close (mesh : Mesh) (socket : Handle) (vars : Closure)
    (hc : mesh.relay.conns.get socket = some (vars, true)) :
    mesh.atRelay (.close socket) =
      { relay :=
          { rooms := (onclose (fun s => decide (s ≠ socket) && mesh.relay.isOpen s)
              mesh.relay.rooms vars).rooms,
            conns := mesh.relay.conns.set socket (vars, false),
            sent := [] },
        clients := Mesh.deliver mesh.clients
          (onclose (fun s => decide (s ≠ socket) && mesh.relay.isOpen s)
            mesh.relay.rooms vars).sent } := by
  have hopen : Relay.isOpen ⟨mesh.relay.rooms, mesh.relay.conns.set socket (vars, false), []⟩ =
      (fun s => decide (s ≠ socket) && mesh.relay.isOpen s) := by
    funext s
    simp only [Relay.isOpen, JsMap.get_set]
    by_cases hs : s = socket <;> simp [hs]
  simp only [Mesh.atRelay, Relay.step, hc, List.nil_append, hopen]

theorem atRelay_connect (mesh : Mesh) (socket : Handle)
    (hc : JsMap.has mesh.relay.conns socket = false) :
    mesh.atRelay (.connect socket) =
      { relay := { rooms := mesh.relay.rooms,
                   conns := mesh.relay.conns.set socket (Closure.init, true), sent := [] },
        clients := mesh.clients } := by
  have hd : Mesh.deliver mesh.clients [] = mesh.clients := by
    unfold Mesh.deliver
    conv => rhs; rw [← List.map_id mesh.clients]
    apply List.map_congr_left
    intro entry _
    obtain ⟨h, c⟩ := entry
    cases c
    simp
  simp only [Mesh.atRelay, Relay.step, hc, Bool.false_eq_true, if_false, hd]

theorem isOpen_of_conn (relay : Relay) (socket : Handle) (vars : Closure)
    (h : relay.conns.get socket = some (vars, true)) : relay.isOpen socket = true := by
  simp [Relay.isOpen, h]

theorem MeshInv.conn_of_client {room : String} {mesh : Mesh} (inv : MeshInv room mesh)
    {h : Handle} {c : Client} (hc : mesh.clients.get h = some c) :
    ∃ vars, mesh.relay.conns.get h = some (vars, true) := by
  obtain ⟨u, _, _, _, _, hcase⟩ := inv.clientOk h c hc
  rcases hcase with ⟨hconn, _⟩ | ⟨hconn, _⟩
  · exact ⟨_, hconn⟩
  · exact ⟨_, hconn⟩

theorem JsMap.nodup_set {κ ν : Type} [DecidableEq κ] (m : JsMap κ ν) (key : κ) (value : ν)
    (h : (m.map Prod.fst).Nodup) : ((JsMap.set m key value).map Prod.fst).Nodup := by
  unfold JsMap.set
  split
  · have : (m.map (fun kv => if kv.1 = key then (key, value) else kv)).map Prod.fst =
        m.map Prod.fst := by
      rw [List.map_map]
      apply List.map_congr_left
      intro kv _
      by_cases hk : kv.1 = key <;> simp [hk]
    rw [this]; exact h
  · rename_i hh
    rw [List.map_append, List.nodup_append]
    refine ⟨h, by simp, ?_⟩
    intro a ha hb
    simp only [List.map_cons, List.map_nil, List.mem_singleton] at hb
    subst hb
    apply hh
    rw [List.mem_map] at ha
    obtain ⟨kv, hkv, hk⟩ := ha
    simp only [JsMap.has, List.any_eq_true, decide_eq_true_eq]
    exact ⟨kv, hkv, hk⟩

theorem JsMap.nodup_delete {κ ν : Type} [DecidableEq κ] (m : JsMap κ ν) (key : κ)
    (h : (m.map Prod.fst).Nodup) : ((JsMap.delete m key).map Prod.fst).Nodup :=
  (List.filter_sublist m).map Prod.fst |>.nodup h

theorem JsMap.get_of_mem {κ ν : Type} [DecidableEq κ] (m : JsMap κ ν) (key : κ) (value : ν)
    (hn : (m.map Prod.fst).Nodup) (h : (key, value) ∈ m) : JsMap.get m key = some value := by
  induction m with
  | nil => cases h
  | cons kv m ih =>
    obtain ⟨k, v⟩ := kv
    simp only [List.map_cons, List.nodup_cons] at hn
    rw [JsMap.get_cons]
    rcases List.mem_cons.1 h with heq | hmem
    · cases heq; simp
    · have hk : ¬ k = key := by
        intro e
        subst e
        exact hn.1 (List.mem_map.2 ⟨(k, value), hmem, rfl⟩)
      rw [if_neg hk]
      exact ih hn.2 hmem

theorem MeshInv.connect {room : String} {mesh : Mesh} (inv : MeshInv room mesh) (h : Handle)
    (u : String) (hadm : mesh.Admissible (.connect h u)) :
    MeshInv room (mesh.step room (.connect h u)) := by
  obtain ⟨hu, hdistinct⟩ := hadm
  by_cases hfresh : JsMap.has mesh.relay.conns h = true
  · simp only [Mesh.step, hfresh, if_true]; exact inv
  · have hfresh' : JsMap.has mesh.relay.conns h = false := by simpa using hfresh
    have hnone : mesh.clients.get h = none := by
      cases hc : mesh.clients.get h with
      | none => rfl
      | some c =>
        obtain ⟨vars, hv⟩ := inv.conn_of_client hc
        rw [JsMap.has_eq_isSome, hv] at hfresh'
        cases hfresh'
    have hstep : mesh.step room (.connect h u) =
        ⟨⟨mesh.relay.rooms, mesh.relay.conns.set h (Closure.init, true), []⟩,
          mesh.clients.set h ⟨Manager.connected (.str u) (.str room), [],
            [joinMessage (.str room) (.str u)]⟩⟩ := by
      simp only [Mesh.step, hfresh', Bool.false_eq_true, if_false, atRelay_connect _ _ hfresh']
    rw [hstep]
    have hold : ∀ x c, mesh.clients.get x = some c → x ≠ h := by
      intro x c hx e
      rw [e, hnone] at hx
      cases hx
    have hnomember : JsMap.get (mesh.members room) (.str u) = none := by
      cases hm : JsMap.get (mesh.members room) (.str u) with
      | none => rfl
      | some g =>
        obtain ⟨c, hc, hname, _⟩ := inv.membersOk _ (JsMap.mem_of_get _ _ _ hm)
        exact absurd hname (hdistinct (g, c) (JsMap.mem_of_get _ _ _ hc))
    refine ⟨JsMap.nodup_set _ _ _ inv.nodup, ?_, ?_, ?_, ?_, ?_, ?_⟩
    · intro x hx
      simp only [JsMap.get_set] at hx
      by_cases hxh : x = h
      · simp [hxh] at hx
      · simp only [hxh, if_false] at hx
        have := inv.closed x hx
        simpa [Relay.isOpen, JsMap.get_set, hxh] using this
    · intro x y c d hx hy hname
      simp only [JsMap.get_set] at hx hy
      by_cases hxh : x = h <;> by_cases hyh : y = h
      · rw [hxh, hyh]
      · simp only [hxh, if_true, Option.some.injEq] at hx
        simp only [hyh, if_false] at hy
        subst hx
        exact absurd hname.symm (hdistinct (y, d) (JsMap.mem_of_get _ _ _ hy))
      · simp only [hyh, if_true, Option.some.injEq] at hy
        simp only [hxh, if_false] at hx
        subst hy
        exact absurd hname (hdistinct (x, c) (JsMap.mem_of_get _ _ _ hx))
      · simp only [hxh, hyh, if_false] at hx hy
        exact inv.names x y c d hx hy hname
    · intro x c hx
      simp only [JsMap.get_set] at hx
      by_cases hxh : x = h
      · simp only [hxh, if_true, Option.some.injEq] at hx
        subst hx
        refine ⟨u, hu, rfl, rfl, rfl, Or.inl ⟨?_, hnomember, rfl, rfl, rfl⟩⟩
        simp [JsMap.get_set, hxh]
      · simp only [hxh, if_false] at hx
        obtain ⟨v, hv, hname, hr, hws, hcase⟩ := inv.clientOk x c hx
        refine ⟨v, hv, hname, hr, hws, ?_⟩
        simpa [JsMap.get_set, hxh, Mesh.members] using hcase
    · intro entry hentry
      obtain ⟨c, hc, hname, hj⟩ := inv.membersOk entry hentry
      have hne := hold _ _ hc
      refine ⟨c, ?_, hname, ?_⟩
      · simp [JsMap.get_set, hne, hc]
      · simpa [Mesh.Joined, JsMap.get_set, hne] using hj
    · intro x y c d hxy hx hy hjx hjy
      simp only [JsMap.get_set, Mesh.Joined] at hx hy hjx hjy
      by_cases hxh : x = h
      · simp only [hxh, if_true, Option.some.injEq] at hx hjx
        subst hx
        simp [Closure.init, Manager.connected] at hjx
      · by_cases hyh : y = h
        · simp only [hyh, if_true, Option.some.injEq] at hy hjy
          subst hy
          simp [Closure.init, Manager.connected] at hjy
        · simp only [hxh, hyh, if_false] at hx hy hjx hjy
          exact inv.expect x y c d hxy hx hy hjx hjy
    · intro x c b hx habs
      simp only [JsMap.get_set] at hx
      by_cases hxh : x = h
      · simp only [hxh, if_true, Option.some.injEq] at hx
        subst hx
        rfl
      · simp only [hxh, if_false] at hx
        apply inv.absent x c b hx
        intro g d hg hgd hj
        have hne := hold _ _ hgd
        apply habs g d hg
        · simp [JsMap.get_set, hne, hgd]
        · simpa [Mesh.Joined, JsMap.get_set, hne] using hj

theorem JsVal.prop_of_isStr (v : JsVal) (name lit : String)
    (h : (v.field name).isStr lit = true) : v.prop name = .ok (v.field name) := by
  cases v <;> simp_all [JsVal.prop, JsVal.field, JsVal.isStr]

theorem JsVal.eq_of_isStr (v : JsVal) (lit : String) (h : v.isStr lit = true) :
    v = .str lit := by
  cases v <;> simp_all [JsVal.isStr]

theorem Client.handled_spec (transport : Transport) (hok : transport.Succeeds)
    (client : Client) (message : JsVal) (rest : List JsVal) (u : String)
    (hinbox : client.inbox = message :: rest)
    (hws : client.manager.ws = some .open)
    (hin : InOk u message) (hout : ∀ m ∈ client.outbox, OutOk u m) :
    (client.handled transport message rest).manager.username = client.manager.username ∧
    (client.handled transport message rest).manager.roomId = client.manager.roomId ∧
    (client.handled transport message rest).manager.ws = client.manager.ws ∧
    (client.handled transport message rest).inbox = rest ∧
    (∀ b, (client.handled transport message rest).finalHas b = client.finalHas b) ∧
    (∀ m ∈ (client.handled transport message rest).outbox, OutOk u m) ∧
    (∀ m ∈ client.outbox, m ∈ (client.handled transport message rest).outbox) ∧
    (∀ a, IsUserJoinedFrom a message →
      ∃ m ∈ (client.handled transport message rest).outbox, IsOfferTo a m) := by
  have hframe := handleSignalingMessage_frame transport
    { client.manager with signals := [] } message
  refine ⟨hframe.1, hframe.2.1, hframe.2.2, rfl, ?_, ?_, ?_, ?_⟩
  · intro b
    simp only [Client.finalHas, Client.handled, hinbox, finalHas_cons]
    rw [handleSignalingMessage_has]
  · intro m hm
    simp only [Client.handled, List.mem_append] at hm
    rcases hm with hm | hm
    · exact hout m hm
    · rcases handleSignalingMessage_signals transport { client.manager with signals := [] }
        message with h | ⟨offer, ht, h⟩ | ⟨answer, _, ht, h⟩
      · rw [h] at hm; cases hm
      · rw [h] at hm
        simp only [List.nil_append, List.mem_singleton] at hm
        subst hm
        refine ⟨"offer", signalMessage_prop_type _ _ _ _ _, Or.inl rfl, fun _ => ?_⟩
        rw [signalMessage_field_to _ _ _ _ _ (Or.inl rfl)]
        intro hfrom
        apply hin
        have hp := JsVal.prop_of_isStr _ _ _ ht
        simp only [peerEffect, hp, ht, if_true, hfrom]
      · rw [h] at hm
        simp only [List.nil_append, List.mem_singleton] at hm
        subst hm
        exact ⟨"answer", signalMessage_prop_type _ _ _ _ _, Or.inr (Or.inl rfl),
          fun h => absurd h (by decide)⟩
  · intro m hm
    simp only [Client.handled, List.mem_append]
    exact Or.inl hm
  · intro a ⟨hp, hfrom⟩
    obtain ⟨offer, h⟩ := handleSignalingMessage_offers transport
      { client.manager with signals := [] } message hws hok hp
    refine ⟨signalMessage { client.manager with signals := [] } "offer" a "offer" offer, ?_,
      signalMessage_prop_type _ _ _ _ _, signalMessage_field_to _ _ _ _ _ (Or.inl rfl)⟩
    simp only [Client.handled, List.mem_append]
    right
    rw [h, hfrom]
    simp

theorem Mesh.step_handle (room : String) (mesh : Mesh) (h : Handle) (transport : Transport)
    (c : Client) (message : JsVal) (rest : List JsVal)
    (hc : mesh.clients.get h = some c) (hinbox : c.inbox = message :: rest) :
    mesh.step room (.handle h transport) =
      { mesh with clients := mesh.clients.set h (c.handled transport message rest) } := by
  simp only [Mesh.step, hc, hinbox, Client.handled]

theorem Mesh.step_handle_nil (room : String) (mesh : Mesh) (h : Handle)
    (transport : Transport) (c : Client)
    (hc : mesh.clients.get h = some c) (hinbox : c.inbox = []) :
    mesh.step room (.handle h transport) = mesh := by
  simp only [Mesh.step, hc, hinbox]

theorem Mesh.step_handle_none (room : String) (mesh : Mesh) (h : Handle)
    (transport : Transport) (hc : mesh.clients.get h = none) :
    mesh.step room (.handle h transport) = mesh := by
  simp only [Mesh.step, hc]

/-- The invariant is kept when a participant that has joined takes a step of its own. -/
theorem MeshInv.update_client {room : String} {mesh : Mesh} (inv : MeshInv room mesh)
    (h : Handle) (c c' : Client) (hc : mesh.clients.get h = some c)
    (hjoined : mesh.Joined room h c)
    (hname : c'.manager.username = c.manager.username)
    (hroom : c'.manager.roomId = c.manager.roomId)
    (hws : c'.manager.ws = c.manager.ws)
    (hfinal : ∀ b, c'.finalHas b = c.finalHas b)
    (hout : ∀ u, c.manager.username = .str u → ∀ m ∈ c'.outbox, OutOk u m)
    (hin : ∀ u, c.manager.username = .str u → ∀ m ∈ c'.inbox, InOk u m)
    (hoffers : ∀ a, (∃ m ∈ c.outbox, IsOfferTo a m) → ∃ m ∈ c'.outbox, IsOfferTo a m)
    (hjoins : ∀ a, (∃ m ∈ c.inbox, IsUserJoinedFrom a m) →
      (∃ m ∈ c'.outbox, IsOfferTo a m) ∨ (∃ m ∈ c'.inbox, IsUserJoinedFrom a m)) :
    MeshInv room { mesh with clients := mesh.clients.set h c' } := by
  have hget : ∀ x, JsMap.get (mesh.clients.set h c') x =
      if x = h then some c' else mesh.clients.get x := fun x => JsMap.get_set _ _ _ _
  -- every client of the new state comes from a client of the old one with the same name
  have hback : ∀ x cx', JsMap.get (mesh.clients.set h c') x = some cx' →
      ∃ cx, mesh.clients.get x = some cx ∧ cx'.manager.username = cx.manager.username ∧
        (x ≠ h → cx' = cx) ∧ (x = h → cx' = c' ∧ cx = c) := by
    intro x cx' hx
    rw [hget] at hx
    by_cases hxh : x = h
    · simp only [hxh, if_true, Option.some.injEq] at hx
      subst hx
      exact ⟨c, hxh ▸ hc, hname, fun hne => absurd hxh hne, fun _ => ⟨rfl, rfl⟩⟩
    · simp only [hxh, if_false] at hx
      exact ⟨cx', hx, rfl, fun _ => rfl, fun e => absurd e hxh⟩
  have hfwd : ∀ x cx, mesh.clients.get x = some cx →
      ∃ cx', JsMap.get (mesh.clients.set h c') x = some cx' ∧
        cx'.manager.username = cx.manager.username := by
    intro x cx hx
    rw [hget]
    by_cases hxh : x = h
    · subst hxh
      rw [hc] at hx
      cases hx
      exact ⟨c', by simp, hname⟩
    · exact ⟨cx, by simp [hxh, hx], rfl⟩
  refine ⟨JsMap.nodup_set _ _ _ inv.nodup, ?_, ?_, ?_, ?_, ?_, ?_⟩
  · intro x hx
    rw [hget] at hx
    by_cases hxh : x = h
    · simp [hxh] at hx
    · simp only [hxh, if_false] at hx
      exact inv.closed x hx
  · intro x y cx' cy' hx hy hn
    obtain ⟨cx, hcx, hnx, _⟩ := hback x cx' hx
    obtain ⟨cy, hcy, hny, _⟩ := hback y cy' hy
    exact inv.names x y cx cy hcx hcy (by rw [← hnx, ← hny, hn])
  · intro x cx' hx
    obtain ⟨cx, hcx, hnx, hne, heq⟩ := hback x cx' hx
    by_cases hxh : x = h
    · obtain ⟨rfl, rfl⟩ := heq hxh
      subst hxh
      obtain ⟨u, hu, hcname, hcroom, hcws, hcase⟩ := inv.clientOk x cx hcx
      refine ⟨u, hu, hname.trans hcname, hroom.trans hcroom, hws.trans hcws, Or.inr ?_⟩
      rcases hcase with ⟨hconn, _⟩ | ⟨hconn, hmem, _, _⟩
      · rw [Mesh.Joined, hconn, hcname] at hjoined
        simp [Closure.init] at hjoined
      · exact ⟨hconn, hmem, hout u hcname, hin u hcname⟩
    · rw [hne hxh]
      exact inv.clientOk x cx hcx
  · intro entry hentry
    obtain ⟨c0, hc0, hname0, hj⟩ := inv.membersOk entry hentry
    obtain ⟨c0', hc0', hname0'⟩ := hfwd _ _ hc0
    refine ⟨c0', hc0', hname0'.trans hname0, ?_⟩
    simpa [Mesh.Joined, hname0'] using hj
  · intro x y cx' cy' hxy hx hy hjx hjy
    obtain ⟨cx, hcx, hnx, hnex, heqx⟩ := hback x cx' hx
    obtain ⟨cy, hcy, hny, hney, heqy⟩ := hback y cy' hy
    have hjx' : mesh.Joined room x cx := by simpa [Mesh.Joined, hnx] using hjx
    have hjy' : mesh.Joined room y cy := by simpa [Mesh.Joined, hny] using hjy
    have hold := inv.expect x y cx cy hxy hcx hcy hjx' hjy'
    rw [hnx, hny]
    by_cases hxh : x = h
    · obtain ⟨rfl, rfl⟩ := heqx hxh
      have hyh : y ≠ h := fun e => hxy (hxh.trans e.symm)
      rw [hney hyh, hfinal]
      exact hold
    · rw [hnex hxh]
      by_cases hyh : y = h
      · obtain ⟨rfl, rfl⟩ := heqy hyh
        rcases hold with h1 | h2 | h3
        · exact Or.inl h1
        · exact Or.inr (Or.inl (hoffers _ h2))
        · exact Or.inr (hjoins _ h3)
      · rw [hney hyh]
        exact hold
  · intro x cx' b hx habs
    obtain ⟨cx, hcx, hnx, hnex, heqx⟩ := hback x cx' hx
    have hold : cx.finalHas b = false := by
      apply inv.absent x cx b hcx
      intro g d hg hgd hj
      obtain ⟨d', hd', hnd'⟩ := hfwd g d hgd
      rw [← hnd']
      apply habs g d' hg hd'
      simpa [Mesh.Joined, hnd'] using hj
    by_cases hxh : x = h
    · obtain ⟨rfl, rfl⟩ := heqx hxh
      rw [hfinal]; exact hold
    · rw [hnex hxh]; exact hold

theorem MeshInv.joined_of_inbox {room : String} {mesh : Mesh} (inv : MeshInv room mesh)
    {h : Handle} {c : Client} (hc : mesh.clients.get h = some c)
    (hne : c.inbox ≠ [] ∨ c.manager.peers ≠ []) :
    ∃ u, u ≠ "" ∧ c.manager.username = .str u ∧ c.manager.ws = some .open ∧
      mesh.Joined room h c ∧ JsMap.get (mesh.members room) (.str u) = some h ∧
      (∀ m ∈ c.outbox, OutOk u m) ∧ (∀ m ∈ c.inbox, InOk u m) := by
  obtain ⟨u, hu, hname, _, hws, hcase⟩ := inv.clientOk h c hc
  rcases hcase with ⟨_, _, _, hin, hpeers⟩ | ⟨hconn, hmem, hout, hin⟩
  · rcases hne with hne | hne
    · exact absurd hin hne
    · exact absurd hpeers hne
  · exact ⟨u, hu, hname, hws, by rw [Mesh.Joined, hname]; exact hconn, hmem, hout, hin⟩

theorem MeshInv.handle {room : String} {mesh : Mesh} (inv : MeshInv room mesh) (h : Handle)
    (transport : Transport) (hok : transport.Succeeds) :
    MeshInv room (mesh.step room (.handle h transport)) := by
  cases hc : mesh.clients.get h with
  | none => rw [Mesh.step_handle_none _ _ _ _ hc]; exact inv
  | some c =>
    cases hinbox : c.inbox with
    | nil => rw [Mesh.step_handle_nil _ _ _ _ _ hc hinbox]; exact inv
    | cons message rest =>
      rw [Mesh.step_handle _ _ _ _ _ _ _ hc hinbox]
      obtain ⟨u, hu, hname, hws, hjoined, hmem, hout, hin⟩ :=
        inv.joined_of_inbox hc (Or.inl (by rw [hinbox]; simp))
      have hspec := Client.handled_spec transport hok c message rest u hinbox hws
        (hin message (by rw [hinbox]; simp)) hout
      obtain ⟨s1, s2, s3, s4, s5, s6, s7, s8⟩ := hspec
      apply inv.update_client h c _ hc hjoined s1 s2 s3 s5
      · intro v hv
        rw [hname] at hv
        cases hv
        exact s6
      · intro v hv m hm
        rw [hname] at hv
        cases hv
        rw [s4] at hm
        exact hin m (by rw [hinbox]; exact List.mem_cons_of_mem _ hm)
      · intro a ⟨m, hm, hoffer⟩
        exact ⟨m, s7 m hm, hoffer⟩
      · intro a ⟨m, hm, hj⟩
        rw [hinbox] at hm
        rcases List.mem_cons.1 hm with heq | hmem'
        · subst heq
          exact Or.inl (s8 a hj)
        · exact Or.inr ⟨m, by rw [s4]; exact hmem', hj⟩

theorem MeshInv.candidate {room : String} {mesh : Mesh} (inv : MeshInv room mesh) (h : Handle)
    (peerId candidate : JsVal) :
    MeshInv room (mesh.step room (.candidate h peerId candidate)) := by
  cases hc : mesh.clients.get h with
  | none => simp only [Mesh.step, hc]; exact inv
  | some c =>
    by_cases hhas : JsMap.has c.manager.peers peerId = true
    · have hpeers : c.manager.peers ≠ [] := by
        intro e
        rw [e] at hhas
        simp [JsMap.has] at hhas
      obtain ⟨u, hu, hname, hws, hjoined, hmem, hout, hin⟩ :=
        inv.joined_of_inbox hc (Or.inr hpeers)
      simp only [Mesh.step, hc, hhas, if_true]
      have hframe : ∀ fields, (sendSignal { c.manager with signals := [] } fields).username =
          c.manager.username ∧
          (sendSignal { c.manager with signals := [] } fields).roomId = c.manager.roomId ∧
          (sendSignal { c.manager with signals := [] } fields).ws = c.manager.ws ∧
          (sendSignal { c.manager with signals := [] } fields).peers = c.manager.peers :=
        fun fields => sendSignal_frame _ _
      have hsig : (onicecandidate { c.manager with signals := [] } peerId candidate).signals
            = [] ∨
          (onicecandidate { c.manager with signals := [] } peerId candidate).signals =
            [signalMessage { c.manager with signals := [] } "ice-candidate" peerId "candidate"
              candidate] := by
        unfold onicecandidate
        split
        · rcases sendSignal_signals { c.manager with signals := [] }
            [("type", .str "ice-candidate"), ("to", peerId), ("candidate", candidate)]
            with h | h
          · exact Or.inl h
          · exact Or.inr h
        · exact Or.inl rfl
      have hfr : (onicecandidate { c.manager with signals := [] } peerId candidate).username =
          c.manager.username ∧
          (onicecandidate { c.manager with signals := [] } peerId candidate).roomId =
            c.manager.roomId ∧
          (onicecandidate { c.manager with signals := [] } peerId candidate).ws =
            c.manager.ws ∧
          (onicecandidate { c.manager with signals := [] } peerId candidate).peers =
            c.manager.peers := by
        unfold onicecandidate
        split
        · exact hframe _
        · exact ⟨rfl, rfl, rfl, rfl⟩
      apply inv.update_client h c _ hc hjoined hfr.1 hfr.2.1 hfr.2.2.1
      · intro b
        simp only [Client.finalHas, hfr.2.2.2]
      · intro v hv m hm
        rw [hname] at hv
        cases hv
        simp only [List.mem_append] at hm
        rcases hm with hm | hm
        · exact hout m hm
        · rcases hsig with hs | hs
          · rw [hs] at hm; cases hm
          · rw [hs, List.mem_singleton] at hm
            subst hm
            exact ⟨"ice-candidate", signalMessage_prop_type _ _ _ _ _, Or.inr (Or.inr rfl),
              fun h => absurd h (by decide)⟩
      · intro v hv m hm
        rw [hname] at hv
        cases hv
        exact hin m hm
      · intro a ⟨m, hm, hoffer⟩
        exact ⟨m, List.mem_append.2 (Or.inl hm), hoffer⟩
      · intro a hj
        exact Or.inr hj
    · simp only [Mesh.step, hc, hhas, if_false]
      exact inv

theorem messagesTo_broadcast_cases (room : Room) (isOpen : Handle → Bool) (message : JsVal)
    (x : Handle) :
    ∃ n, messagesTo ((room.filter (fun entry => isOpen entry.2)).map
        (fun entry => (entry.2, message))) x = List.replicate n message ∧
      ((∀ entry ∈ room, entry.2 ≠ x) → n = 0) ∧
      ((∃ entry ∈ room, entry.2 = x ∧ isOpen x = true) → 0 < n) := by
  refine ⟨_, messagesTo_broadcast room (fun entry => isOpen entry.2) message x, ?_, ?_⟩
  · intro hne
    rw [List.length_eq_zero, List.filter_eq_nil_iff]
    intro entry hentry
    simp [hne entry hentry]
  · rintro ⟨entry, hentry, hx, hopen⟩
    rw [List.length_pos]
    intro hnil
    rw [List.filter_eq_nil_iff] at hnil
    have := hnil entry hentry
    simp [hx, hopen] at this

theorem Client.push_replicate_finalHas (client : Client) (n : Nat) (message : JsVal)
    (b : JsVal) :
    (client.push (List.replicate n message)).finalHas b =
      if n = 0 then client.finalHas b else applyEffect b (client.finalHas b) message := by
  rw [Client.push_finalHas, finalHas_replicate]

theorem MeshInv.unjoined_not_member {room : String} {mesh : Mesh} (inv : MeshInv room mesh)
    (x : Handle) (active : Bool) (hx : mesh.relay.conns.get x = some (Closure.init, active)) :
    ∀ entry ∈ mesh.members room, entry.2 ≠ x := by
  intro entry hentry e
  obtain ⟨c, _, _, hj⟩ := inv.membersOk entry hentry
  rw [Mesh.Joined, e, hx] at hj
  simp [Closure.init] at hj

theorem MeshInv.member_of_client {room : String} {mesh : Mesh} (inv : MeshInv room mesh)
    (x : Handle) (hx : mesh.clients.get x = none) :
    ∀ entry ∈ mesh.members room, entry.2 ≠ x := by
  intro entry hentry e
  obtain ⟨c, hc, _, _⟩ := inv.membersOk entry hentry
  rw [e, hx] at hc
  cases hc

theorem singleton_get? {α : Type} (a b : α) (k : Nat) (h : [a].get? k = some b) :
    k = 0 ∧ b = a := by
  cases k with
  | zero => simp at h; exact ⟨rfl, h.symm⟩
  | succ k => simp at h

theorem finalHas_replicate_ne (b : JsVal) (has : Bool) (message : JsVal) (n : Nat)
    (p : JsVal) (v : Bool) (he : peerEffect message = some (p, v)) (hne : p ≠ b) :
    finalHas b has (List.replicate n message) = has := by
  rw [finalHas_replicate]
  split
  · rfl
  · exact applyEffect_of_ne _ _ _ _ _ he hne

theorem finalHas_replicate_eq (b : JsVal) (has : Bool) (message : JsVal) (n : Nat)
    (v : Bool) (he : peerEffect message = some (b, v)) (hn : 0 < n) :
    finalHas b has (List.replicate n message) = v := by
  rw [finalHas_replicate, if_neg (by omega)]
  exact applyEffect_of_eq _ _ _ _ he

theorem Client.finalHas_of_append (cx cx' : Client) (l : List JsVal) (b : JsVal)
    (hm : cx'.manager = cx.manager) (hi : cx'.inbox = cx.inbox ++ l) :
    cx'.finalHas b = RTCCollab.finalHas b (cx.finalHas b) l := by
  simp only [Client.finalHas, hm, hi, finalHas_append]

theorem MeshInv.of_join {room : String} {mesh mesh' : Mesh} (inv : MeshInv room mesh)
    (h : Handle) (c : Client) (u : String) (messages : Handle → List JsVal)
    (hc : mesh.clients.get h = some c)
    (hname : c.manager.username = .str u)
    (hconn : mesh.relay.conns.get h = some (Closure.init, true))
    (hnomember : JsMap.get (mesh.members room) (.str u) = none)
    (hinbox : c.inbox = []) (hpeers : c.manager.peers = [])
    (hkeys : (mesh'.clients.map Prod.fst).Nodup)
    (hG : ∀ x, mesh'.relay.conns.get x =
      if x = h then some (⟨.str u, .str room⟩, true) else mesh.relay.conns.get x)
    (hM : mesh'.members room = mesh.members room ++ [(.str u, h)])
    (hF : ∀ x, mesh'.clients.get x =
      (if x = h then some { c with outbox := [] } else mesh.clients.get x).map
        (fun cl => cl.push (messages x)))
    (hmsg : ∀ x, ∃ n, messages x = List.replicate n (userJoined (.str u) (.str room)) ∧
      ((∀ entry ∈ mesh.members room, entry.2 ≠ x) → n = 0) ∧
      ((∃ entry ∈ mesh.members room, entry.2 = x ∧ mesh.relay.isOpen x = true) → 0 < n)) :
    MeshInv room mesh' := by
  have hUJ := peerEffect_userJoined (.str u) (.str room)
  have hnoth : ∀ entry ∈ mesh.members room, entry.2 ≠ h :=
    inv.unjoined_not_member h true hconn
  have hback : ∀ x cx', mesh'.clients.get x = some cx' →
      ∃ cx n, mesh.clients.get x = some cx ∧ cx'.manager = cx.manager ∧
        cx'.inbox = cx.inbox ++ List.replicate n (userJoined (.str u) (.str room)) ∧
        (x ≠ h → cx'.outbox = cx.outbox) ∧
        (x = h → cx = c ∧ cx'.outbox = [] ∧ n = 0) ∧
        (mesh.Joined room x cx → 0 < n) ∧
        (mesh.relay.conns.get x = some (Closure.init, true) → n = 0) := by
    intro x cx' hx
    rw [hF] at hx
    obtain ⟨n, hn, hzero, hpos⟩ := hmsg x
    rw [hn] at hx
    by_cases hxh : x = h
    · simp only [hxh, if_true, Option.map_some', Option.some.injEq] at hx
      subst hx
      have hn0 : n = 0 := hzero (hxh ▸ hnoth)
      refine ⟨c, n, hxh ▸ hc, rfl, rfl, fun hne => absurd hxh hne, fun _ => ⟨rfl, rfl, hn0⟩,
        ?_, fun _ => hn0⟩
      intro hj
      rw [Mesh.Joined, hxh, hconn] at hj
      simp [Closure.init] at hj
    · simp only [hxh, if_false] at hx
      cases hcx : mesh.clients.get x with
      | none => rw [hcx] at hx; cases hx
      | some cx =>
        rw [hcx] at hx
        simp only [Option.map_some', Option.some.injEq] at hx
        subst hx
        refine ⟨cx, n, rfl, rfl, rfl, fun _ => rfl, fun e => absurd e hxh, ?_, ?_⟩
        · intro hj
          apply hpos
          obtain ⟨v, _, hv, _, _, hcase⟩ := inv.clientOk x cx hcx
          rcases hcase with ⟨hconn', _⟩ | ⟨hconn', hmem, _, _⟩
          · rw [Mesh.Joined, hconn'] at hj
            simp [Closure.init] at hj
          · exact ⟨_, JsMap.mem_of_get _ _ _ hmem, rfl, isOpen_of_conn _ _ _ hconn'⟩
        · intro hinit
          exact hzero (inv.unjoined_not_member x true hinit)
  have hfwd : ∀ x cx, mesh.clients.get x = some cx →
      ∃ cx', mesh'.clients.get x = some cx' ∧ cx'.manager = cx.manager := by
    intro x cx hx
    rw [hF]
    by_cases hxh : x = h
    · subst hxh
      rw [hc] at hx
      cases hx
      simp only [if_true, Option.map_some']
      exact ⟨_, rfl, rfl⟩
    · simp only [hxh, if_false, hx, Option.map_some']
      exact ⟨_, rfl, rfl⟩
  refine ⟨hkeys, ?_, ?_, ?_, ?_, ?_, ?_⟩
  · intro x hx
    have hxh : x ≠ h := by
      intro e
      rw [hF, e] at hx
      simp at hx
    have hxn : mesh.clients.get x = none := by
      rw [hF, if_neg hxh] at hx
      simpa using hx
    have := inv.closed x hxn
    simpa [Relay.isOpen, hG, hxh] using this
  · intro x y cx' cy' hx hy hn
    obtain ⟨cx, _, hcx, hmx, _⟩ := hback x cx' hx
    obtain ⟨cy, _, hcy, hmy, _⟩ := hback y cy' hy
    exact inv.names x y cx cy hcx hcy (by rw [← hmx, ← hmy, hn])
  · intro x cx' hx
    obtain ⟨cx, n, hcx, hmx, hix, hox, hxh', hpos, hzero⟩ := hback x cx' hx
    by_cases hxh : x = h
    · obtain ⟨hcxc, houtbox, hn0⟩ := hxh' hxh
      obtain ⟨v, hv, hcname, hcroom, hcws, _⟩ := inv.clientOk x cx hcx
      have hvu : v = u := by
        rw [hcxc, hname] at hcname
        cases hcname
        rfl
      subst hvu
      refine ⟨v, hv, hmx ▸ hcname, hmx ▸ hcroom, hmx ▸ hcws, Or.inr ⟨?_, ?_, ?_, ?_⟩⟩
      · rw [hG, hxh, if_pos rfl]
      · rw [hM, JsMap.get_append, hnomember, hxh]
        simp [JsMap.get_cons]
      · rw [houtbox]; simp
      · rw [hix, hn0, hcxc, hinbox]
        intro m hm
        simp at hm
    · obtain ⟨v, hv, hcname, hcroom, hcws, hcase⟩ := inv.clientOk x cx hcx
      have hvu : JsVal.str v ≠ .str u := by
        intro e
        exact hxh (inv.names x h cx c hcx hc (by rw [hcname, hname, e]))
      refine ⟨v, hv, hmx ▸ hcname, hmx ▸ hcroom, hmx ▸ hcws, ?_⟩
      rcases hcase with ⟨hconn', hmem, hout, hin, hp⟩ | ⟨hconn', hmem, hout, hin⟩
      · refine Or.inl ⟨by simp only [hG, hxh, if_false]; exact hconn', ?_, ?_, ?_, hmx ▸ hp⟩
        · rw [hM, JsMap.get_append, hmem]
          simp [JsMap.get_cons, JsMap.get_nil, Ne.symm hvu]
        · rw [hox hxh]; exact hout
        · rw [hix, hin, hzero hconn']; rfl
      · refine Or.inr ⟨by simp only [hG, hxh, if_false]; exact hconn', ?_, ?_, ?_⟩
        · rw [hM, JsMap.get_append, hmem]; rfl
        · rw [hox hxh]; exact hout
        · intro m hm
          rw [hix, List.mem_append] at hm
          rcases hm with hm | hm
          · exact hin m hm
          · rw [List.eq_of_mem_replicate hm, InOk, hUJ]
            intro e
            simp only [Option.some.injEq, Prod.mk.injEq, and_true] at e
            exact hvu e.symm
  · intro entry hentry
    rw [hM, List.mem_append] at hentry
    rcases hentry with hentry | hentry
    · obtain ⟨cx, hcx, hn, hj⟩ := inv.membersOk entry hentry
      obtain ⟨cx', hcx', hm⟩ := hfwd _ _ hcx
      have hne := hnoth entry hentry
      refine ⟨cx', hcx', by rw [hm]; exact hn, ?_⟩
      simp only [Mesh.Joined, hG, hne, if_false, hm]
      exact hj
    · rw [List.mem_singleton] at hentry
      subst hentry
      obtain ⟨cx', hcx', hm⟩ := hfwd _ _ hc
      refine ⟨cx', hcx', by rw [hm]; exact hname, ?_⟩
      simp only [Mesh.Joined, hG, if_true, hm, hname]
  · intro x y cx' cy' hxy hx hy hjx hjy
    obtain ⟨cx, nx, hcx, hmx, hix, hox, hxh', hposx, _⟩ := hback x cx' hx
    obtain ⟨cy, ny, hcy, hmy, hiy, hoy, hyh', hposy, _⟩ := hback y cy' hy
    simp only [Mesh.Joined, hG] at hjx hjy
    by_cases hxh : x = h
    · have hyh : y ≠ h := fun e => hxy (hxh.trans e.symm)
      simp only [hyh, if_false] at hjy
      have hny := hposy (by rw [Mesh.Joined, ← hmy]; exact hjy)
      right; right
      refine ⟨userJoined (.str u) (.str room), ?_, userJoined_prop_type _ _, ?_⟩
      · rw [hiy]
        exact List.mem_append.2 (Or.inr (List.mem_replicate.2 ⟨by omega, rfl⟩))
      · rw [userJoined_from, hmx, (hxh' hxh).1, hname]
    · simp only [hxh, if_false] at hjx
      have hjx0 : mesh.Joined room x cx := by rw [Mesh.Joined, ← hmx]; exact hjx
      by_cases hyh : y = h
      · left
        have hyname : cy'.manager.username = .str u := by
          rw [hmy, (hyh' hyh).1, hname]
        rw [hyname, Client.finalHas_of_append cx cx' _ _ hmx hix]
        exact finalHas_replicate_eq _ _ _ _ _ hUJ (hposx hjx0)
      · simp only [hyh, if_false] at hjy
        have hjy0 : mesh.Joined room y cy := by rw [Mesh.Joined, ← hmy]; exact hjy
        have hyu : cy.manager.username ≠ .str u := by
          intro e
          exact hyh (inv.names y h cy c hcy hc (by rw [e, hname]))
        rcases inv.expect x y cx cy hxy hcx hcy hjx0 hjy0 with h1 | ⟨m, hm, ho⟩ | ⟨m, hm, hj⟩
        · left
          rw [hmy, Client.finalHas_of_append cx cx' _ _ hmx hix, h1]
          exact finalHas_replicate_ne _ _ _ _ _ _ hUJ (Ne.symm hyu)
        · right; left
          exact ⟨m, by rw [hoy hyh]; exact hm, by rw [hmx]; exact ho⟩
        · right; right
          exact ⟨m, by rw [hiy]; exact List.mem_append.2 (Or.inl hm), by rw [hmx]; exact hj⟩
  · intro x cx' b hx habs
    obtain ⟨cx, n, hcx, hmx, hix, hox, hxh', hpos, _⟩ := hback x cx' hx
    by_cases hxh : x = h
    · obtain ⟨hcxc, _, hn0⟩ := hxh' hxh
      rw [Client.finalHas_of_append cx cx' _ _ hmx hix, hn0, hcxc]
      simp [Client.finalHas, hinbox, hpeers, finalHas, JsMap.has]
    · obtain ⟨ch', hch', hmh⟩ := hfwd h c hc
      have hub : JsVal.str u ≠ b := by
        have := habs h ch' (Ne.symm hxh) hch' (by
          simp only [Mesh.Joined, hG, if_true, hmh, hname])
        rw [hmh, hname] at this
        exact this
      have hold : cx.finalHas b = false := by
        apply inv.absent x cx b hcx
        intro g d hg hgd hj
        obtain ⟨d', hd', hmd⟩ := hfwd g d hgd
        have hgh : g ≠ h := by
          intro e
          rw [Mesh.Joined, e, hconn] at hj
          simp [Closure.init] at hj
        rw [← hmd]
        apply habs g d' hg hd'
        simp only [Mesh.Joined, hG, hgh, if_false, hmd]
        exact hj
      rw [Client.finalHas_of_append cx cx' _ _ hmx hix, hold]
      exact finalHas_replicate_ne _ _ _ _ _ _ hUJ hub

theorem mem_eraseIdx_or {α : Type} (l : List α) (k : Nat) (a : α) (h : a ∈ l) :
    l.get? k = some a ∨ a ∈ l.eraseIdx k := by
  induction l generalizing k with
  | nil => cases h
  | cons b l ih =>
    cases k with
    | zero =>
      rcases List.mem_cons.1 h with e | hm
      · left; simp [e]
      · right; simpa using hm
    | succ k =>
      rcases List.mem_cons.1 h with e | hm
      · right; simp [e]
      · rcases ih k hm with h1 | h2
        · left; simpa using h1
        · right; simp [h2]

theorem mem_of_mem_eraseIdx' {α : Type} (l : List α) (k : Nat) (a : α)
    (h : a ∈ l.eraseIdx k) : a ∈ l :=
  (List.eraseIdx_sublist l k).subset h

theorem peerEffect_forwarded (vars : Closure) (message : JsVal) (t : String)
    (hp : message.prop "type" = .ok (.str t))
    (ht : t = "offer" ∨ t = "answer" ∨ t = "ice-candidate") :
    peerEffect (forwarded vars message) =
      if t = "offer" then some (vars.userId, true) else none := by
  rw [peerEffect_of_type _ t (forwarded_prop_type _ _ _ hp), forwarded_from]
  rcases ht with h | h | h <;> subst h <;> simp

theorem MeshInv.of_forward {room : String} {mesh mesh' : Mesh} (inv : MeshInv room mesh)
    (h : Handle) (c : Client) (u : String) (message : JsVal) (k : Nat)
    (messages : Handle → List JsVal)
    (hc : mesh.clients.get h = some c)
    (hname : c.manager.username = .str u)
    (hconn : mesh.relay.conns.get h = some (⟨.str u, .str room⟩, true))
    (hk : c.outbox.get? k = some message)
    (hout : OutOk u message)
    (hkeys : (mesh'.clients.map Prod.fst).Nodup)
    (hG : ∀ x, mesh'.relay.conns.get x = mesh.relay.conns.get x)
    (hM : mesh'.members room = mesh.members room)
    (hF : ∀ x, mesh'.clients.get x =
      (if x = h then some { c with outbox := c.outbox.eraseIdx k }
        else mesh.clients.get x).map (fun cl => cl.push (messages x)))
    (hmsg : ∀ x, messages x =
      if JsMap.get (mesh.members room) (message.field "to") = some x then
        [forwarded ⟨.str u, .str room⟩ message] else []) :
    MeshInv room mesh' := by
  obtain ⟨t, hp, ht, hoffer⟩ := hout
  have heff := peerEffect_forwarded ⟨.str u, .str room⟩ message t hp ht
  simp only at heff
  have hjoined : mesh.Joined room h c := by rw [Mesh.Joined, hname]; exact hconn
  -- the target of the message is a participant that has joined, under the name `to`
  have htarget : ∀ x, JsMap.get (mesh.members room) (message.field "to") = some x →
      ∃ cx, mesh.clients.get x = some cx ∧ cx.manager.username = message.field "to" ∧
        mesh.Joined room x cx := fun x hx => inv.membersOk _ (JsMap.mem_of_get _ _ _ hx)
  have hself : JsMap.get (mesh.members room) (message.field "to") = some h →
      peerEffect (forwarded ⟨.str u, .str room⟩ message) = none := by
    intro hto
    obtain ⟨cx, hcx, hcname, _⟩ := htarget h hto
    rw [hc] at hcx
    cases hcx
    rw [heff, if_neg]
    intro e
    exact hoffer e (by rw [← hcname, hname])
  have hback : ∀ x cx', mesh'.clients.get x = some cx' →
      ∃ cx l, mesh.clients.get x = some cx ∧ cx'.manager = cx.manager ∧
        cx'.inbox = cx.inbox ++ l ∧
        (l = [] ∨ (l = [forwarded ⟨.str u, .str room⟩ message] ∧
          JsMap.get (mesh.members room) (message.field "to") = some x)) ∧
        (JsMap.get (mesh.members room) (message.field "to") = some x →
          l = [forwarded ⟨.str u, .str room⟩ message]) ∧
        (x ≠ h → cx'.outbox = cx.outbox) ∧
        (x = h → cx = c ∧ cx'.outbox = c.outbox.eraseIdx k) := by
    intro x cx' hx
    rw [hF, hmsg] at hx
    have hl : ∀ l, l = (if JsMap.get (mesh.members room) (message.field "to") = some x then
        [forwarded ⟨.str u, .str room⟩ message] else []) →
        (l = [] ∨ (l = [forwarded ⟨.str u, .str room⟩ message] ∧
          JsMap.get (mesh.members room) (message.field "to") = some x)) ∧
        (JsMap.get (mesh.members room) (message.field "to") = some x →
          l = [forwarded ⟨.str u, .str room⟩ message]) := by
      intro l hl
      by_cases hto : JsMap.get (mesh.members room) (message.field "to") = some x
      · rw [if_pos hto] at hl
        exact ⟨Or.inr ⟨hl, hto⟩, fun _ => hl⟩
      · rw [if_neg hto] at hl
        exact ⟨Or.inl hl, fun e => absurd e hto⟩
    by_cases hxh : x = h
    · simp only [hxh, if_true, Option.map_some', Option.some.injEq] at hx
      subst hx
      exact ⟨c, _, hxh ▸ hc, rfl, rfl, (hl _ (by rw [hxh])).1, (hl _ (by rw [hxh])).2,
        fun hne => absurd hxh hne, fun _ => ⟨rfl, rfl⟩⟩
    · rw [if_neg hxh] at hx
      cases hcx : mesh.clients.get x with
      | none => rw [hcx] at hx; cases hx
      | some cx =>
        rw [hcx] at hx
        simp only [Option.map_some', Option.some.injEq] at hx
        subst hx
        exact ⟨cx, _, rfl, rfl, rfl, (hl _ rfl).1, (hl _ rfl).2, fun _ => rfl,
          fun e => absurd e hxh⟩
  have hfwd : ∀ x cx, mesh.clients.get x = some cx →
      ∃ cx', mesh'.clients.get x = some cx' ∧ cx'.manager = cx.manager := by
    intro x cx hx
    rw [hF]
    by_cases hxh : x = h
    · subst hxh
      rw [hc] at hx
      cases hx
      simp only [if_true, Option.map_some']
      exact ⟨_, rfl, rfl⟩
    · simp only [hxh, if_false, hx, Option.map_some']
      exact ⟨_, rfl, rfl⟩
  -- the forwarded message never removes a peer
  have hkeep : ∀ b, applyEffect b true (forwarded ⟨.str u, .str room⟩ message) = true := by
    intro b
    unfold applyEffect
    rw [heff]
    split_ifs <;> simp
  refine ⟨hkeys, ?_, ?_, ?_, ?_, ?_, ?_⟩
  · intro x hx
    have hxh : x ≠ h := by
      intro e
      rw [hF, e] at hx
      simp at hx
    have hxn : mesh.clients.get x = none := by
      rw [hF, if_neg hxh] at hx
      simpa using hx
    have := inv.closed x hxn
    simpa [Relay.isOpen, hG] using this
  · intro x y cx' cy' hx hy hn
    obtain ⟨cx, _, hcx, hmx, _⟩ := hback x cx' hx
    obtain ⟨cy, _, hcy, hmy, _⟩ := hback y cy' hy
    exact inv.names x y cx cy hcx hcy (by rw [← hmx, ← hmy, hn])
  · intro x cx' hx
    obtain ⟨cx, l, hcx, hmx, hix, hl, _, hox, hxh'⟩ := hback x cx' hx
    obtain ⟨v, hv, hcname, hcroom, hcws, hcase⟩ := inv.clientOk x cx hcx
    refine ⟨v, hv, hmx ▸ hcname, hmx ▸ hcroom, hmx ▸ hcws, ?_⟩
    rcases hcase with ⟨hconn', hmem, hout', hin, hp'⟩ | ⟨hconn', hmem, hout', hin⟩
    · have hxh : x ≠ h := by
        intro e
        rw [e, hconn] at hconn'
        simp [Closure.init] at hconn'
      have hl0 : l = [] := by
        rcases hl with hl | ⟨_, hto⟩
        · exact hl
        · exact absurd rfl (inv.unjoined_not_member x true hconn' _
            (JsMap.mem_of_get _ _ _ hto))
      refine Or.inl ⟨by rw [hG]; exact hconn', by rw [hM]; exact hmem, ?_, ?_, hmx ▸ hp'⟩
      · rw [hox hxh]; exact hout'
      · rw [hix, hin, hl0]; rfl
    · refine Or.inr ⟨by rw [hG]; exact hconn', by rw [hM]; exact hmem, ?_, ?_⟩
      · by_cases hxh : x = h
        · rw [(hxh' hxh).2]
          intro m hm
          apply hout' m
          rw [(hxh' hxh).1]
          exact mem_of_mem_eraseIdx' _ _ _ hm
        · rw [hox hxh]; exact hout'
      · intro m hm
        rw [hix, List.mem_append] at hm
        rcases hm with hm | hm
        · exact hin m hm
        · rcases hl with hl | ⟨hl, hto⟩
          · rw [hl] at hm; cases hm
          · rw [hl, List.mem_singleton] at hm
            subst hm
            rw [InOk]
            by_cases hxh : x = h
            · rw [hself (hxh ▸ hto)]
              simp
            · rw [heff]
              split_ifs
              · intro e
                simp only [Option.some.injEq, Prod.mk.injEq, and_true] at e
                exact hxh (inv.names x h cx c hcx hc (by rw [hcname, hname, e]))
              · simp
  · intro entry hentry
    rw [hM] at hentry
    obtain ⟨cx, hcx, hn, hj⟩ := inv.membersOk entry hentry
    obtain ⟨cx', hcx', hm⟩ := hfwd _ _ hcx
    refine ⟨cx', hcx', by rw [hm]; exact hn, ?_⟩
    rw [Mesh.Joined, hG, hm]
    exact hj
  · intro x y cx' cy' hxy hx hy hjx hjy
    obtain ⟨cx, lx, hcx, hmx, hix, hlx, htx, hox, hxh'⟩ := hback x cx' hx
    obtain ⟨cy, ly, hcy, hmy, hiy, hly, _, hoy, hyh'⟩ := hback y cy' hy
    rw [Mesh.Joined, hG, hmx] at hjx
    rw [Mesh.Joined, hG, hmy] at hjy
    have hfinal : cx.finalHas cy.manager.username = true →
        cx'.finalHas cy'.manager.username = true := by
      intro h1
      rw [hmy, Client.finalHas_of_append cx cx' _ _ hmx hix, h1]
      rcases hlx with hl | ⟨hl, _⟩
      · rw [hl]; rfl
      · rw [hl, finalHas_cons]
        exact hkeep _
    rcases inv.expect x y cx cy hxy hcx hcy hjx hjy with h1 | ⟨m, hm, ho⟩ | ⟨m, hm, hj⟩
    · exact Or.inl (hfinal h1)
    · by_cases hyh : y = h
      · obtain ⟨hcyc, houtbox⟩ := hyh' hyh
        rw [hcyc] at hm
        rcases mem_eraseIdx_or _ k _ hm with hget | hmem
        · -- the offer is the message that the relay has just forwarded
          rw [hk] at hget
          cases hget
          left
          have ht' : t = "offer" := by
            have := ho.1
            rw [hp] at this
            cases this
            rfl
          obtain ⟨v, _, hcname, _, _, hcase⟩ := inv.clientOk x cx hcx
          have hto : JsMap.get (mesh.members room) (message.field "to") = some x := by
            rcases hcase with ⟨hconn', _⟩ | ⟨_, hmem', _, _⟩
            · rw [hconn'] at hjx
              simp [Closure.init] at hjx
            · rw [ho.2, hcname]; exact hmem'
          rw [hmy, hcyc, hname, Client.finalHas_of_append cx cx' _ _ hmx hix, htx hto,
            finalHas_cons]
          apply applyEffect_of_eq
          rw [heff, if_pos ht']
        · right; left
          exact ⟨m, by rw [houtbox]; exact hmem, by rw [hmx]; exact ho⟩
      · right; left
        exact ⟨m, by rw [hoy hyh]; exact hm, by rw [hmx]; exact ho⟩
    · right; right
      exact ⟨m, by rw [hiy]; exact List.mem_append.2 (Or.inl hm), by rw [hmx]; exact hj⟩
  · intro x cx' b hx habs
    obtain ⟨cx, l, hcx, hmx, hix, hl, _, hox, hxh'⟩ := hback x cx' hx
    have hold : cx.finalHas b = false := by
      apply inv.absent x cx b hcx
      intro g d hg hgd hj
      obtain ⟨d', hd', hmd⟩ := hfwd g d hgd
      rw [← hmd]
      apply habs g d' hg hd'
      rw [Mesh.Joined, hG, hmd]
      exact hj
    rw [Client.finalHas_of_append cx cx' _ _ hmx hix, hold]
    rcases hl with hl | ⟨hl, hto⟩
    · rw [hl]; rfl
    · rw [hl, finalHas_cons]
      by_cases hxh : x = h
      · rw [applyEffect_of_none _ _ _ (hself (hxh ▸ hto))]
        rfl
      · obtain ⟨ch', hch', hmh⟩ := hfwd h c hc
        have hub : JsVal.str u ≠ b := by
          have := habs h ch' (Ne.symm hxh) hch' (by
            rw [Mesh.Joined, hG, hmh, hname]; exact hconn)
          rw [hmh, hname] at this
          exact this
        by_cases hto' : t = "offer"
        · rw [applyEffect_of_ne _ _ _ _ _ (by rw [heff, if_pos hto']) hub]
          rfl
        · rw [applyEffect_of_none _ _ _ (by rw [heff, if_neg hto'])]
          rfl

theorem JsMap.mem_delete {κ ν : Type} [DecidableEq κ] (m : JsMap κ ν) (key : κ)
    (entry : κ × ν) : entry ∈ JsMap.delete m key ↔ entry ∈ m ∧ entry.1 ≠ key := by
  simp [JsMap.delete, List.mem_filter]

theorem MeshInv.of_close {room : String} {mesh mesh' : Mesh} (inv : MeshInv room mesh)
    (h : Handle) (c : Client) (u : String) (vars : Closure)
    (messages : Handle → List JsVal)
    (hc : mesh.clients.get h = some c)
    (hname : c.manager.username = .str u)
    (hkeys : (mesh'.clients.map Prod.fst).Nodup)
    (hG : ∀ x, mesh'.relay.conns.get x =
      if x = h then some (vars, false) else mesh.relay.conns.get x)
    (hM : mesh'.members room = JsMap.delete (mesh.members room) (.str u))
    (hF : ∀ x, mesh'.clients.get x =
      if x = h then none else (mesh.clients.get x).map (fun cl => cl.push (messages x)))
    (hmsg : ∀ x, ∃ n, messages x = List.replicate n (userLeft (.str u) (.str room)) ∧
      ((∀ entry ∈ mesh.members room, entry.2 ≠ x) → n = 0) ∧
      (mesh.Joined room h c →
        (∃ entry ∈ mesh.members room, entry.1 ≠ .str u ∧ entry.2 = x ∧ x ≠ h ∧
          mesh.relay.isOpen x = true) → 0 < n) ∧
      (¬ mesh.Joined room h c → n = 0)) :
    MeshInv room mesh' := by
  have hUL := peerEffect_userLeft (.str u) (.str room)
  have hback : ∀ x cx', mesh'.clients.get x = some cx' →
      ∃ cx n, x ≠ h ∧ mesh.clients.get x = some cx ∧ cx' = cx.push
          (List.replicate n (userLeft (.str u) (.str room))) ∧
        cx'.manager = cx.manager ∧ cx'.outbox = cx.outbox ∧
        cx'.inbox = cx.inbox ++ List.replicate n (userLeft (.str u) (.str room)) ∧
        (mesh.Joined room h c → mesh.Joined room x cx → 0 < n) ∧
        (¬ mesh.Joined room h c → n = 0) ∧
        (mesh.relay.conns.get x = some (Closure.init, true) → n = 0) := by
    intro x cx' hx
    rw [hF] at hx
    by_cases hxh : x = h
    · simp [hxh] at hx
    · rw [if_neg hxh] at hx
      obtain ⟨n, hn, hzero, hpos, hun⟩ := hmsg x
      rw [hn] at hx
      cases hcx : mesh.clients.get x with
      | none => rw [hcx] at hx; cases hx
      | some cx =>
        rw [hcx] at hx
        simp only [Option.map_some', Option.some.injEq] at hx
        subst hx
        refine ⟨cx, n, hxh, rfl, rfl, rfl, rfl, rfl, ?_, hun, ?_⟩
        · intro hjh hjx
          apply hpos hjh
          obtain ⟨v, _, hv, _, _, hcase⟩ := inv.clientOk x cx hcx
          rcases hcase with ⟨hconn', _⟩ | ⟨hconn', hmem, _, _⟩
          · rw [Mesh.Joined, hconn'] at hjx
            simp [Closure.init] at hjx
          · refine ⟨_, JsMap.mem_of_get _ _ _ hmem, ?_, rfl, hxh, isOpen_of_conn _ _ _ hconn'⟩
            intro e
            exact hxh (inv.names x h cx c hcx hc (by rw [hv, hname]; exact e))
        · intro hinit
          exact hzero (inv.unjoined_not_member x true hinit)
  have hfwd : ∀ x cx, x ≠ h → mesh.clients.get x = some cx →
      ∃ cx', mesh'.clients.get x = some cx' ∧ cx'.manager = cx.manager := by
    intro x cx hxh hx
    rw [hF, if_neg hxh, hx]
    exact ⟨_, rfl, rfl⟩
  have hjoin : ∀ x, x ≠ h → mesh'.relay.conns.get x = mesh.relay.conns.get x := by
    intro x hxh
    rw [hG, if_neg hxh]
  refine ⟨hkeys, ?_, ?_, ?_, ?_, ?_, ?_⟩
  · intro x hx
    by_cases hxh : x = h
    · simp [Relay.isOpen, hG, hxh]
    · have hxn : mesh.clients.get x = none := by
        rw [hF, if_neg hxh] at hx
        simpa using hx
      have := inv.closed x hxn
      simpa [Relay.isOpen, hG, hxh] using this
  · intro x y cx' cy' hx hy hn
    obtain ⟨cx, _, _, hcx, _, hmx, _⟩ := hback x cx' hx
    obtain ⟨cy, _, _, hcy, _, hmy, _⟩ := hback y cy' hy
    exact inv.names x y cx cy hcx hcy (by rw [← hmx, ← hmy, hn])
  · intro x cx' hx
    obtain ⟨cx, n, hxh, hcx, _, hmx, hox, hix, hpos, hun, hzero⟩ := hback x cx' hx
    obtain ⟨v, hv, hcname, hcroom, hcws, hcase⟩ := inv.clientOk x cx hcx
    have hvu : JsVal.str v ≠ .str u := by
      intro e
      exact hxh (inv.names x h cx c hcx hc (by rw [hcname, hname, e]))
    refine ⟨v, hv, hmx ▸ hcname, hmx ▸ hcroom, hmx ▸ hcws, ?_⟩
    rcases hcase with ⟨hconn', hmem, hout', hin, hp'⟩ | ⟨hconn', hmem, hout', hin⟩
    · refine Or.inl ⟨by rw [hjoin x hxh]; exact hconn', ?_, by rw [hox]; exact hout', ?_,
        hmx ▸ hp'⟩
      · rw [hM, JsMap.get_delete, if_neg hvu]; exact hmem
      · rw [hix, hin, hzero hconn']; rfl
    · refine Or.inr ⟨by rw [hjoin x hxh]; exact hconn', ?_, by rw [hox]; exact hout', ?_⟩
      · rw [hM, JsMap.get_delete, if_neg hvu]; exact hmem
      · intro m hm
        rw [hix, List.mem_append] at hm
        rcases hm with hm | hm
        · exact hin m hm
        · rw [List.eq_of_mem_replicate hm, InOk, hUL]
          simp
  · intro entry hentry
    rw [hM, JsMap.mem_delete] at hentry
    obtain ⟨hmem, hne⟩ := hentry
    obtain ⟨cx, hcx, hn, hj⟩ := inv.membersOk entry hmem
    have hxh : entry.2 ≠ h := by
      intro e
      rw [e, hc] at hcx
      cases hcx
      exact hne (by rw [← hn, hname])
    obtain ⟨cx', hcx', hm⟩ := hfwd _ _ hxh hcx
    refine ⟨cx', hcx', by rw [hm]; exact hn, ?_⟩
    rw [Mesh.Joined, hjoin _ hxh, hm]
    exact hj
  · intro x y cx' cy' hxy hx hy hjx hjy
    obtain ⟨cx, nx, hxh, hcx, _, hmx, hox, hix, _⟩ := hback x cx' hx
    obtain ⟨cy, ny, hyh, hcy, _, hmy, hoy, hiy, _⟩ := hback y cy' hy
    rw [Mesh.Joined, hjoin x hxh, hmx] at hjx
    rw [Mesh.Joined, hjoin y hyh, hmy] at hjy
    have hyu : cy.manager.username ≠ .str u := by
      intro e
      exact hyh (inv.names y h cy c hcy hc (by rw [e, hname]))
    rcases inv.expect x y cx cy hxy hcx hcy hjx hjy with h1 | ⟨m, hm, ho⟩ | ⟨m, hm, hj⟩
    · left
      rw [hmy, Client.finalHas_of_append cx cx' _ _ hmx hix, h1]
      exact finalHas_replicate_ne _ _ _ _ _ _ hUL (Ne.symm hyu)
    · right; left
      exact ⟨m, by rw [hoy]; exact hm, by rw [hmx]; exact ho⟩
    · right; right
      exact ⟨m, by rw [hiy]; exact List.mem_append.2 (Or.inl hm), by rw [hmx]; exact hj⟩
  · intro x cx' b hx habs
    obtain ⟨cx, n, hxh, hcx, _, hmx, hox, hix, hpos, hun, hzero⟩ := hback x cx' hx
    rw [Client.finalHas_of_append cx cx' _ _ hmx hix]
    -- what the old state says when the peer that leaves is not `b`, or has not joined
    have hold : (mesh.Joined room h c → JsVal.str u ≠ b) → cx.finalHas b = false := by
      intro hcond
      apply inv.absent x cx b hcx
      intro g d hg hgd hj
      by_cases hgh : g = h
      · rw [hgh, hc] at hgd
        cases hgd
        rw [hname]
        exact hcond (hgh ▸ hj)
      · obtain ⟨d', hd', hmd⟩ := hfwd g d hgh hgd
        rw [← hmd]
        apply habs g d' hg hd'
        rw [Mesh.Joined, hjoin g hgh, hmd]
        exact hj
    by_cases hjh : mesh.Joined room h c
    · by_cases hub : JsVal.str u = b
      · subst hub
        obtain ⟨v, _, hcname, _, _, hcase⟩ := inv.clientOk x cx hcx
        rcases hcase with ⟨hconn', _, _, hin, hp'⟩ | ⟨hconn', _, _, _⟩
        · rw [hzero hconn']
          simp [Client.finalHas, hin, hp', finalHas, JsMap.has]
        · exact finalHas_replicate_eq _ _ _ _ _ hUL
            (hpos hjh (by rw [Mesh.Joined, hcname]; exact hconn'))
      · rw [hold (fun _ => hub)]
        exact finalHas_replicate_ne _ _ _ _ _ _ hUL hub
    · rw [hold (fun hj => absurd hj hjh), hun hjh]
      rfl

theorem JsMap.get_set_same {κ ν : Type} [DecidableEq κ] (m : JsMap κ ν) (key : κ) (value : ν)
    (h : JsMap.get m key = some value) (k : κ) :
    JsMap.get (JsMap.set m key value) k = JsMap.get m k := by
  rw [JsMap.get_set]
  by_cases hk : k = key
  · rw [if_pos hk, hk, h]
  · rw [if_neg hk]

theorem JsMap.delete_of_get_none {κ ν : Type} [DecidableEq κ] (m : JsMap κ ν) (key : κ)
    (h : JsMap.get m key = none) : JsMap.delete m key = m := by
  have hn : JsMap.has m key = false := (JsMap.has_false_iff _ _).2 h
  simp only [JsMap.has, List.any_eq_false, decide_eq_true_eq] at hn
  unfold JsMap.delete
  rw [List.filter_eq_self]
  intro entry hentry
  simpa using hn entry hentry

theorem mem_of_get? {α : Type} (l : List α) (k : Nat) (a : α) (h : l.get? k = some a) :
    a ∈ l := by
  rw [List.get?_eq_some] at h
  obtain ⟨hk, rfl⟩ := h
  exact List.get_mem l k hk

theorem MeshInv.receive {room : String} (hroom : room ≠ "") {mesh : Mesh}
    (inv : MeshInv room mesh) (h : Handle) (k : Nat) :
    MeshInv room (mesh.step room (.receive h k)) := by
  cases hc : mesh.clients.get h with
  | none => simp only [Mesh.step, hc]; exact inv
  | some c =>
    cases hk : c.outbox.get? k with
    | none => simp only [Mesh.step, hc, hk]; exact inv
    | some message =>
      simp only [Mesh.step, hc, hk]
      obtain ⟨u, hu, hname, _, _, hcase⟩ := inv.clientOk h c hc
      rcases hcase with ⟨hconn, hnomember, hout, hin, hpeers⟩ | ⟨hconn, hmem, hout, hin⟩
      · rw [hout] at hk
        obtain ⟨hk0, hmsg0⟩ := singleton_get? _ _ _ hk
        subst hk0 hmsg0
        rw [atRelay_message (⟨mesh.relay, mesh.clients.set h
          { c with outbox := c.outbox.eraseIdx 0 }⟩ : Mesh) h Closure.init _ hconn]
        obtain ⟨hvars, hmembers, hsent⟩ := onmessage_join mesh.relay.isOpen mesh.relay.rooms h
          Closure.init (.str room) (.str u) hnomember
        refine inv.of_join h c u (fun x => messagesTo (onmessage mesh.relay.isOpen
          mesh.relay.rooms h Closure.init (some (joinMessage (.str room) (.str u)))).sent x)
          hc hname hconn hnomember hin hpeers ?_ ?_ hmembers ?_ ?_
        · simp only [deliver_keys]
          exact JsMap.nodup_set _ _ _ inv.nodup
        · intro x
          simp only [hvars]
          exact JsMap.get_set _ _ _ _
        · intro x
          simp only [deliver_get', JsMap.get_set, hout, List.eraseIdx_cons_zero]
        · intro x
          simp only [hsent]
          exact messagesTo_broadcast_cases _ _ _ x
      · have hmemout := mem_of_get? _ _ _ hk
        have hOut := hout message hmemout
        obtain ⟨t, hp, ht, hoffer⟩ := hOut
        rw [atRelay_message (⟨mesh.relay, mesh.clients.set h
          { c with outbox := c.outbox.eraseIdx k }⟩ : Mesh) h _ _ hconn]
        have hfw := onmessage_forward mesh.relay.isOpen mesh.relay.rooms h
          ⟨.str u, .str room⟩ message t ht hp (JsVal.truthy_str room hroom)
        refine inv.of_forward h c u message k (fun x => messagesTo (onmessage
          mesh.relay.isOpen mesh.relay.rooms h ⟨.str u, .str room⟩ (some message)).sent x)
          hc hname hconn hk ⟨t, hp, ht, hoffer⟩ ?_ ?_ ?_ ?_ ?_
        · simp only [deliver_keys]
          exact JsMap.nodup_set _ _ _ inv.nodup
        · intro x
          simp only [hfw]
          exact JsMap.get_set_same _ _ _ hconn x
        · simp only [Mesh.members, hfw]
        · intro x
          simp only [deliver_get', JsMap.get_set]
        · intro x
          simp only [hfw]
          cases hto : JsMap.get (mesh.members room) (message.field "to") with
          | none =>
            have : JsMap.get ((JsMap.get mesh.relay.rooms (JsVal.str room)).getD [])
                (message.field "to") = none := hto
            simp [this, messagesTo]
          | some g =>
            have hto' : JsMap.get ((JsMap.get mesh.relay.rooms (JsVal.str room)).getD [])
                (message.field "to") = some g := hto
            obtain ⟨cg, _, _, hj⟩ := inv.membersOk _ (JsMap.mem_of_get _ _ _ hto)
            have hopen : mesh.relay.isOpen g = true := isOpen_of_conn _ _ _ hj
            by_cases hgx : g = x
            · subst hgx
              simp [hto', hopen, messagesTo]
            · simp [hto', hopen, messagesTo, hgx]

theorem MeshInv.disconnect {room : String} (hroom : room ≠ "") {mesh : Mesh}
    (inv : MeshInv room mesh) (h : Handle) :
    MeshInv room (mesh.step room (.disconnect h)) := by
  cases hc : mesh.clients.get h with
  | none => simp only [Mesh.step, hc]; exact inv
  | some c =>
    simp only [Mesh.step, hc]
    obtain ⟨u, hu, hname, _, _, hcase⟩ := inv.clientOk h c hc
    have hFd : ∀ (sent : List (Handle × JsVal)) (x : Handle),
        JsMap.get (Mesh.deliver (mesh.clients.delete h) sent) x =
          if x = h then none
          else (mesh.clients.get x).map (fun cl => cl.push (messagesTo sent x)) := by
      intro sent x
      rw [deliver_get', JsMap.get_delete]
      by_cases hxh : x = h <;> simp [hxh]
    have hkeys : ∀ (sent : List (Handle × JsVal)),
        ((Mesh.deliver (mesh.clients.delete h) sent).map Prod.fst).Nodup := by
      intro sent
      rw [deliver_keys]
      exact JsMap.nodup_delete _ _ inv.nodup
    rcases hcase with ⟨hconn, hnomember, hout, hin, hpeers⟩ | ⟨hconn, hmem, hout, hin⟩
    · rw [atRelay_close (⟨mesh.relay, mesh.clients.delete h⟩ : Mesh) h Closure.init hconn]
      have hnj : ¬ mesh.Joined room h c := by
        intro hj
        rw [Mesh.Joined, hconn] at hj
        simp [Closure.init] at hj
      refine inv.of_close h c u Closure.init (fun _ => []) hc hname (hkeys _) ?_ ?_ ?_ ?_
      · intro x
        exact JsMap.get_set _ _ _ _
      · simp only [Mesh.members, onclose_init]
        exact (JsMap.delete_of_get_none _ _ hnomember).symm
      · intro x
        simp only [onclose_init]
        rw [hFd]
        rfl
      · intro x
        exact ⟨0, rfl, fun _ => rfl, fun hj => absurd hj hnj, fun _ => rfl⟩
    · rw [atRelay_close (⟨mesh.relay, mesh.clients.delete h⟩ : Mesh) h _ hconn]
      obtain ⟨hmembers, hsent⟩ := onclose_joined
        (fun s => decide (s ≠ h) && mesh.relay.isOpen s) mesh.relay.rooms
        ⟨.str u, .str room⟩ (JsVal.truthy_str room hroom) (JsVal.truthy_str u hu)
      simp only at hmembers hsent
      refine inv.of_close h c u ⟨.str u, .str room⟩ (fun x => messagesTo
        (onclose (fun s => decide (s ≠ h) && mesh.relay.isOpen s) mesh.relay.rooms
          ⟨.str u, .str room⟩).sent x) hc hname (hkeys _) ?_ hmembers ?_ ?_
      · intro x
        exact JsMap.get_set _ _ _ _
      · intro x
        exact hFd _ x
      · intro x
        simp only [hsent]
        refine ⟨_, messagesTo_broadcast _ _ _ x, ?_, ?_, ?_⟩
        · intro hne
          rw [List.length_eq_zero, List.filter_eq_nil_iff]
          intro entry hentry
          have := hne entry ((JsMap.mem_delete _ _ _).1 hentry).1
          simp [this]
        · rintro _ ⟨entry, hentry, hkey, hx, hxh, hopen⟩
          rw [List.length_pos]
          intro hnil
          rw [List.filter_eq_nil_iff] at hnil
          have := hnil entry ((JsMap.mem_delete _ _ _).2 ⟨hentry, hkey⟩)
          simp [hx, hxh, hopen] at this
        · intro hnj
          exfalso
          apply hnj
          rw [Mesh.Joined, hname]
          exact hconn

theorem MeshInv.step {room : String} (hroom : room ≠ "") {mesh : Mesh}
    (inv : MeshInv room mesh) (event : MeshEvent) (hadm : mesh.Admissible event) :
    MeshInv room (mesh.step room event) := by
  cases event with
  | connect socket username => exact inv.connect socket username hadm
  | receive socket index => exact inv.receive hroom socket index
  | handle socket transport => exact inv.handle socket transport hadm
  | candidate socket peerId candidate => exact inv.candidate socket peerId candidate
  | disconnect socket => exact inv.disconnect hroom socket

theorem MeshInv.init (room : String) : MeshInv room Mesh.init := by
  refine ⟨by simp [Mesh.init], ?_, ?_, ?_, ?_, ?_, ?_⟩
  · intro h _
    rfl
  · intro h g c d hc
    cases hc
  · intro h c hc
    cases hc
  · intro entry hentry
    cases hentry
  · intro h g c d _ hc
    cases hc
  · intro h c b hc
    cases hc

theorem MeshInv.run {room : String} (hroom : room ≠ "") (events : List MeshEvent)
    (mesh : Mesh) (inv : MeshInv room mesh) (hadm : Mesh.AdmissibleRun room mesh events) :
    MeshInv room (mesh.run room events) := by
  induction events generalizing mesh with
  | nil => exact inv
  | cons event events ih =>
    exact ih _ (inv.step hroom event hadm.1) hadm.2

/-- In a quiescent state that satisfies the invariant, the keys of `peers` of every
participant are the identifiers of the other participants. -/
theorem MeshInv.complete {room : String} {mesh : Mesh} (inv : MeshInv room mesh)
    (hq : mesh.Quiescent) (socket : Handle) (client : Client)
    (hclient : (socket, client) ∈ mesh.clients) (peerId : JsVal) :
    peerId ∈ client.manager.peers.keys ↔ peerId ∈ mesh.others socket := by
  have hget : ∀ x cx, (x, cx) ∈ mesh.clients → mesh.clients.get x = some cx :=
    fun x cx hx => JsMap.get_of_mem _ _ _ inv.nodup hx
  have hjoined : ∀ x cx, mesh.clients.get x = some cx → mesh.Joined room x cx := by
    intro x cx hx
    obtain ⟨u, _, hname, _, _, hcase⟩ := inv.clientOk x cx hx
    rcases hcase with ⟨_, _, hout, _, _⟩ | ⟨hconn, _⟩
    · have := (hq _ (JsMap.mem_of_get _ _ _ hx)).2
      rw [hout] at this
      cases this
    · rw [Mesh.Joined, hname]; exact hconn
  have hfinal : ∀ x cx, mesh.clients.get x = some cx → ∀ b,
      cx.finalHas b = JsMap.has cx.manager.peers b := by
    intro x cx hx b
    have := (hq _ (JsMap.mem_of_get _ _ _ hx)).1
    simp only at this
    simp [Client.finalHas, this, finalHas]
  have hkeys : peerId ∈ client.manager.peers.keys ↔
      JsMap.has client.manager.peers peerId = true := by
    simp only [JsMap.keys, JsMap.has, List.mem_map, List.any_eq_true, decide_eq_true_eq]
  have hc := hget _ _ hclient
  rw [hkeys, ← hfinal _ _ hc]
  constructor
  · intro hhas
    by_contra hno
    have := inv.absent socket client peerId hc (by
      intro g d hg hgd _ hname
      apply hno
      simp only [Mesh.others, List.mem_map, List.mem_filter, decide_eq_true_eq]
      exact ⟨(g, d), ⟨JsMap.mem_of_get _ _ _ hgd, hg⟩, hname⟩)
    rw [this] at hhas
    cases hhas
  · intro hmem
    simp only [Mesh.others, List.mem_map, List.mem_filter, decide_eq_true_eq] at hmem
    obtain ⟨⟨g, d⟩, ⟨hgd, hg⟩, hname⟩ := hmem
    have hd := hget _ _ hgd
    simp only at hg hname
    rcases inv.expect socket g client d (Ne.symm hg) hc hd (hjoined _ _ hc) (hjoined _ _ hd)
      with h1 | ⟨m, hm, _⟩ | ⟨m, hm, _⟩
    · rw [← hname]; exact h1
    · have := (hq _ hgd).2
      simp only at this
      rw [this] at hm
      cases hm
    · have := (hq _ hgd).1
      simp only at this
      rw [this] at hm
      cases hm

/-- C9, amended: mesh completeness with non-empty identifiers.  Take a room with a non-empty
identifier and any sequence of events in its mesh (a participant connects and writes its
join; the relay receives a message that a participant has written; a participant handles the
next message from the relay with `handleSignalingMessage`; a browser reports a candidate; a
participant disconnects), in which the participants that connect have non-empty identifiers,
different from those of the participants connected at that time, and the browser's calls
succeed.  If at the end no message is waiting in either direction, then for every connected
participant the keys of `peers` are exactly the identifiers of the other connected
participants, the registry has it as a member of the room under its identifier, and every
member of the room in the registry is a connected participant. -/
theorem C9_mesh_completeness (room : String) (hroom : room ≠ "") (events : List MeshEvent)
    (hadm : Mesh.AdmissibleRun room Mesh.init events)
    (hquiet : (Mesh.run room Mesh.init events).Quiescent) :
    (∀ socket client, (socket, client) ∈ (Mesh.run room Mesh.init events).clients →
      (∀ peerId, peerId ∈ client.manager.peers.keys ↔
        peerId ∈ (Mesh.run room Mesh.init events).others socket) ∧
      JsMap.get ((Mesh.run room Mesh.init events).members room) client.manager.username
        = some socket) ∧
    (∀ entry ∈ (Mesh.run room Mesh.init events).members room,
      ∃ client, (entry.2, client) ∈ (Mesh.run room Mesh.init events).clients ∧
        client.manager.username = entry.1) := by
  have inv := MeshInv.run hroom events Mesh.init (MeshInv.init room) hadm
  refine ⟨fun socket client hclient => ⟨inv.complete hquiet socket client hclient, ?_⟩, ?_⟩
  · have hc := JsMap.get_of_mem _ _ _ inv.nodup hclient
    obtain ⟨u, _, hname, _, _, hcase⟩ := inv.clientOk socket client hc
    rcases hcase with ⟨_, _, hout, _, _⟩ | ⟨_, hmem, _⟩
    · have := (hquiet _ hclient).2
      rw [hout] at this
      cases this
    · rw [hname]; exact hmem
  · intro entry hentry
    obtain ⟨c, hc, hname, _⟩ := inv.membersOk entry hentry
    exact ⟨c, JsMap.mem_of_get _ _ _ hc, hname⟩

theorem Mesh.exampleRun_admissible : Mesh.AdmissibleRun "R1" Mesh.init Mesh.exampleRun := by
  refine ⟨⟨by decide, by decide⟩, trivial, ⟨by decide, ?_⟩, trivial,
    Transport.succeeding_succeeds, trivial, Transport.succeeding_succeeds, trivial,
    Transport.succeeding_succeeds, trivial⟩
  decide

theorem Mesh.exampleRun_quiescent : (Mesh.run "R1" Mesh.init Mesh.exampleRun).Quiescent := by
  unfold Mesh.Quiescent
  decide

/-- C9, witness: in room `R1`, `alice` joins, `bob` joins, `alice` offers, `bob` answers, and
every message is handled. -/
theorem C9_mesh_completeness_witness :
    (∀ socket client, (socket, client) ∈ (Mesh.run "R1" Mesh.init Mesh.exampleRun).clients →
      (∀ peerId, peerId ∈ client.manager.peers.keys ↔
        peerId ∈ (Mesh.run "R1" Mesh.init Mesh.exampleRun).others socket) ∧
      JsMap.get ((Mesh.run "R1" Mesh.init Mesh.exampleRun).members "R1")
        client.manager.username = some socket) ∧
    (∀ entry ∈ (Mesh.run "R1" Mesh.init Mesh.exampleRun).members "R1",
      ∃ client, (entry.2, client) ∈ (Mesh.run "R1" Mesh.init Mesh.exampleRun).clients ∧
        client.manager.username = entry.1) :=
  C9_mesh_completeness "R1" (by decide) Mesh.exampleRun Mesh.exampleRun_admissible
    Mesh.exampleRun_quiescent

/-- C9 as stated fails for a participant whose identifier is the empty string.  In room
`R1`, `alice` joins, the participant `""` joins, `alice` offers, `""` answers, every message
is handled, and `""` disconnects: the relay sends no left-notification (its close handler
skips the empty identifier), so no message is waiting anywhere, `alice` is the only
participant still connected, and her `peers` still has the key `""`. -/
theorem C9_empty_identifier_peer_is_never_removed :
    (Mesh.run "R1" Mesh.init [.connect 1 "alice", .receive 1 0, .connect 2 "", .receive 2 0,
      .handle 1 Transport.succeeding, .receive 1 0, .handle 2 Transport.succeeding,
      .receive 2 0, .handle 1 Transport.succeeding, .disconnect 2]).clients.map
        (fun entry => (entry.1, entry.2.manager.peers.keys, entry.2.inbox, entry.2.outbox))
      = [(1, [.str ""], [], [])] ∧
    (Mesh.run "R1" Mesh.init [.connect 1 "alice", .receive 1 0, .connect 2 "", .receive 2 0,
      .handle 1 Transport.succeeding, .receive 1 0, .handle 2 Transport.succeeding,
      .receive 2 0, .handle 1 Transport.succeeding, .disconnect 2]).others 1 = [] := by
  decide

/-! ## Mesh coordinator: sessions, broadcast, closing and leaving -/

theorem JsMap.keys_set_of_has {κ ν : Type} [DecidableEq κ] (m : JsMap κ ν) (key : κ)
    (value : ν) (h : JsMap.has m key = true) :
    JsMap.keys (JsMap.set m key value) = JsMap.keys m := by
  unfold JsMap.set JsMap.keys
  rw [if_pos h, List.map_map]
  apply List.map_congr_left
  intro entry _
  by_cases he : entry.1 = key
  · simp [he]
  · simp [he]

theorem createPeerConnection_created (transport : Transport) (m : Manager) (peerId : JsVal)
    (createOffer : Bool) :
    (createPeerConnection transport m peerId createOffer).1.created = m.created + 2 ∧
    (createPeerConnection transport m peerId createOffer).1.closed = m.closed ∧
    (createPeerConnection transport m peerId createOffer).1.dataChannels =
      m.dataChannels.set peerId (m.created + 1) := by
  unfold createPeerConnection
  cases createOffer
  · exact ⟨rfl, rfl, rfl⟩
  · simp only [if_true]
    cases transport.createOffer with
    | error e => exact ⟨rfl, rfl, rfl⟩
    | ok offer =>
      simp only
      cases transport.setLocalDescription offer with
      | some e => exact ⟨rfl, rfl, rfl⟩
      | none =>
        simp only [sendSignal]
        split <;> exact ⟨rfl, rfl, rfl⟩

theorem handleOffer_created (transport : Transport) (m : Manager) (peerId offer : JsVal) :
    (handleOffer transport m peerId offer).1.created = m.created + 2 ∧
    (handleOffer transport m peerId offer).1.closed = m.closed ∧
    (handleOffer transport m peerId offer).1.dataChannels =
      m.dataChannels.set peerId (m.created + 1) := by
  simp only [handleOffer, createPeerConnection, Bool.false_eq_true, if_false]
  cases transport.setRemoteDescription offer with
  | some e => exact ⟨rfl, rfl, rfl⟩
  | none =>
    simp only
    cases transport.createAnswer with
    | error e => exact ⟨rfl, rfl, rfl⟩
    | ok answer =>
      simp only
      cases transport.setLocalDescription answer with
      | some e => exact ⟨rfl, rfl, rfl⟩
      | none =>
        simp only [sendSignal]
        split <;> exact ⟨rfl, rfl, rfl⟩

/-- C11, amended: when `peers` already holds a connection `c` for the identifier `p`,
handling a `user-joined` or an `offer` from `p` creates a new connection all the same and
stores it under `p` in place of `c`; the connection `c` is not closed.  The map `peers`
keeps one entry for `p` (its keys are unchanged), and the new data channel replaces the
one stored under `p` in `dataChannels`. -/
theorem C11_session_is_replaced (transport : Transport) (m : Manager) (message p : JsVal)
    (c : Nat)
    (htype : message.prop "type" = .ok (.str "user-joined") ∨
      message.prop "type" = .ok (.str "offer"))
    (hfrom : message.field "from" = p)
    (hsession : m.peers.get p = some c) (hc : c < m.created) :
    (handleSignalingMessage transport m message).1.peers.get p = some m.created ∧
    m.created ≠ c ∧
    (handleSignalingMessage transport m message).1.created = m.created + 2 ∧
    (handleSignalingMessage transport m message).1.peers.keys = m.peers.keys ∧
    (handleSignalingMessage transport m message).1.closed = m.closed ∧
    (handleSignalingMessage transport m message).1.dataChannels.get p =
      some (m.created + 1) := by
  have hhas : JsMap.has m.peers p = true := by
    rw [JsMap.has_eq_isSome, hsession]; rfl
  have hpeers : (handleSignalingMessage transport m message).1.peers =
      m.peers.set p m.created := by
    rcases htype with h | h
    · rw [handleSignalingMessage_userJoined _ _ _ h, createPeerConnection_peers, hfrom]
    · rw [handleSignalingMessage_offer _ _ _ h, (handleOffer_frame _ _ _ _).2.2.2, hfrom]
  have hrest : (handleSignalingMessage transport m message).1.created = m.created + 2 ∧
      (handleSignalingMessage transport m message).1.closed = m.closed ∧
      (handleSignalingMessage transport m message).1.dataChannels =
        m.dataChannels.set p (m.created + 1) := by
    rcases htype with h | h
    · rw [handleSignalingMessage_userJoined _ _ _ h, hfrom]
      exact createPeerConnection_created _ _ _ _
    · rw [handleSignalingMessage_offer _ _ _ h, hfrom]
      exact handleOffer_created _ _ _ _
  refine ⟨?_, Nat.ne_of_gt hc, hrest.1, ?_, hrest.2.1, ?_⟩
  · rw [hpeers, JsMap.get_set_self]
  · rw [hpeers, JsMap.keys_set_of_has _ _ _ hhas]
  · rw [hrest.2.2, JsMap.get_set_self]

/-- C11, witness: `alice` holds connection 0 for `bob` and is told again that `bob` has
joined. -/
theorem C11_session_is_replaced_witness :
    ((handleSignalingMessage Transport.succeeding
        (handleSignalingMessage Transport.succeeding
          (Manager.connected (.str "alice") (.str "r"))
          (userJoined (.str "bob") (.str "r"))).1
        (userJoined (.str "bob") (.str "r"))).1.peers.get (.str "bob") = some 2) ∧
    (handleSignalingMessage Transport.succeeding
        (handleSignalingMessage Transport.succeeding
          (Manager.connected (.str "alice") (.str "r"))
          (userJoined (.str "bob") (.str "r"))).1
        (userJoined (.str "bob") (.str "r"))).1.closed = [] :=
  have h := C11_session_is_replaced Transport.succeeding
    (handleSignalingMessage Transport.succeeding
      (Manager.connected (.str "alice") (.str "r")) (userJoined (.str "bob") (.str "r"))).1
    (userJoined (.str "bob") (.str "r")) (.str "bob") 0
    (Or.inl rfl) rfl rfl (by decide)
  ⟨h.1, h.2.2.2.2.1⟩

/-- C11 as stated fails.  `alice` has a session for `bob` (connection 0) and handles a
second `user-joined` from `bob`: a new connection (number 2) is created and registered for
`bob`, and connection 0 has not been closed; an `offer` from `bob` does the same
(connection 4). -/
theorem C11_second_user_joined_creates_a_second_connection :
    (handleSignalingMessage Transport.succeeding
      (Manager.connected (.str "alice") (.str "r"))
      (userJoined (.str "bob") (.str "r"))).1.peers = [(.str "bob", 0)] ∧
    (Session.run (Session.connected (.str "alice") (.str "r"))
      [.signal Transport.succeeding (userJoined (.str "bob") (.str "r")),
       .signal Transport.succeeding (userJoined (.str "bob") (.str "r"))]).manager.peers
      = [(.str "bob", 2)] ∧
    (Session.run (Session.connected (.str "alice") (.str "r"))
      [.signal Transport.succeeding (userJoined (.str "bob") (.str "r")),
       .signal Transport.succeeding (userJoined (.str "bob") (.str "r"))]).manager.closed
      = [] ∧
    (Session.run (Session.connected (.str "alice") (.str "r"))
      [.signal Transport.succeeding (userJoined (.str "bob") (.str "r")),
       .signal Transport.succeeding (userJoined (.str "bob") (.str "r")),
       .signal Transport.succeeding
         (forwarded ⟨.str "bob", .str "r"⟩
           (.obj [("type", .str "offer"), ("to", .str "alice"),
                  ("offer", .obj [("type", .str "offer")])]))]).manager.peers
      = [(.str "bob", 4)] ∧
    (Session.run (Session.connected (.str "alice") (.str "r"))
      [.signal Transport.succeeding (userJoined (.str "bob") (.str "r")),
       .signal Transport.succeeding (userJoined (.str "bob") (.str "r")),
       .signal Transport.succeeding
         (forwarded ⟨.str "bob", .str "r"⟩
           (.obj [("type", .str "offer"), ("to", .str "alice"),
                  ("offer", .obj [("type", .str "offer")])]))]).manager.closed
      = [] := by
  decide

theorem sendDataLoop_of_ok (channels : Channels) (message : String)
    (entries : List (JsVal × Nat)) (written : List (Nat × String))
    (hok : ∀ entry ∈ entries, channels.readyState entry.2 = .open →
      channels.send entry.2 message = none) :
    sendDataLoop channels message entries written =
      (written ++ (entries.filter
        (fun entry => decide (channels.readyState entry.2 = .open))).map
          (fun entry => (entry.2, message)), none) := by
  induction entries generalizing written with
  | nil => simp [sendDataLoop]
  | cons entry rest ih =>
    obtain ⟨peerId, channel⟩ := entry
    have hrest : ∀ entry ∈ rest, channels.readyState entry.2 = .open →
        channels.send entry.2 message = none :=
      fun entry h => hok entry (List.mem_cons_of_mem _ h)
    by_cases hopen : channels.readyState channel = .open
    · have hsend := hok (peerId, channel) (List.mem_cons_self _ _) hopen
      simp only at hsend
      simp only [sendDataLoop, hopen, if_true, hsend]
      rw [ih _ hrest]
      simp [List.filter_cons, hopen]
    · simp only [sendDataLoop, hopen, if_false]
      rw [ih _ hrest]
      simp [List.filter_cons, hopen]

theorem sendDataLoop_of_raise (channels : Channels) (message : String)
    (before after : List (JsVal × Nat)) (p : JsVal) (c : Nat) (e : String)
    (written : List (Nat × String))
    (hopen : channels.readyState c = .open) (hraise : channels.send c message = some e)
    (hbefore : ∀ entry ∈ before, channels.readyState entry.2 = .open →
      channels.send entry.2 message = none) :
    sendDataLoop channels message (before ++ (p, c) :: after) written =
      (written ++ (before.filter
        (fun entry => decide (channels.readyState entry.2 = .open))).map
          (fun entry => (entry.2, message)), some e) := by
  induction before generalizing written with
  | nil => simp [sendDataLoop, hopen, hraise]
  | cons entry rest ih =>
    obtain ⟨peerId, channel⟩ := entry
    have hrest : ∀ entry ∈ rest, channels.readyState entry.2 = .open →
        channels.send entry.2 message = none :=
      fun entry h => hbefore entry (List.mem_cons_of_mem _ h)
    by_cases ho : channels.readyState channel = .open
    · have hsend := hbefore (peerId, channel) (List.mem_cons_self _ _) ho
      simp only at hsend
      rw [List.cons_append]
      simp only [sendDataLoop, ho, if_true, hsend]
      rw [ih _ hrest]
      simp [List.filter_cons, ho]
    · rw [List.cons_append]
      simp only [sendDataLoop, ho, if_false]
      rw [ih _ hrest]
      simp [List.filter_cons, ho]

/-- The writes of the loop are always writes of `message` on an initial part of the open
channels of the entries, in order. -/
theorem sendDataLoop_initial (channels : Channels) (message : String)
    (entries : List (JsVal × Nat)) (written : List (Nat × String)) :
    ∃ rest, written ++ (entries.filter
        (fun entry => decide (channels.readyState entry.2 = .open))).map
          (fun entry => (entry.2, message)) =
      (sendDataLoop channels message entries written).1 ++ rest := by
  induction entries generalizing written with
  | nil => exact ⟨[], by simp [sendDataLoop]⟩
  | cons entry rest ih =>
    obtain ⟨peerId, channel⟩ := entry
    by_cases hopen : channels.readyState channel = .open
    · cases hsend : channels.send channel message with
      | some e =>
        simp only [sendDataLoop, hopen, if_true, hsend]
        exact ⟨_, rfl⟩
      | none =>
        simp only [sendDataLoop, hopen, if_true, hsend]
        obtain ⟨r, hr⟩ := ih (written ++ [(channel, message)])
        refine ⟨r, ?_⟩
        rw [← hr]
        simp [List.filter_cons, hopen]
    · simp only [sendDataLoop, hopen, if_false]
      obtain ⟨r, hr⟩ := ih written
      refine ⟨r, ?_⟩
      rw [← hr]
      simp [List.filter_cons, hopen]

/-- C12.  A call `sendData(data)` without target peer.  The writes it makes are writes of
the serialized payload on an initial part, in map order, of the channels of `dataChannels`
whose state is `open`: never on a channel in another state.  When no write raises, it
writes the payload once for every entry of `dataChannels` whose channel is open, in map
order, and returns normally; these channels are pairwise different when the channels of the
map are.  With an empty `dataChannels` it writes nothing and returns normally. -/
theorem C12_broadcast (stringify : JsVal → String) (channels : Channels) (m : Manager)
    (data : JsVal) :
    (∃ rest, (m.dataChannels.filter
        (fun entry => decide (channels.readyState entry.2 = .open))).map
          (fun entry => (entry.2, serialized stringify data)) =
      (sendData stringify channels m data .null).1 ++ rest) ∧
    ((∀ entry ∈ m.dataChannels, channels.readyState entry.2 = .open →
        channels.send entry.2 (serialized stringify data) = none) →
      sendData stringify channels m data .null =
        ((m.dataChannels.filter
          (fun entry => decide (channels.readyState entry.2 = .open))).map
            (fun entry => (entry.2, serialized stringify data)), none) ∧
      ((m.dataChannels.map Prod.snd).Nodup →
        ((sendData stringify channels m data .null).1.map Prod.fst).Nodup)) ∧
    (m.dataChannels = [] → sendData stringify channels m data .null = ([], none)) := by
  have hdef : sendData stringify channels m data .null =
      sendDataLoop channels (serialized stringify data) m.dataChannels [] := rfl
  refine ⟨?_, ?_, ?_⟩
  · obtain ⟨r, hr⟩ := sendDataLoop_initial channels (serialized stringify data)
      m.dataChannels []
    exact ⟨r, by rw [hdef, ← hr]; rfl⟩
  · intro hok
    have heq := sendDataLoop_of_ok channels (serialized stringify data) m.dataChannels [] hok
    rw [List.nil_append] at heq
    refine ⟨by rw [hdef, heq], ?_⟩
    intro hnodup
    rw [hdef, heq]
    simp only [List.map_map]
    have hfun : (Prod.fst ∘ fun entry : JsVal × Nat =>
        (entry.2, serialized stringify data)) = Prod.snd := rfl
    rw [hfun]
    exact (List.Nodup.sublist (List.Sublist.map _ (List.filter_sublist _)) hnodup)
  · intro hempty
    rw [hdef, hempty]
    rfl

/-- C12, witness: channels 1 and 5 are open, channel 3 is closing, no write raises. -/
theorem C12_broadcast_witness :
    sendData (fun _ => "json")
      ⟨fun c => if c = 3 then .closing else .open, fun _ _ => none⟩
      { Manager.connected (.str "alice") (.str "r") with
        dataChannels := [(.str "bob", 1), (.str "carol", 3), (.str "dave", 5)] }
      (.obj []) .null = ([(1, "json"), (5, "json")], none) :=
  ((C12_broadcast (fun _ => "json")
    ⟨fun c => if c = 3 then .closing else .open, fun _ _ => none⟩
    { Manager.connected (.str "alice") (.str "r") with
      dataChannels := [(.str "bob", 1), (.str "carol", 3), (.str "dave", 5)] }
    (.obj [])).2.1 (fun _ _ _ => rfl)).1

/-- C13, amended: when the write on the open channel `c` of one peer raises during
`sendData(data)`, the open channels that come before `c` in the order of `dataChannels`
(and on which the write does not raise) have received the payload, no channel that comes
after `c` receives it, and `sendData` raises the same exception. -/
theorem C13_failed_write_ends_the_broadcast (stringify : JsVal → String)
    (channels : Channels) (m : Manager) (data : JsVal)
    (before after : List (JsVal × Nat)) (p : JsVal) (c : Nat) (e : String)
    (hentries : m.dataChannels = before ++ (p, c) :: after)
    (hopen : channels.readyState c = .open)
    (hraise : channels.send c (serialized stringify data) = some e)
    (hbefore : ∀ entry ∈ before, channels.readyState entry.2 = .open →
      channels.send entry.2 (serialized stringify data) = none) :
    sendData stringify channels m data .null =
      ((before.filter (fun entry => decide (channels.readyState entry.2 = .open))).map
        (fun entry => (entry.2, serialized stringify data)), some e) := by
  have hdef : sendData stringify channels m data .null =
      sendDataLoop channels (serialized stringify data) m.dataChannels [] := rfl
  rw [hdef, hentries,
    sendDataLoop_of_raise channels _ before after p c e [] hopen hraise hbefore]
  rfl

/-- C13, witness: three open channels, the write on the second (channel 3) raises. -/
theorem C13_failed_write_ends_the_broadcast_witness :
    sendData (fun _ => "json")
      ⟨fun _ => .open, fun c _ => if c = 3 then some "OperationError" else none⟩
      { Manager.connected (.str "alice") (.str "r") with
        dataChannels := [(.str "bob", 1), (.str "carol", 3), (.str "dave", 5)] }
      (.obj []) .null = ([(1, "json")], some "OperationError") :=
  C13_failed_write_ends_the_broadcast (fun _ => "json")
    ⟨fun _ => .open, fun c _ => if c = 3 then some "OperationError" else none⟩
    { Manager.connected (.str "alice") (.str "r") with
      dataChannels := [(.str "bob", 1), (.str "carol", 3), (.str "dave", 5)] }
    (.obj []) [(.str "bob", 1)] [(.str "dave", 5)] (.str "carol") 3 "OperationError"
    rfl rfl rfl (by decide)

/-- C13 as stated fails.  The channels of `bob` (1) and of `carol` (3) are both open and
the write on `bob`'s channel raises: nothing is written on `carol`'s channel and `sendData`
itself raises. -/
theorem C13_failed_write_reaches_no_later_channel :
    sendData (fun _ => "json")
      ⟨fun _ => .open, fun c _ => if c = 1 then some "OperationError" else none⟩
      { Manager.connected (.str "alice") (.str "r") with
        dataChannels := [(.str "bob", 1), (.str "carol", 3)] }
      (.obj []) .null = ([], some "OperationError") := by
  decide

theorem JsMap.delete_of_has_false {κ ν : Type} [DecidableEq κ] (m : JsMap κ ν) (key : κ)
    (h : JsMap.get m key = none) : JsMap.delete m key = m := by
  have hn : JsMap.has m key = false := (JsMap.has_false_iff _ _).2 h
  simp only [JsMap.has, List.any_eq_false, decide_eq_true_eq] at hn
  unfold JsMap.delete
  rw [List.filter_eq_self]
  intro entry hentry
  simpa using hn entry hentry

theorem removePeer_dataChannels (m : Manager) (peerId : JsVal) :
    (removePeer m peerId).dataChannels = m.dataChannels.delete peerId := by
  cases h1 : m.peers.get peerId <;> cases h2 : m.dataChannels.get peerId <;>
    simp [removePeer, h1, h2, JsMap.delete_of_has_false]

/-- A second `removePeer` finds nothing to close. -/
theorem removePeer_of_absent (m : Manager) (peerId : JsVal)
    (h1 : m.peers.get peerId = none) (h2 : m.dataChannels.get peerId = none) :
    removePeer m peerId = { m with removed := m.removed ++ [peerId] } := by
  simp [removePeer, h1, h2]

theorem removePeer_streams (m : Manager) (peerId : JsVal) :
    (removePeer m peerId).localStream = m.localStream ∧
    (removePeer m peerId).screenStream = m.screenStream := by
  cases h1 : m.peers.get peerId <;> cases h2 : m.dataChannels.get peerId <;>
    simp [removePeer, h1, h2]

/-- C14.  For every manager state and peer identifier `p`: after `removePeer(p)` neither
`peers` nor `dataChannels` has an entry for `p`; a second `removePeer(p)` leaves `peers`
and `dataChannels` as the first left them and calls `close()` on nothing. -/
theorem C14_removePeer_is_idempotent (m : Manager) (p : JsVal) :
    (removePeer m p).peers.has p = false ∧
    (removePeer m p).dataChannels.has p = false ∧
    (removePeer (removePeer m p) p).peers = (removePeer m p).peers ∧
    (removePeer (removePeer m p) p).dataChannels = (removePeer m p).dataChannels ∧
    (removePeer (removePeer m p) p).closed = (removePeer m p).closed := by
  have hp : (removePeer m p).peers.get p = none := by
    rw [removePeer_peers, JsMap.get_delete_self]
  have hd : (removePeer m p).dataChannels.get p = none := by
    rw [removePeer_dataChannels, JsMap.get_delete_self]
  refine ⟨(JsMap.has_false_iff _ _).2 hp, (JsMap.has_false_iff _ _).2 hd, ?_, ?_, ?_⟩ <;>
    rw [removePeer_of_absent _ _ hp hd]

theorem foldl_removePeer_peers (keys : List JsVal) (m : Manager) :
    (keys.foldl removePeer m).peers =
      m.peers.filter (fun entry => decide (entry.1 ∉ keys)) := by
  induction keys generalizing m with
  | nil => simp
  | cons key keys ih =>
    rw [List.foldl_cons, ih, removePeer_peers]
    unfold JsMap.delete
    rw [List.filter_filter]
    apply List.filter_congr
    intro entry _
    by_cases h : entry.1 = key <;> simp [h]

theorem foldl_removePeer_dataChannels (keys : List JsVal) (m : Manager) :
    (keys.foldl removePeer m).dataChannels =
      m.dataChannels.filter (fun entry => decide (entry.1 ∉ keys)) := by
  induction keys generalizing m with
  | nil => simp
  | cons key keys ih =>
    rw [List.foldl_cons, ih, removePeer_dataChannels]
    unfold JsMap.delete
    rw [List.filter_filter]
    apply List.filter_congr
    intro entry _
    by_cases h : entry.1 = key <;> simp [h]

theorem JsMap.has_iff_mem_keys {κ ν : Type} [DecidableEq κ] (m : JsMap κ ν) (key : κ) :
    JsMap.has m key = true ↔ key ∈ JsMap.keys m := by
  simp only [JsMap.has, JsMap.keys, List.any_eq_true, decide_eq_true_eq, List.mem_map]

theorem disconnect_peers (m : Manager) : (disconnect m).peers = [] := by
  show (m.peers.keys.foldl removePeer m).peers = []
  rw [foldl_removePeer_peers, List.filter_eq_nil_iff]
  intro entry hentry
  have : entry.1 ∈ JsMap.keys m.peers := List.mem_map_of_mem Prod.fst hentry
  simpa using this

theorem disconnect_dataChannels (m : Manager) :
    (disconnect m).dataChannels =
      m.dataChannels.filter (fun entry => !m.peers.has entry.1) := by
  show (m.peers.keys.foldl removePeer m).dataChannels = _
  rw [foldl_removePeer_dataChannels]
  apply List.filter_congr
  intro entry _
  by_cases h : JsMap.has m.peers entry.1 = true
  · have hk := (JsMap.has_iff_mem_keys _ _).1 h
    simp [h, hk]
  · have hk : entry.1 ∉ JsMap.keys m.peers := fun hk => h ((JsMap.has_iff_mem_keys _ _).2 hk)
    simp only [Bool.not_eq_true] at h
    simp [h, hk]

/-- C15, amended: from every manager state, after `disconnect()` the map `peers` is empty
and `localStream`, `screenStream` and `ws` are `null`; `dataChannels` keeps exactly its
entries for identifiers that had no entry in `peers`, so it is empty when every identifier
of `dataChannels` is an identifier of `peers`.  A second `disconnect()` changes nothing
(the model of `disconnect` has no exception). -/
theorem C15_disconnect (m : Manager) :
    (disconnect m).peers = [] ∧
    (disconnect m).localStream = none ∧ (disconnect m).screenStream = none ∧
    (disconnect m).ws = none ∧
    (disconnect m).dataChannels =
      m.dataChannels.filter (fun entry => !m.peers.has entry.1) ∧
    ((∀ entry ∈ m.dataChannels, m.peers.has entry.1 = true) →
      (disconnect m).dataChannels = []) ∧
    disconnect (disconnect m) = disconnect m := by
  refine ⟨disconnect_peers m, rfl, rfl, rfl, disconnect_dataChannels m, ?_, ?_⟩
  · intro hkeys
    rw [disconnect_dataChannels, List.filter_eq_nil_iff]
    intro entry hentry
    simp [hkeys entry hentry]
  · have hp := disconnect_peers m
    have hl : (disconnect m).localStream = none := rfl
    have hs : (disconnect m).screenStream = none := rfl
    have hw : (disconnect m).ws = none := rfl
    generalize disconnect m = d at hp hl hs hw
    unfold disconnect
    rw [hp]
    cases d
    simp_all [JsMap.keys]

/-- C15, witness: a manager with a session for `bob`, a local stream and an open socket. -/
theorem C15_disconnect_witness :
    (disconnect { Manager.connected (.str "alice") (.str "r") with
      peers := [(.str "bob", 0)], dataChannels := [(.str "bob", 1)], created := 2,
      localStream := some 7 }).dataChannels = [] :=
  (C15_disconnect { Manager.connected (.str "alice") (.str "r") with
      peers := [(.str "bob", 0)], dataChannels := [(.str "bob", 1)], created := 2,
      localStream := some 7 }).2.2.2.2.2.1 (by decide)

/-- C15 as stated fails.  `alice` is told twice that `bob` has joined (connection 0, then
connection 2 in its place), then that `bob` has left (connection 2 is closed and `bob` is
deleted from both maps); the event `datachannel` then fires on connection 0, which was
never closed, and stores a channel under `bob`.  After `disconnect()` the map
`dataChannels` still has this entry. -/
theorem C15_channel_of_a_replaced_connection_remains :
    (Session.run (Session.connected (.str "alice") (.str "r"))
      [.signal Transport.succeeding (userJoined (.str "bob") (.str "r")),
       .signal Transport.succeeding (userJoined (.str "bob") (.str "r")),
       .signal Transport.succeeding (userLeft (.str "bob") (.str "r")),
       .datachannel 0, .disconnect]).manager.dataChannels = [(.str "bob", 4)] ∧
    (Session.run (Session.connected (.str "alice") (.str "r"))
      [.signal Transport.succeeding (userJoined (.str "bob") (.str "r")),
       .signal Transport.succeeding (userJoined (.str "bob") (.str "r")),
       .signal Transport.succeeding (userLeft (.str "bob") (.str "r")),
       .datachannel 0, .disconnect]).manager.peers = [] := by
  decide

/-! ## Channel protocol layer: the sender's chunking -/

/-- The number of chunks: `⌈x / n⌉` loses one when `n` elements are taken away. -/
theorem ceilDiv_step (x n : Nat) (hn : 0 < n) (hx : 0 < x) :
    (x + n - 1) / n = (x - n + n - 1) / n + 1 := by
  by_cases h : n ≤ x
  · have e1 : x + n - 1 = (x - n + n - 1) + n := by omega
    rw [e1, Nat.add_div_right _ hn]
  · have e1 : x + n - 1 = (x - 1) + n := by omega
    have e2 : x - n + n - 1 = n - 1 := by omega
    rw [e1, Nat.add_div_right _ hn, e2, Nat.div_eq_of_lt (by omega),
      Nat.div_eq_of_lt (by omega)]

/-- With enough iterations the loop of `chunkArray` ends and has pushed the slices
`array.slice(i + j * chunkSize, i + (j + 1) * chunkSize)`. -/
theorem chunkArrayLoop_eq {α : Type} (array : List α) (chunkSize : Nat) (hn : 0 < chunkSize)
    (fuel i : Nat) (chunks : List (List α)) (hfuel : array.length - i < fuel) :
    chunkArrayLoop array chunkSize fuel i chunks =
      some (chunks ++ (List.range ((array.length - i + chunkSize - 1) / chunkSize)).map
        (fun j => (array.drop (i + j * chunkSize)).take chunkSize)) := by
  induction fuel generalizing i chunks with
  | zero => omega
  | succ fuel ih =>
    unfold chunkArrayLoop
    by_cases hi : i < array.length
    · rw [if_pos hi, ih _ _ (by omega)]
      have hk := ceilDiv_step (array.length - i) chunkSize hn (by omega)
      have e : array.length - (i + chunkSize) = array.length - i - chunkSize := by omega
      rw [hk, e, List.range_succ_eq_map, List.map_cons, List.map_map, List.append_assoc]
      congr 2
      simp only [Nat.zero_mul, Nat.add_zero, List.singleton_append, List.cons.injEq, true_and]
      apply List.map_congr_left
      intro j _
      simp only [Function.comp, Nat.succ_eq_add_one, Nat.add_mul, Nat.one_mul]
      congr 2
      omega
    · rw [if_neg hi]
      have e : array.length - i + chunkSize - 1 = chunkSize - 1 := by omega
      rw [e, Nat.div_eq_of_lt (by omega)]
      simp

theorem chunkArray_eq {α : Type} (array : List α) (chunkSize : Nat) (hn : 0 < chunkSize) :
    chunkArray array chunkSize =
      some ((List.range ((array.length + chunkSize - 1) / chunkSize)).map
        (fun j => (array.drop (j * chunkSize)).take chunkSize)) := by
  unfold chunkArray
  rw [chunkArrayLoop_eq array chunkSize hn _ 0 [] (by omega)]
  simp

theorem flatten_slices {α : Type} (array : List α) (chunkSize k : Nat) :
    ((List.range k).map (fun j => (array.drop (j * chunkSize)).take chunkSize)).flatten =
      array.take (k * chunkSize) := by
  induction k with
  | zero => simp
  | succ k ih =>
    rw [List.range_succ, List.map_append, List.flatten_append, ih, Nat.succ_mul,
      List.take_add]
    simp

/-- The last slice starts inside the array. -/
theorem slice_start_lt (len n j : Nat) (hn : 0 < n) (hj : j < (len + n - 1) / n) :
    j * n < len := by
  have h1 : (len + n - 1) / n * n ≤ len + n - 1 := Nat.div_mul_le_self _ _
  have h2 : (j + 1) * n ≤ (len + n - 1) / n * n := Nat.mul_le_mul_right n hj
  rw [Nat.add_mul, Nat.one_mul] at h2
  omega

theorem slices_cover (len n : Nat) (hn : 0 < n) : len ≤ (len + n - 1) / n * n := by
  have h := Nat.lt_mul_div_succ (len + n - 1) hn
  rw [Nat.mul_add, Nat.mul_one, Nat.mul_comm] at h
  omega

theorem fileChunkMessage_fields (fileId : JsVal) (index : Nat) (chunk : List Nat) :
    (fileChunkMessage fileId index chunk).prop "type" = .ok (.str "file-chunk") ∧
    (fileChunkMessage fileId index chunk).field "fileId" = fileId ∧
    (fileChunkMessage fileId index chunk).field "chunkIndex" = .num (Int.ofNat index) ∧
    (fileChunkMessage fileId index chunk).field "chunk" = JsVal.ofBytes chunk := by
  have hnodup : (([("type", JsVal.str "file-chunk"), ("fileId", fileId),
      ("chunkIndex", JsVal.num (Int.ofNat index)),
      ("chunk", JsVal.ofBytes chunk)] : List (String × JsVal)).map Prod.fst).Nodup := by
    simp
  refine ⟨?_, ?_, ?_, ?_⟩
  · exact stringifyObj_prop_type _ _
  · unfold fileChunkMessage
    rw [JsVal.field_stringifyObj _ _ hnodup]
    simp [JsVal.field_obj_cons]
  · unfold fileChunkMessage
    rw [JsVal.field_stringifyObj _ _ hnodup]
    simp [JsVal.field_obj_cons]
  · unfold fileChunkMessage
    rw [JsVal.field_stringifyObj _ _ hnodup]
    simp [JsVal.field_obj_cons]

theorem fileStartMessage_fields (fileId fileName fileType fileSize iv : JsVal)
    (totalChunks : Nat) :
    (fileStartMessage fileId fileName fileType fileSize iv totalChunks).field "type" =
      .str "file-start" ∧
    (fileStartMessage fileId fileName fileType fileSize iv totalChunks).field "fileId" =
      fileId ∧
    (fileStartMessage fileId fileName fileType fileSize iv totalChunks).field "fileName" =
      fileName ∧
    (fileStartMessage fileId fileName fileType fileSize iv totalChunks).field "fileType" =
      fileType ∧
    (fileStartMessage fileId fileName fileType fileSize iv totalChunks).field "fileSize" =
      fileSize ∧
    (fileStartMessage fileId fileName fileType fileSize iv totalChunks).field "totalChunks" =
      .num (Int.ofNat totalChunks) ∧
    (fileStartMessage fileId fileName fileType fileSize iv totalChunks).field "iv" = iv := by
  have hnodup : (([("type", JsVal.str "file-start"), ("fileId", fileId),
      ("fileName", fileName), ("fileType", fileType), ("fileSize", fileSize),
      ("totalChunks", JsVal.num (Int.ofNat totalChunks)), ("iv", iv)] :
        List (String × JsVal)).map Prod.fst).Nodup := by
    simp
  refine ⟨?_, ?_, ?_, ?_, ?_, ?_, ?_⟩ <;>
  · unfold fileStartMessage
    rw [JsVal.field_stringifyObj _ _ hnodup]
    simp [JsVal.field_obj_cons]

/-- C18.  For every array and chunk size `n ≥ 1`, `chunkArray` returns: the number of its
chunks is `⌈length / n⌉`, every chunk is non-empty and has at most `n` elements, every
chunk but the last has exactly `n`, and the chunks in order concatenate to the array.
`shareFile` calls it with `n = 16384` on the encrypted bytes, declares `totalChunks` as the
number of chunks in its `file-start` message and sends after it one `file-chunk` message
per chunk, the message at position `i` carrying `chunkIndex = i` and the bytes of chunk
`i`. -/
theorem C18_sender_chunking {α : Type} (a : List α) (n : Nat) (hn : 1 ≤ n)
    (fileId fileName fileType fileSize iv : JsVal) (data : List Nat) :
    (∃ chunks, chunkArray a n = some chunks ∧
      chunks.length = (a.length + n - 1) / n ∧
      (∀ chunk ∈ chunks, chunk ≠ [] ∧ chunk.length ≤ n) ∧
      (∀ i chunk, i + 1 < chunks.length → chunks[i]? = some chunk → chunk.length = n) ∧
      chunks.flatten = a) ∧
    (∃ chunks, chunkArray data 16384 = some chunks ∧
      shareFileMessages fileId fileName fileType fileSize iv data =
        some (fileStartMessage fileId fileName fileType fileSize iv chunks.length ::
          fileChunkMessages fileId chunks) ∧
      (fileStartMessage fileId fileName fileType fileSize iv chunks.length).field
        "totalChunks" = .num (Int.ofNat chunks.length) ∧
      (fileChunkMessages fileId chunks).length = chunks.length ∧
      ∀ i chunk, chunks[i]? = some chunk →
        (fileChunkMessages fileId chunks)[i]? = some (fileChunkMessage fileId i chunk) ∧
        (fileChunkMessage fileId i chunk).field "chunkIndex" = .num (Int.ofNat i) ∧
        (fileChunkMessage fileId i chunk).field "chunk" = JsVal.ofBytes chunk) := by
  constructor
  · refine ⟨_, chunkArray_eq a n hn, by simp, ?_, ?_, ?_⟩
    · intro chunk hchunk
      simp only [List.mem_map, List.mem_range] at hchunk
      obtain ⟨j, hj, rfl⟩ := hchunk
      have hlt := slice_start_lt a.length n j hn hj
      constructor
      · intro hnil
        have hlen := congrArg List.length hnil
        simp only [List.length_take, List.length_drop, List.length_nil] at hlen
        omega
      · simp only [List.length_take, List.length_drop]
        omega
    · intro i chunk hi hget
      simp only [List.length_map, List.length_range] at hi
      rw [List.getElem?_map, List.getElem?_range (by omega)] at hget
      simp only [Option.map_some', Option.some.injEq] at hget
      subst hget
      have hlt := slice_start_lt a.length n (i + 1) hn hi
      rw [Nat.add_mul, Nat.one_mul] at hlt
      simp only [List.length_take, List.length_drop]
      omega
    · rw [flatten_slices]
      exact List.take_of_length_le (slices_cover a.length n hn)
  · refine ⟨_, chunkArray_eq data 16384 (by decide), ?_, ?_, ?_, ?_⟩
    · unfold shareFileMessages
      rw [chunkArray_eq data 16384 (by decide)]
    · exact (fileStartMessage_fields _ _ _ _ _ _).2.2.2.2.2.1
    · simp [fileChunkMessages]
    · intro i chunk hget
      refine ⟨?_, (fileChunkMessage_fields _ _ _).2.2.1, (fileChunkMessage_fields _ _ _).2.2.2⟩
      unfold fileChunkMessages
      rw [List.getElem?_map, List.getElem?_enum, hget]
      rfl

/-- C18, witness: five elements in chunks of two, and a three-byte file. -/
theorem C18_sender_chunking_witness :
    (∃ chunks, chunkArray [1, 2, 3, 4, 5] 2 = some chunks ∧ chunks.length = 3 ∧
      chunks.flatten = [1, 2, 3, 4, 5]) ∧
    (∃ chunks, chunkArray [7, 8, 9] 16384 = some chunks ∧
      shareFileMessages (.str "f") (.str "a.bin") (.str "x") (.num 3) (JsVal.ofBytes [1])
          [7, 8, 9] =
        some (fileStartMessage (.str "f") (.str "a.bin") (.str "x") (.num 3)
            (JsVal.ofBytes [1]) chunks.length ::
          fileChunkMessages (.str "f") chunks)) :=
  have h := C18_sender_chunking [1, 2, 3, 4, 5] 2 (by decide) (.str "f") (.str "a.bin")
    (.str "x") (.num 3) (JsVal.ofBytes [1]) [7, 8, 9]
  ⟨h.1.elim (fun chunks hc => ⟨chunks, hc.1, hc.2.1, hc.2.2.2.2⟩),
   h.2.elim (fun chunks hc => ⟨chunks, hc.1, hc.2.1⟩)⟩

/-! ## Channel protocol layer: the slot array -/

theorem getElem?_map_range {β : Type} (f : Nat → β) (b j : Nat) :
    ((List.range b).map f)[j]? = if j < b then some (f j) else none := by
  by_cases h : j < b
  · rw [List.getElem?_map, List.getElem?_range h, if_pos h]; rfl
  · rw [if_neg h]
    apply List.getElem?_eq_none
    simp only [List.length_map, List.length_range]
    omega

theorem slotBound_le (indices : List Nat) (b : Nat) :
    slotBound indices ≤ b ↔ ∀ i ∈ indices, i < b := by
  induction indices with
  | nil => simp [slotBound]
  | cons i rest ih =>
    have hcons : slotBound (i :: rest) = max (i + 1) (slotBound rest) := rfl
    rw [hcons, Nat.max_le, ih]
    simp only [List.mem_cons, forall_eq_or_imp]
    constructor
    · rintro ⟨h1, h2⟩; exact ⟨by omega, h2⟩
    · rintro ⟨h1, h2⟩; exact ⟨by omega, h2⟩

theorem lt_slotBound (indices : List Nat) (i : Nat) (h : i ∈ indices) :
    i < slotBound indices :=
  (slotBound_le indices (slotBound indices)).1 (Nat.le_refl _) i h

theorem slotBound_congr (xs ys : List Nat) (h : ∀ i, i ∈ xs ↔ i ∈ ys) :
    slotBound xs = slotBound ys := by
  apply Nat.le_antisymm
  · exact (slotBound_le _ _).2 (fun i hi => lt_slotBound ys i ((h i).1 hi))
  · exact (slotBound_le _ _).2 (fun i hi => lt_slotBound xs i ((h i).2 hi))

theorem slotBound_append (xs : List Nat) (i : Nat) :
    slotBound (xs ++ [i]) = max (slotBound xs) (i + 1) := by
  apply Nat.le_antisymm
  · rw [slotBound_le]
    intro j hj
    simp only [List.mem_append, List.mem_singleton] at hj
    rcases hj with hj | rfl
    · have := lt_slotBound xs j hj
      omega
    · omega
  · rw [Nat.max_le]
    constructor
    · exact (slotBound_le _ _).2 (fun j hj => lt_slotBound _ j (by simp [hj]))
    · exact lt_slotBound _ i (by simp)

/-- The slot array depends only on the set of indices. -/
theorem slotsOf_congr (stored : Nat → List Nat) (xs ys : List Nat)
    (h : ∀ i, i ∈ xs ↔ i ∈ ys) : slotsOf stored xs = slotsOf stored ys := by
  unfold slotsOf
  rw [slotBound_congr xs ys h]
  apply List.map_congr_left
  intro j _
  by_cases hj : j ∈ xs
  · rw [if_pos hj, if_pos ((h j).1 hj)]
  · rw [if_neg hj, if_neg (fun hy => hj ((h j).2 hy))]

theorem slotsOf_nil (stored : Nat → List Nat) : slotsOf stored [] = [] := rfl

theorem slotsOf_length (stored : Nat → List Nat) (xs : List Nat) :
    (slotsOf stored xs).length = slotBound xs := by
  simp [slotsOf]

theorem slotsOf_getElem? (stored : Nat → List Nat) (xs : List Nat) (j : Nat) :
    (slotsOf stored xs)[j]? =
      if j < slotBound xs then some (if j ∈ xs then some (stored j) else none) else none :=
  getElem?_map_range _ _ _

/-- What the slot array holds at an index: the chunk if it has been delivered, nothing
otherwise. -/
theorem slotsOf_getD (stored : Nat → List Nat) (xs : List Nat) (j : Nat) :
    (slotsOf stored xs)[j]?.getD none = if j ∈ xs then some (stored j) else none := by
  rw [slotsOf_getElem?]
  by_cases hb : j < slotBound xs
  · simp [hb]
  · have hj : j ∉ xs := fun hj => hb (lt_slotBound xs j hj)
    simp [hb, hj]

theorem assign_getElem? {α : Type} (a : SparseArray α) (i : Nat) (v : α) (j : Nat) :
    (a.assign i v)[j]? =
      if j = i then some (some v)
      else if j < a.length then a[j]?
      else if j < i then some none else none := by
  unfold SparseArray.assign
  by_cases hi : i < a.length
  · rw [if_pos hi, List.getElem?_set]
    by_cases hji : j = i
    · subst hji; simp [hi]
    · have hij : ¬ i = j := fun e => hji e.symm
      rw [if_neg hij, if_neg hji]
      by_cases hj : j < a.length
      · rw [if_pos hj]
      · rw [if_neg hj, List.getElem?_eq_none (by omega)]
        have : ¬ j < i := by omega
        rw [if_neg this]
  · rw [if_neg hi]
    by_cases hji : j = i
    · subst hji
      rw [if_pos rfl, List.getElem?_append]
      simp only [List.length_append, List.length_replicate]
      have h1 : ¬ j < a.length + (j - a.length) := by omega
      have h2 : j - (a.length + (j - a.length)) = 0 := by omega
      rw [if_neg h1, h2]
      rfl
    · rw [if_neg hji]
      by_cases hj : j < a.length
      · rw [if_pos hj, List.append_assoc, List.getElem?_append, if_pos hj]
      · rw [if_neg hj]
        by_cases hlt : j < i
        · rw [if_pos hlt, List.getElem?_append]
          simp only [List.length_append, List.length_replicate]
          have h1 : j < a.length + (i - a.length) := by omega
          rw [if_pos h1, List.getElem?_append, if_neg hj, List.getElem?_replicate]
          have h2 : j - a.length < i - a.length := by omega
          rw [if_pos h2]
        · rw [if_neg hlt]
          apply List.getElem?_eq_none
          simp only [List.length_append, List.length_replicate, List.length_singleton]
          omega

/-- Storing the chunk of index `i` in the slot array of the indices `xs` gives the slot
array of `xs` and `i`. -/
theorem slotsOf_assign (stored : Nat → List Nat) (xs : List Nat) (i : Nat) :
    (slotsOf stored xs).assign i (stored i) = slotsOf stored (xs ++ [i]) := by
  apply List.ext_getElem?
  intro j
  rw [assign_getElem?, slotsOf_getElem?, slotsOf_getElem?, slotsOf_length, slotBound_append]
  by_cases hji : j = i
  · subst hji
    have h1 : j < max (slotBound xs) (j + 1) := by omega
    simp [h1]
  · rw [if_neg hji]
    have hmem : j ∈ xs ++ [i] ↔ j ∈ xs := by simp [hji]
    by_cases hj : j < slotBound xs
    · have h1 : j < max (slotBound xs) (i + 1) := by omega
      simp only [hj, h1, if_true, hmem]
    · have hnot : j ∉ xs := fun h => hj (lt_slotBound xs j h)
      rw [if_neg hj]
      by_cases hlt : j < i
      · have h1 : j < max (slotBound xs) (i + 1) := by omega
        simp [hlt, h1, hnot, hji]
      · have h1 : ¬ j < max (slotBound xs) (i + 1) := by omega
        simp [hlt, h1]

/-- The number of chunks present is the number of different indices delivered. -/
theorem slotsOf_present_length (stored : Nat → List Nat) (xs : List Nat) :
    (slotsOf stored xs).present.length = xs.toFinset.card := by
  unfold slotsOf SparseArray.present
  have h1 : ((List.range (slotBound xs)).map
      (fun j => if j ∈ xs then some (stored j) else none)).filterMap id =
      ((List.range (slotBound xs)).filter (fun j => decide (j ∈ xs))).map stored := by
    induction List.range (slotBound xs) with
    | nil => rfl
    | cons j rest ih =>
      by_cases hj : j ∈ xs
      · simp [List.filterMap_cons, List.filter_cons, hj, ih]
      · simp [List.filterMap_cons, List.filter_cons, hj, ih]
  rw [h1, List.length_map]
  have hnodup : ((List.range (slotBound xs)).filter (fun j => decide (j ∈ xs))).Nodup :=
    (List.nodup_range _).filter _
  rw [← List.toFinset_card_of_nodup hnodup]
  congr 1
  ext j
  simp only [List.mem_toFinset, List.mem_filter, List.mem_range, decide_eq_true_eq]
  exact ⟨fun h => h.2, fun h => ⟨lt_slotBound xs j h, h⟩⟩

/-- With all indices below `n`, `n` chunks are present exactly when every index below `n`
has been delivered. -/
theorem card_eq_iff_covers (xs : List Nat) (n : Nat) (hxs : ∀ i ∈ xs, i < n) :
    xs.toFinset.card = n ↔ ∀ j, j < n → j ∈ xs := by
  have hsub : xs.toFinset ⊆ Finset.range n := by
    intro j hj
    simp only [List.mem_toFinset] at hj
    simpa using hxs j hj
  constructor
  · intro hcard j hj
    have heq : xs.toFinset = Finset.range n :=
      Finset.eq_of_subset_of_card_le hsub (by simp [hcard])
    have : j ∈ xs.toFinset := by rw [heq]; simpa using hj
    simpa using this
  · intro hcov
    have heq : xs.toFinset = Finset.range n := by
      apply Finset.Subset.antisymm hsub
      intro j hj
      simp only [Finset.mem_range] at hj
      simpa using hcov j hj
    rw [heq, Finset.card_range]

/-! ## Channel protocol layer: the receiver on `file-start` and `file-chunk` -/

theorem newUint8Array_ofBytes (chunk : List Nat) :
    newUint8Array (JsVal.ofBytes chunk) = .ok (chunk.map (fun b => b % 256)) := by
  simp only [JsVal.ofBytes, newUint8Array, List.map_map]
  congr 1

theorem arrayIndex_num (i : Nat) (h : i < 4294967295) :
    (JsVal.num (Int.ofNat i)).arrayIndex = some i := by
  have h1 : (0 : Int) ≤ Int.ofNat i ∧ Int.ofNat i < 4294967295 := by
    constructor
    · exact Int.ofNat_nonneg i
    · exact Int.ofNat_lt.2 h
  simp only [JsVal.arrayIndex, h1, and_self, if_true]
  rfl

/-- What `completeFileTransfer` does for a transfer that is pending: the call is recorded,
and the transfer is deleted exactly when the method runs to its end. -/
theorem completeFileTransfer_pending (co : Collaborators) (app : App) (fileId : JsVal)
    (t : Transfer) (h : app.pendingFileTransfers.get fileId = some t) :
    (completeFileTransfer co app fileId).1.pendingFileTransfers =
      (if t.completes co then app.pendingFileTransfers.delete fileId
       else app.pendingFileTransfers) ∧
    (completeFileTransfer co app fileId).1.completeCalls = app.completeCalls ++ [fileId] := by
  unfold completeFileTransfer Transfer.completes
  simp only [h]
  cases copyChunks t.chunks.present (List.replicate t.chunks.present.length 0) 0 with
  | error e => exact ⟨rfl, rfl⟩
  | ok dataArray =>
    simp only
    split <;> (try split) <;> simp_all

/-- The branch `file-chunk` for a pending transfer, a chunk that converts to `bytes` and an
array index `i`: the chunk is stored at `i`; `completeFileTransfer` is called exactly when
the number of chunks present then equals `totalChunks`. -/
theorem handleFileChunk_store (co : Collaborators) (app : App) (data : JsVal) (t : Transfer)
    (bytes : List Nat) (i : Nat)
    (hget : app.pendingFileTransfers.get (data.field "fileId") = some t)
    (hbytes : newUint8Array (data.field "chunk") = .ok bytes)
    (hindex : (data.field "chunkIndex").arrayIndex = some i) :
    (handleFileChunk co app data).pendingFileTransfers =
      (if t.totalChunks = .num (Int.ofNat (t.chunks.assign i bytes).present.length) ∧
          Transfer.completes co { t with chunks := t.chunks.assign i bytes } = true then
        (app.pendingFileTransfers.set (data.field "fileId")
          { t with chunks := t.chunks.assign i bytes }).delete (data.field "fileId")
       else app.pendingFileTransfers.set (data.field "fileId")
          { t with chunks := t.chunks.assign i bytes }) ∧
    (handleFileChunk co app data).completeCalls =
      (if t.totalChunks = .num (Int.ofNat (t.chunks.assign i bytes).present.length) then
        app.completeCalls ++ [data.field "fileId"]
       else app.completeCalls) := by
  unfold handleFileChunk
  simp only [hget, hbytes, storeChunk, hindex]
  by_cases hcount : t.totalChunks = .num (Int.ofNat (t.chunks.assign i bytes).present.length)
  · have hspec := completeFileTransfer_pending co
      { app with pendingFileTransfers := (app.pendingFileTransfers.set (data.field "fileId")
          ({ t with chunks := t.chunks.assign i bytes } : Transfer)) }
      (data.field "fileId") { t with chunks := t.chunks.assign i bytes }
      (JsMap.get_set_self _ _ _)
    rw [if_pos hcount, if_pos hcount]
    by_cases hc : Transfer.completes co { t with chunks := t.chunks.assign i bytes } = true
    · rw [if_pos ⟨hcount, hc⟩]
      rw [if_pos hc] at hspec
      split
      · rename_i app2 heq
        rw [heq] at hspec
        exact hspec
      · rename_i app2 e heq
        rw [heq] at hspec
        exact hspec
    · rw [if_neg (fun h => hc h.2)]
      rw [if_neg hc] at hspec
      split
      · rename_i app2 heq
        rw [heq] at hspec
        exact hspec
      · rename_i app2 e heq
        rw [heq] at hspec
        exact hspec
  · constructor
    · rw [if_neg hcount, if_neg (fun h => hcount h.1)]
    · rw [if_neg hcount, if_neg hcount]

/-- The branch `file-chunk` when no transfer is pending under the identifier. -/
theorem handleFileChunk_absent (co : Collaborators) (app : App) (data : JsVal)
    (hget : app.pendingFileTransfers.get (data.field "fileId") = none) :
    handleFileChunk co app data = app := by
  unfold handleFileChunk
  simp only [hget]

theorem handleDataChannelMessage_fileChunk (co : Collaborators) (app : App) (data : JsVal)
    (htype : data.prop "type" = .ok (.str "file-chunk")) :
    handleDataChannelMessage co app (some data) = handleFileChunk co app data := by
  simp only [handleDataChannelMessage, htype]
  rw [if_neg (by decide), if_neg (by decide), if_neg (by decide), if_pos (by decide)]

theorem handleDataChannelMessage_fileStart (co : Collaborators) (app : App) (data : JsVal)
    (htype : data.prop "type" = .ok (.str "file-start")) :
    handleDataChannelMessage co app (some data) =
      { app with pendingFileTransfers :=
          (app.pendingFileTransfers.set (data.field "fileId")
            ({ fileName := data.field "fileName", fileType := data.field "fileType",
               fileSize := data.field "fileSize", totalChunks := data.field "totalChunks",
               iv := data.field "iv", chunks := [] } : Transfer)) } := by
  simp only [handleDataChannelMessage, htype]
  rw [if_neg (by decide), if_neg (by decide), if_pos (by decide)]

theorem Transfer.withChunks_congr (t : Transfer) (stored : Nat → List Nat) (xs ys : List Nat)
    (h : ∀ i, i ∈ xs ↔ i ∈ ys) : t.withChunks stored xs = t.withChunks stored ys := by
  unfold Transfer.withChunks
  rw [slotsOf_congr stored xs ys h]

theorem Transfer.DoneAfter_congr (co : Collaborators) (t : Transfer) (stored : Nat → List Nat)
    (n : Nat) (xs ys : List Nat) (h : ∀ i, i ∈ xs ↔ i ∈ ys) :
    Transfer.DoneAfter co t stored n xs ↔ Transfer.DoneAfter co t stored n ys := by
  have hnil : xs ≠ [] ↔ ys ≠ [] := by
    constructor
    · intro hx hy
      cases xs with
      | nil => exact hx rfl
      | cons x xs => have := (h x).1 (List.mem_cons_self _ _); rw [hy] at this; cases this
    · intro hy hx
      cases ys with
      | nil => exact hy rfl
      | cons y ys => have := (h y).2 (List.mem_cons_self _ _); rw [hx] at this; cases this
  unfold Transfer.DoneAfter
  rw [Transfer.withChunks_congr t stored xs ys h, hnil]
  constructor
  · rintro ⟨h1, h2, h3⟩; exact ⟨h1, fun j hj => (h j).1 (h2 j hj), h3⟩
  · rintro ⟨h1, h2, h3⟩; exact ⟨h1, fun j hj => (h j).2 (h2 j hj), h3⟩

/-- One `file-chunk` message of a transfer of `n` chunks, after the chunks of the indices
`xs` (all below `n`) have been delivered to a transfer that started with an empty slot
array. -/
theorem chunk_step (co : Collaborators) (before : App) (fileId : JsVal) (t0 : Transfer)
    (n : Nat) (bytes stored : Nat → List Nat)
    (hstored : ∀ i, newUint8Array (JsVal.ofBytes (bytes i)) = .ok (stored i))
    (hn : t0.totalChunks = .num (Int.ofNat n)) (hbound : n ≤ 4294967295)
    (xs : List Nat) (hxs : ∀ j ∈ xs, j < n) (i : Nat) (hi : i < n)
    (hdone : Transfer.DoneAfter co t0 stored n xs →
      before.pendingFileTransfers.get fileId = none)
    (hpend : ¬ Transfer.DoneAfter co t0 stored n xs →
      before.pendingFileTransfers.get fileId = some (t0.withChunks stored xs)) :
    (Transfer.DoneAfter co t0 stored n (xs ++ [i]) →
      (handleDataChannelMessage co before
        (some (fileChunkMessage fileId i (bytes i)))).pendingFileTransfers.get fileId = none) ∧
    (¬ Transfer.DoneAfter co t0 stored n (xs ++ [i]) →
      (handleDataChannelMessage co before
        (some (fileChunkMessage fileId i (bytes i)))).pendingFileTransfers.get fileId =
          some (t0.withChunks stored (xs ++ [i]))) ∧
    ((handleDataChannelMessage co before
        (some (fileChunkMessage fileId i (bytes i)))).completeCalls =
          before.completeCalls ++ [fileId] ∨
     (handleDataChannelMessage co before
        (some (fileChunkMessage fileId i (bytes i)))).completeCalls = before.completeCalls) ∧
    ((handleDataChannelMessage co before
        (some (fileChunkMessage fileId i (bytes i)))).completeCalls =
          before.completeCalls ++ [fileId] → ∀ j, j < n → j ∈ xs ++ [i]) ∧
    (i ∉ xs → (∀ j, j < n → j ∈ xs ++ [i]) →
      (handleDataChannelMessage co before
        (some (fileChunkMessage fileId i (bytes i)))).completeCalls =
          before.completeCalls ++ [fileId]) := by
  have hf := fileChunkMessage_fields fileId i (bytes i)
  rw [handleDataChannelMessage_fileChunk co before _ hf.1]
  have hne : ∀ (l : List JsVal) (x : JsVal), l ≠ l ++ [x] := by
    intro l x h
    have := congrArg List.length h
    simp at this
  by_cases hd : Transfer.DoneAfter co t0 stored n xs
  · have hin : i ∈ xs := hd.2.1 i hi
    have hset : ∀ j, j ∈ xs ++ [i] ↔ j ∈ xs := by
      intro j
      simp only [List.mem_append, List.mem_singleton]
      constructor
      · rintro (h | rfl)
        · exact h
        · exact hin
      · exact fun h => Or.inl h
    have hd' : Transfer.DoneAfter co t0 stored n (xs ++ [i]) :=
      (Transfer.DoneAfter_congr co t0 stored n _ _ hset).2 hd
    rw [handleFileChunk_absent co before _ (by rw [hf.2.1]; exact hdone hd)]
    refine ⟨fun _ => hdone hd, fun h => absurd hd' h, Or.inr rfl, ?_, ?_⟩
    · intro h; exact absurd h (hne _ _)
    · intro h; exact absurd hin h
  · have hget := hpend hd
    have hstep := handleFileChunk_store co before (fileChunkMessage fileId i (bytes i))
      (t0.withChunks stored xs) (stored i) i (by rw [hf.2.1]; exact hget)
      (by rw [hf.2.2.2]; exact hstored i)
      (by rw [hf.2.2.1]; exact arrayIndex_num i (by omega))
    rw [hf.2.1] at hstep
    have hchunks : (t0.withChunks stored xs).chunks.assign i (stored i) =
        slotsOf stored (xs ++ [i]) := slotsOf_assign stored xs i
    have ht : ({ t0.withChunks stored xs with
        chunks := (t0.withChunks stored xs).chunks.assign i (stored i) } : Transfer) =
        t0.withChunks stored (xs ++ [i]) := by
      rw [hchunks]; rfl
    have hall : ∀ j ∈ xs ++ [i], j < n := by
      intro j hj
      simp only [List.mem_append, List.mem_singleton] at hj
      rcases hj with hj | rfl
      · exact hxs j hj
      · exact hi
    have hcount : (t0.withChunks stored xs).totalChunks =
        .num (Int.ofNat ((t0.withChunks stored xs).chunks.assign i (stored i)).present.length)
        ↔ ∀ j, j < n → j ∈ xs ++ [i] := by
      rw [hchunks, slotsOf_present_length, ← card_eq_iff_covers (xs ++ [i]) n hall]
      show t0.totalChunks = _ ↔ _
      rw [hn]
      constructor
      · intro h
        have h' : Int.ofNat n = Int.ofNat (xs ++ [i]).toFinset.card := by
          injection h
        exact (Int.ofNat.inj h').symm
      · intro h; rw [h]
    rw [ht] at hstep
    have hdone' : Transfer.DoneAfter co t0 stored n (xs ++ [i]) ↔
        ((t0.withChunks stored xs).totalChunks =
          .num (Int.ofNat ((t0.withChunks stored xs).chunks.assign i (stored i)).present.length)
        ∧ (t0.withChunks stored (xs ++ [i])).completes co = true) := by
      rw [hcount]
      unfold Transfer.DoneAfter
      constructor
      · rintro ⟨_, h2, h3⟩; exact ⟨h2, h3⟩
      · rintro ⟨h2, h3⟩; exact ⟨by simp, h2, h3⟩
    refine ⟨?_, ?_, ?_, ?_, ?_⟩
    · intro h
      rw [hstep.1, if_pos (hdone'.1 h), JsMap.get_delete_self]
    · intro h
      rw [hstep.1, if_neg (fun hc => h (hdone'.2 hc)), JsMap.get_set_self]
    · rw [hstep.2]
      split
      · exact Or.inl rfl
      · exact Or.inr rfl
    · intro h
      rw [hstep.2] at h
      by_cases hc : (t0.withChunks stored xs).totalChunks =
          .num (Int.ofNat
            ((t0.withChunks stored xs).chunks.assign i (stored i)).present.length)
      · exact hcount.1 hc
      · rw [if_neg hc] at h
        exact absurd h (hne _ _)
    · intro _ hcov
      rw [hstep.2, if_pos (hcount.2 hcov)]

theorem deliverAll_append (co : Collaborators) (app : App) (messages : List JsVal)
    (data : JsVal) :
    deliverAll co app (messages ++ [data]) =
      handleDataChannelMessage co (deliverAll co app messages) (some data) := by
  simp [deliverAll, List.foldl_append]

theorem Transfer.withChunks_nil (t : Transfer) (stored : Nat → List Nat)
    (h : t.chunks = []) : t.withChunks stored [] = t := by
  cases t
  simp only at h
  subst h
  rfl

/-- The transfer after the `file-chunk` messages of the indices `xs`, all below `n`, have
been delivered in this order to a transfer that started with an empty slot array. -/
theorem chunk_run (co : Collaborators) (app : App) (fileId : JsVal) (t0 : Transfer)
    (n : Nat) (bytes stored : Nat → List Nat)
    (hstored : ∀ i, newUint8Array (JsVal.ofBytes (bytes i)) = .ok (stored i))
    (hget : app.pendingFileTransfers.get fileId = some t0) (hfresh : t0.chunks = [])
    (hn : t0.totalChunks = .num (Int.ofNat n)) (hbound : n ≤ 4294967295)
    (xs : List Nat) (hxs : ∀ j ∈ xs, j < n) :
    (Transfer.DoneAfter co t0 stored n xs →
      (deliverAll co app (xs.map (fun i => fileChunkMessage fileId i (bytes i)))
        ).pendingFileTransfers.get fileId = none) ∧
    (¬ Transfer.DoneAfter co t0 stored n xs →
      (deliverAll co app (xs.map (fun i => fileChunkMessage fileId i (bytes i)))
        ).pendingFileTransfers.get fileId = some (t0.withChunks stored xs)) := by
  induction xs using List.reverseRecOn with
  | nil =>
    refine ⟨fun h => absurd rfl h.1, fun _ => ?_⟩
    rw [Transfer.withChunks_nil t0 stored hfresh]
    exact hget
  | append_singleton xs i ih =>
    have hxs' : ∀ j ∈ xs, j < n := fun j hj => hxs j (by simp [hj])
    have hi : i < n := hxs i (by simp)
    have ih := ih hxs'
    rw [List.map_append, List.map_singleton, deliverAll_append]
    have hstep := chunk_step co _ fileId t0 n bytes stored hstored hn hbound xs hxs' i hi
      ih.1 ih.2
    exact ⟨hstep.1, hstep.2.1⟩

/-- C19.  A transfer of `n` declared chunks that is pending with an empty slot array, and
`file-chunk` messages for it with indices below `n`, the message of index `i` always
carrying the bytes `bytes i`.  The transfer that results (its slot array, or its absence
once the transfer has been reassembled and discarded) is the same for two arrival sequences
with the same set of indices, whatever their order and multiplicity; while the transfer is
pending its slot array holds at each delivered index exactly the bytes sent for it and
nothing at the other indices, the rest of the transfer being unchanged; delivering once
more a chunk that has been delivered changes nothing.  The bound on `n` is the largest
length of a JavaScript array. -/
theorem C19_slot_write_tolerates_order_and_duplicates (co : Collaborators) (app : App)
    (fileId : JsVal) (t0 : Transfer) (n : Nat) (bytes : Nat → List Nat)
    (hget : app.pendingFileTransfers.get fileId = some t0) (hfresh : t0.chunks = [])
    (hn : t0.totalChunks = .num (Int.ofNat n)) (hbound : n ≤ 4294967295)
    (hbytes : ∀ i, ∀ b ∈ bytes i, b < 256)
    (xs ys : List Nat) (hxs : ∀ i ∈ xs, i < n) (hys : ∀ i ∈ ys, i < n)
    (hset : ∀ i, i ∈ xs ↔ i ∈ ys) :
    (deliverAll co app (xs.map (fun i => fileChunkMessage fileId i (bytes i)))
      ).pendingFileTransfers.get fileId =
    (deliverAll co app (ys.map (fun i => fileChunkMessage fileId i (bytes i)))
      ).pendingFileTransfers.get fileId ∧
    (∀ t, (deliverAll co app (xs.map (fun i => fileChunkMessage fileId i (bytes i)))
        ).pendingFileTransfers.get fileId = some t →
      ∃ chunks, t = { t0 with chunks := chunks } ∧
        ∀ j, chunks[j]?.getD none = if j ∈ xs then some (bytes j) else none) ∧
    (∀ i ∈ xs,
      (deliverAll co app ((xs ++ [i]).map (fun i => fileChunkMessage fileId i (bytes i)))
        ).pendingFileTransfers.get fileId =
      (deliverAll co app (xs.map (fun i => fileChunkMessage fileId i (bytes i)))
        ).pendingFileTransfers.get fileId) := by
  have hstored : ∀ i, newUint8Array (JsVal.ofBytes (bytes i)) = .ok (bytes i) := by
    intro i
    rw [newUint8Array_ofBytes]
    congr 1
    conv_rhs => rw [← List.map_id (bytes i)]
    apply List.map_congr_left
    intro b hb
    exact Nat.mod_eq_of_lt (hbytes i b hb)
  have key : ∀ zs ws : List Nat, (∀ i ∈ zs, i < n) → (∀ i ∈ ws, i < n) →
      (∀ i, i ∈ zs ↔ i ∈ ws) →
      (deliverAll co app (zs.map (fun i => fileChunkMessage fileId i (bytes i)))
        ).pendingFileTransfers.get fileId =
      (deliverAll co app (ws.map (fun i => fileChunkMessage fileId i (bytes i)))
        ).pendingFileTransfers.get fileId := by
    intro zs ws hzs hws hzw
    have hz := chunk_run co app fileId t0 n bytes bytes hstored hget hfresh hn hbound zs hzs
    have hw := chunk_run co app fileId t0 n bytes bytes hstored hget hfresh hn hbound ws hws
    by_cases hd : Transfer.DoneAfter co t0 bytes n zs
    · rw [hz.1 hd, hw.1 ((Transfer.DoneAfter_congr co t0 bytes n zs ws hzw).1 hd)]
    · rw [hz.2 hd,
        hw.2 (fun h => hd ((Transfer.DoneAfter_congr co t0 bytes n zs ws hzw).2 h)),
        Transfer.withChunks_congr t0 bytes zs ws hzw]
  refine ⟨key xs ys hxs hys hset, ?_, ?_⟩
  · intro t ht
    have hx := chunk_run co app fileId t0 n bytes bytes hstored hget hfresh hn hbound xs hxs
    by_cases hd : Transfer.DoneAfter co t0 bytes n xs
    · rw [hx.1 hd] at ht; cases ht
    · rw [hx.2 hd] at ht
      injection ht with ht
      exact ⟨slotsOf bytes xs, ht.symm, fun j => slotsOf_getD bytes xs j⟩
  · intro i hi
    apply key
    · intro j hj
      simp only [List.mem_append, List.mem_singleton] at hj
      rcases hj with hj | rfl
      · exact hxs j hj
      · exact hxs j hi
    · exact hxs
    · intro j
      simp only [List.mem_append, List.mem_singleton]
      constructor
      · rintro (h | rfl)
        · exact h
        · exact hi
      · exact fun h => Or.inl h

/-- C19, witness: a transfer of two chunks; the arrivals `0, 1, 0` and `1, 0` leave the
same transfer. -/
theorem C19_slot_write_tolerates_order_and_duplicates_witness :
    (deliverAll ⟨fun v => .ok v, fun p => .ok p.data⟩
      { App.init with pendingFileTransfers :=
          [(.str "f", ⟨.str "a.bin", .str "x", .num 4, .num 2, .arr [], []⟩)] }
      ([0, 1, 0].map (fun i => fileChunkMessage (.str "f") i [7, 9]))
      ).pendingFileTransfers.get (.str "f") =
    (deliverAll ⟨fun v => .ok v, fun p => .ok p.data⟩
      { App.init with pendingFileTransfers :=
          [(.str "f", ⟨.str "a.bin", .str "x", .num 4, .num 2, .arr [], []⟩)] }
      ([1, 0].map (fun i => fileChunkMessage (.str "f") i [7, 9]))
      ).pendingFileTransfers.get (.str "f") :=
  (C19_slot_write_tolerates_order_and_duplicates ⟨fun v => .ok v, fun p => .ok p.data⟩
    { App.init with pendingFileTransfers :=
        [(.str "f", ⟨.str "a.bin", .str "x", .num 4, .num 2, .arr [], []⟩)] }
    (.str "f") ⟨.str "a.bin", .str "x", .num 4, .num 2, .arr [], []⟩ 2 (fun _ => [7, 9])
    rfl rfl rfl (by decide) (fun _ b hb => by simp at hb; omega) [0, 1, 0] [1, 0]
    (by decide) (by decide) (fun i => by simp; omega)).1

/-- C20, amended: a transfer of `n` declared chunks that is pending with an empty slot
array, and `file-chunk` messages for it whose indices are all below `n`.  Handling one more
such message calls `completeFileTransfer` for the transfer at most once; it calls it only
when every index below `n` has been delivered (every slot in `[0, n)` holds a chunk), and it
does call it when the message carries an index not delivered before and every index below
`n` has then been delivered (the chunk fills the last empty slot).  While the transfer is
pending, a slot holds a chunk exactly when its index has been delivered.  The bound on `n`
is the largest length of a JavaScript array. -/
theorem C20_completion_condition (co : Collaborators) (app : App)
    (fileId : JsVal) (t0 : Transfer) (n : Nat) (bytes : Nat → List Nat)
    (hget : app.pendingFileTransfers.get fileId = some t0) (hfresh : t0.chunks = [])
    (hn : t0.totalChunks = .num (Int.ofNat n)) (hbound : n ≤ 4294967295)
    (xs : List Nat) (hxs : ∀ i ∈ xs, i < n) (i : Nat) (hi : i < n) :
    ((handleDataChannelMessage co
        (deliverAll co app (xs.map (fun i => fileChunkMessage fileId i (bytes i))))
        (some (fileChunkMessage fileId i (bytes i)))).completeCalls =
      (deliverAll co app (xs.map (fun i => fileChunkMessage fileId i (bytes i)))
        ).completeCalls ++ [fileId] ∨
     (handleDataChannelMessage co
        (deliverAll co app (xs.map (fun i => fileChunkMessage fileId i (bytes i))))
        (some (fileChunkMessage fileId i (bytes i)))).completeCalls =
      (deliverAll co app (xs.map (fun i => fileChunkMessage fileId i (bytes i)))
        ).completeCalls) ∧
    ((handleDataChannelMessage co
        (deliverAll co app (xs.map (fun i => fileChunkMessage fileId i (bytes i))))
        (some (fileChunkMessage fileId i (bytes i)))).completeCalls =
      (deliverAll co app (xs.map (fun i => fileChunkMessage fileId i (bytes i)))
        ).completeCalls ++ [fileId] → ∀ j, j < n → j ∈ xs ++ [i]) ∧
    (i ∉ xs → (∀ j, j < n → j ∈ xs ++ [i]) →
      (handleDataChannelMessage co
        (deliverAll co app (xs.map (fun i => fileChunkMessage fileId i (bytes i))))
        (some (fileChunkMessage fileId i (bytes i)))).completeCalls =
      (deliverAll co app (xs.map (fun i => fileChunkMessage fileId i (bytes i)))
        ).completeCalls ++ [fileId]) ∧
    (∀ t, (deliverAll co app (xs.map (fun i => fileChunkMessage fileId i (bytes i)))
        ).pendingFileTransfers.get fileId = some t →
      ∀ j, (∃ chunk, t.chunks[j]? = some (some chunk)) ↔ j ∈ xs) := by
  have hstored : ∀ i, newUint8Array (JsVal.ofBytes (bytes i)) =
      .ok ((bytes i).map (fun b => b % 256)) := fun i => newUint8Array_ofBytes (bytes i)
  have hrun := chunk_run co app fileId t0 n bytes _ hstored hget hfresh hn hbound xs hxs
  have hstep := chunk_step co _ fileId t0 n bytes _ hstored hn hbound xs hxs i hi
    hrun.1 hrun.2
  refine ⟨hstep.2.2.1, hstep.2.2.2.1, hstep.2.2.2.2, ?_⟩
  intro t ht j
  by_cases hd : Transfer.DoneAfter co t0 (fun i => (bytes i).map (fun b => b % 256)) n xs
  · rw [hrun.1 hd] at ht; cases ht
  · rw [hrun.2 hd] at ht
    injection ht with ht
    subst ht
    show (∃ chunk, (slotsOf _ xs)[j]? = some (some chunk)) ↔ j ∈ xs
    rw [slotsOf_getElem?]
    constructor
    · rintro ⟨chunk, hc⟩
      by_contra hj
      by_cases hb : j < slotBound xs
      · simp [hb, hj] at hc
      · simp [hb] at hc
    · intro hj
      exact ⟨(bytes j).map (fun b => b % 256), by simp [lt_slotBound xs j hj, hj]⟩

/-- C20, witness: a transfer of two chunks; chunk 1 has arrived and chunk 0 arrives. -/
theorem C20_completion_condition_witness :
    (handleDataChannelMessage ⟨fun v => .ok v, fun p => .ok p.data⟩
      (deliverAll ⟨fun v => .ok v, fun p => .ok p.data⟩
        { App.init with pendingFileTransfers :=
            [(.str "f", ⟨.str "a.bin", .str "x", .num 4, .num 2, .arr [], []⟩)] }
        ([1].map (fun i => fileChunkMessage (.str "f") i [7, 9])))
      (some (fileChunkMessage (.str "f") 0 [7, 9]))).completeCalls =
    (deliverAll ⟨fun v => .ok v, fun p => .ok p.data⟩
        { App.init with pendingFileTransfers :=
            [(.str "f", ⟨.str "a.bin", .str "x", .num 4, .num 2, .arr [], []⟩)] }
        ([1].map (fun i => fileChunkMessage (.str "f") i [7, 9]))).completeCalls ++
      [.str "f"] :=
  (C20_completion_condition ⟨fun v => .ok v, fun p => .ok p.data⟩
    { App.init with pendingFileTransfers :=
        [(.str "f", ⟨.str "a.bin", .str "x", .num 4, .num 2, .arr [], []⟩)] }
    (.str "f") ⟨.str "a.bin", .str "x", .num 4, .num 2, .arr [], []⟩ 2 (fun _ => [7, 9])
    rfl rfl rfl (by decide) [1] (by decide) 0 (by decide)).2.2.1 (by decide) (by decide)

/-- C20 as stated fails for indices that are not below `totalChunks`.  A transfer declares
two chunks.  After the chunks with indices 5 and 0 have arrived, two chunks are present and
`completeFileTransfer` has been called although slot 1 is empty; when the chunk with index 1
then arrives and fills the last slot below 2, three chunks are present and
`completeFileTransfer` is not called. -/
theorem C20_out_of_range_index_completes_early :
    (deliverAll ⟨fun v => .ok v, fun p => .ok p.data⟩ App.init
      [fileStartMessage (.str "f") (.str "a.bin") (.str "x") (.num 4) (.arr []) 2,
       fileChunkMessage (.str "f") 5 [7, 9]]).completeCalls = [] ∧
    (deliverAll ⟨fun v => .ok v, fun p => .ok p.data⟩ App.init
      [fileStartMessage (.str "f") (.str "a.bin") (.str "x") (.num 4) (.arr []) 2,
       fileChunkMessage (.str "f") 5 [7, 9],
       fileChunkMessage (.str "f") 0 [7, 9]]).completeCalls = [.str "f"] ∧
    ((deliverAll ⟨fun v => .ok v, fun p => .ok p.data⟩ App.init
      [fileStartMessage (.str "f") (.str "a.bin") (.str "x") (.num 4) (.arr []) 2,
       fileChunkMessage (.str "f") 5 [7, 9],
       fileChunkMessage (.str "f") 0 [7, 9]]).pendingFileTransfers.map
        (fun entry => entry.2.chunks)) =
      [[some [7, 9], none, none, none, none, some [7, 9]]] ∧
    (deliverAll ⟨fun v => .ok v, fun p => .ok p.data⟩ App.init
      [fileStartMessage (.str "f") (.str "a.bin") (.str "x") (.num 4) (.arr []) 2,
       fileChunkMessage (.str "f") 5 [7, 9],
       fileChunkMessage (.str "f") 0 [7, 9],
       fileChunkMessage (.str "f") 1 [7, 9]]).completeCalls = [.str "f"] ∧
    ((deliverAll ⟨fun v => .ok v, fun p => .ok p.data⟩ App.init
      [fileStartMessage (.str "f") (.str "a.bin") (.str "x") (.num 4) (.arr []) 2,
       fileChunkMessage (.str "f") 5 [7, 9],
       fileChunkMessage (.str "f") 0 [7, 9],
       fileChunkMessage (.str "f") 1 [7, 9]]).pendingFileTransfers.map
        (fun entry => entry.2.chunks)) =
      [[some [7, 9], some [7, 9], none, none, none, some [7, 9]]] := by
  decide

/-- C16, at the failing input.  For the empty byte sequence `chunkArray` returns no chunk,
so the only message of `shareFile` is the `file-start` message with `totalChunks` 0.  When
the receiver has handled it the transfer is pending with an empty slot array; since the
number of chunks is compared with `totalChunks` only when a `file-chunk` message arrives,
`completeFileTransfer` has not been called, nothing has been handed to `decryptFile` and no
file has been added.  This holds whatever the identifier, the metadata and the decryption
collaborator are. -/
theorem C16_empty_transfer_stays_pending (co : Collaborators)
    (fileId fileName fileType fileSize iv : JsVal) :
    shareFileMessages fileId fileName fileType fileSize iv [] =
      some [fileStartMessage fileId fileName fileType fileSize iv 0] ∧
    (deliverAll co App.init [fileStartMessage fileId fileName fileType fileSize iv 0]
      ).pendingFileTransfers =
      [(fileId, ⟨fileName, fileType, fileSize, .num 0, iv, []⟩)] ∧
    (deliverAll co App.init [fileStartMessage fileId fileName fileType fileSize iv 0]
      ).completeCalls = [] ∧
    (deliverAll co App.init [fileStartMessage fileId fileName fileType fileSize iv 0]
      ).decryptFileCalls = [] ∧
    (deliverAll co App.init [fileStartMessage fileId fileName fileType fileSize iv 0]
      ).filesList = [] := by
  have hf := fileStartMessage_fields fileId fileName fileType fileSize iv 0
  have hdel : deliverAll co App.init
      [fileStartMessage fileId fileName fileType fileSize iv 0] =
      handleDataChannelMessage co App.init
        (some (fileStartMessage fileId fileName fileType fileSize iv 0)) := rfl
  have hprop : (fileStartMessage fileId fileName fileType fileSize iv 0).prop "type" =
      .ok (.str "file-start") := stringifyObj_prop_type _ _
  rw [hdel, handleDataChannelMessage_fileStart co App.init _ hprop,
    hf.2.1, hf.2.2.1, hf.2.2.2.1, hf.2.2.2.2.1, hf.2.2.2.2.2.1, hf.2.2.2.2.2.2]
  exact ⟨rfl, rfl, rfl, rfl, rfl⟩

/-! ## Channel protocol layer: the length of the slot array -/

theorem assign_length {α : Type} (a : SparseArray α) (i : Nat) (v : α) :
    (a.assign i v).length = max a.length (i + 1) := by
  unfold SparseArray.assign
  split
  · rw [List.length_set]; omega
  · simp only [List.length_append, List.length_replicate, List.length_singleton]
    omega

/-- The branch `file-chunk` for a pending transfer when the assignment leaves the slot array
as it is. -/
theorem handleFileChunk_keep (co : Collaborators) (app : App) (data : JsVal) (t : Transfer)
    (bytes : List Nat)
    (hget : app.pendingFileTransfers.get (data.field "fileId") = some t)
    (hbytes : newUint8Array (data.field "chunk") = .ok bytes)
    (hstore : storeChunk t.chunks (data.field "chunkIndex") bytes = .ok t.chunks) :
    (handleFileChunk co app data).pendingFileTransfers =
        app.pendingFileTransfers.set (data.field "fileId") t ∨
    (handleFileChunk co app data).pendingFileTransfers =
        (app.pendingFileTransfers.set (data.field "fileId") t).delete (data.field "fileId") := by
  unfold handleFileChunk
  simp only [hget, hbytes, hstore]
  by_cases hcount : t.totalChunks = .num (Int.ofNat t.chunks.present.length)
  · have hspec := completeFileTransfer_pending co
      { app with pendingFileTransfers := (app.pendingFileTransfers.set (data.field "fileId")
          t) }
      (data.field "fileId") t (JsMap.get_set_self _ _ _)
    rw [if_pos hcount]
    by_cases hc : Transfer.completes co t = true
    · rw [if_pos hc] at hspec
      right
      split
      · rename_i app2 heq
        rw [heq] at hspec
        exact hspec.1
      · rename_i app2 e heq
        rw [heq] at hspec
        exact hspec.1
    · rw [if_neg hc] at hspec
      left
      split
      · rename_i app2 heq
        rw [heq] at hspec
        exact hspec.1
      · rename_i app2 e heq
        rw [heq] at hspec
        exact hspec.1
  · left
    rw [if_neg hcount]

theorem arrayIndex_num_large (i : Nat) (h : ¬ i < 4294967295) :
    (JsVal.num (Int.ofNat i)).arrayIndex = none := by
  have h1 : ¬ ((0 : Int) ≤ Int.ofNat i ∧ Int.ofNat i < 4294967295) := by
    rintro ⟨_, h2⟩
    exact h (Int.ofNat_lt.1 h2)
  simp only [JsVal.arrayIndex, h1, if_false]

/-- The assignment with an array index stores the chunk at the index. -/
theorem storeChunk_index (chunks : SparseArray (List Nat)) (key : JsVal) (i : Nat)
    (bytes : List Nat) (h : key.arrayIndex = some i) :
    storeChunk chunks key bytes = .ok (chunks.assign i bytes) := by
  simp only [storeChunk, h]

/-- The assignment with a key that is neither an array index nor `length` leaves the slot
array as it is. -/
theorem storeChunk_other (chunks : SparseArray (List Nat)) (key : JsVal)
    (bytes : List Nat) (h : key.arrayIndex = none) (hk : key.isLengthKey = false) :
    storeChunk chunks key bytes = .ok chunks := by
  simp only [storeChunk, h, hk]
  rfl

/-- A natural number that is no array index names an ordinary property. -/
theorem storeChunk_num_large (chunks : SparseArray (List Nat)) (i : Nat) (bytes : List Nat)
    (h : ¬ i < 4294967295) :
    storeChunk chunks (.num (Int.ofNat i)) bytes = .ok chunks :=
  storeChunk_other chunks _ bytes (arrayIndex_num_large i h) rfl

/-- What the branch `file-chunk` does to `pendingFileTransfers` when `chunkIndex` is a
natural number: nothing, or the transfer is stored again, with the chunk in its slot array
if the number is an array index, and then possibly deleted. -/
theorem handleFileChunk_pending_cases (co : Collaborators) (app : App) (data : JsVal)
    (i : Nat) (hindex : data.field "chunkIndex" = .num (Int.ofNat i)) :
    (handleFileChunk co app data).pendingFileTransfers = app.pendingFileTransfers ∨
    ∃ t bytes chunks,
      app.pendingFileTransfers.get (data.field "fileId") = some t ∧
      (chunks = t.chunks ∨ chunks = t.chunks.assign i bytes) ∧
      ((handleFileChunk co app data).pendingFileTransfers =
          app.pendingFileTransfers.set (data.field "fileId") { t with chunks := chunks } ∨
       (handleFileChunk co app data).pendingFileTransfers =
          (app.pendingFileTransfers.set (data.field "fileId")
            { t with chunks := chunks }).delete (data.field "fileId")) := by
  cases hget : app.pendingFileTransfers.get (data.field "fileId") with
  | none => left; rw [handleFileChunk_absent co app data hget]
  | some t =>
    cases hbytes : newUint8Array (data.field "chunk") with
    | error e =>
      left
      unfold handleFileChunk
      simp only [hget, hbytes]
      rfl
    | ok bytes =>
      right
      by_cases h : i < 4294967295
      · refine ⟨t, bytes, t.chunks.assign i bytes, rfl, Or.inr rfl, ?_⟩
        have hidx : (data.field "chunkIndex").arrayIndex = some i := by
          rw [hindex]; exact arrayIndex_num i h
        have hstep := (handleFileChunk_store co app data t bytes i hget hbytes hidx).1
        rw [hstep]
        split
        · exact Or.inr rfl
        · exact Or.inl rfl
      · have hstore : storeChunk t.chunks (data.field "chunkIndex") bytes = .ok t.chunks := by
          rw [hindex]
          exact storeChunk_num_large t.chunks i bytes h
        exact ⟨t, bytes, t.chunks, rfl, Or.inl rfl,
          handleFileChunk_keep co app data t bytes hget hbytes hstore⟩

/-- What a channel message does to `pendingFileTransfers`: nothing, unless it is a
`file-start` or a `file-chunk` message. -/
theorem handleDataChannelMessage_pending_cases (co : Collaborators) (app : App)
    (data : JsVal) :
    (handleDataChannelMessage co app (some data)).pendingFileTransfers =
      app.pendingFileTransfers ∨
    data.prop "type" = .ok (.str "file-start") ∨
    data.prop "type" = .ok (.str "file-chunk") := by
  cases hp : data.prop "type" with
  | error e => left; simp only [handleDataChannelMessage, hp]; rfl
  | ok type =>
    by_cases hs : type.isStr "file-start" = true
    · right; left; rw [JsVal.eq_of_isStr _ _ hs]
    · by_cases hc : type.isStr "file-chunk" = true
      · right; right; rw [JsVal.eq_of_isStr _ _ hc]
      · left
        simp only [handleDataChannelMessage, hp, hs, hc]
        split
        · split
          · rfl
          · split <;> rfl
        · split
          · split
            · split <;> rfl
            · rfl
          · rfl

theorem slotsWithinDeclared_step (co : Collaborators) (app : App) (data : JsVal)
    (hinv : SlotsWithinDeclared app) (hw : WithinDeclared app data) :
    SlotsWithinDeclared (handleDataChannelMessage co app (some data)) := by
  rcases handleDataChannelMessage_pending_cases co app data with h | h | h
  · intro entry hentry
    rw [h] at hentry
    exact hinv entry hentry
  · obtain ⟨n, hn⟩ := hw.1 h
    rw [handleDataChannelMessage_fileStart co app data h]
    intro entry hentry
    rcases JsMap.mem_set _ _ _ entry hentry with hold | hnew
    · exact hinv entry hold.1
    · subst hnew
      exact ⟨n, hn, Nat.zero_le _⟩
  · rw [handleDataChannelMessage_fileChunk co app data h]
    cases hpending : app.pendingFileTransfers.get (data.field "fileId") with
    | none =>
      rw [handleFileChunk_absent co app data hpending]
      exact hinv
    | some t0 =>
    obtain ⟨i, n, hindex, hn, hin⟩ := hw.2 h t0 hpending
    rcases handleFileChunk_pending_cases co app data i hindex with
      hsame | ⟨t, bytes, chunks, hget, hch, hres⟩
    · intro entry hentry
      rw [hsame] at hentry
      exact hinv entry hentry
    · rw [hpending] at hget
      injection hget with hget
      subst hget
      have hlen : t0.chunks.length ≤ n := by
        obtain ⟨m, hm, hlen⟩ := hinv _ (JsMap.mem_of_get _ _ _ hpending)
        simp only at hm hlen
        rw [hn] at hm
        have hnm : Int.ofNat n = Int.ofNat m := by injection hm
        have := Int.ofNat.inj hnm
        omega
      have hgood : chunks.length ≤ n := by
        rcases hch with rfl | rfl
        · exact hlen
        · rw [assign_length]
          omega
      have hset : ∀ entry ∈ app.pendingFileTransfers.set (data.field "fileId")
          { t0 with chunks := chunks },
          ∃ n : Nat, entry.2.totalChunks = .num (Int.ofNat n) ∧ entry.2.chunks.length ≤ n := by
        intro entry hentry
        rcases JsMap.mem_set _ _ _ entry hentry with hold | hnew
        · exact hinv entry hold.1
        · subst hnew
          exact ⟨n, hn, hgood⟩
      intro entry hentry
      rcases hres with hres | hres
      · rw [hres] at hentry
        exact hset entry hentry
      · rw [hres] at hentry
        exact hset entry ((JsMap.mem_delete _ _ _).1 hentry).1

theorem slotsWithinDeclared_run (co : Collaborators) (messages : List JsVal) (app : App)
    (hinv : SlotsWithinDeclared app) (hrun : WithinDeclaredRun co app messages) :
    SlotsWithinDeclared (deliverAll co app messages) := by
  induction messages generalizing app with
  | nil => exact hinv
  | cons data rest ih =>
    exact ih _ (slotsWithinDeclared_step co app data hinv hrun.1) hrun.2

/-- The key `length` assigns the length of the slot array.  After `file-start` with
`totalChunks` 2 and a chunk at index 0, a `file-chunk` message whose `chunkIndex` is the
string `length` makes the length 5 with the chunk `[5]` and 0 with the chunk `[0]`, where
the stored chunk is lost; with the chunk `[1, 2]` the assignment throws, the error is
logged and the slot array stays as it was. -/
theorem handleFileChunk_length_key :
    ((deliverAll ⟨fun v => .ok v, fun p => .ok p.data⟩ App.init
      [fileStartMessage (.str "f") (.str "a.bin") (.str "x") (.num 4) (.arr []) 2,
       fileChunkMessage (.str "f") 0 [7, 9],
       .obj [("type", .str "file-chunk"), ("fileId", .str "f"),
         ("chunkIndex", .str "length"), ("chunk", JsVal.ofBytes [5])]]
      ).pendingFileTransfers.map (fun entry => (entry.2.totalChunks, entry.2.chunks)))
      = [(.num 2, [some [7, 9], none, none, none, none])] ∧
    ((deliverAll ⟨fun v => .ok v, fun p => .ok p.data⟩ App.init
      [fileStartMessage (.str "f") (.str "a.bin") (.str "x") (.num 4) (.arr []) 2,
       fileChunkMessage (.str "f") 0 [7, 9],
       .obj [("type", .str "file-chunk"), ("fileId", .str "f"),
         ("chunkIndex", .str "length"), ("chunk", JsVal.ofBytes [0])]]
      ).pendingFileTransfers.map (fun entry => (entry.2.totalChunks, entry.2.chunks)))
      = [(.num 2, [])] ∧
    ((deliverAll ⟨fun v => .ok v, fun p => .ok p.data⟩ App.init
      [fileStartMessage (.str "f") (.str "a.bin") (.str "x") (.num 4) (.arr []) 2,
       fileChunkMessage (.str "f") 0 [7, 9],
       .obj [("type", .str "file-chunk"), ("fileId", .str "f"),
         ("chunkIndex", .str "length"), ("chunk", JsVal.ofBytes [1, 2])]]
      ).pendingFileTransfers.map (fun entry => (entry.2.totalChunks, entry.2.chunks)))
      = [(.num 2, [some [7, 9]])] ∧
    (deliverAll ⟨fun v => .ok v, fun p => .ok p.data⟩ App.init
      [fileStartMessage (.str "f") (.str "a.bin") (.str "x") (.num 4) (.arr []) 2,
       fileChunkMessage (.str "f") 0 [7, 9],
       .obj [("type", .str "file-chunk"), ("fileId", .str "f"),
         ("chunkIndex", .str "length"), ("chunk", JsVal.ofBytes [1, 2])]]
      ).errors.length = 1 := by
  decide

/-- C17, amended: in every receiver state reached from a state with this property (the
initial state has it) by messages that keep within the declared chunk counts (a `file-start`
message declares a natural number of chunks, and the `chunkIndex` of a `file-chunk` message
for a pending transfer is a natural number below the declared chunk count), every pending
transfer has a slot array whose length is at most its declared chunk count.  When
`file-start` is handled the slot array of the transfer is empty whatever count is declared,
and storing a chunk at index `i` makes its length the larger of its length and `i + 1`; so
the length equals the declared count as soon as the chunk with the last index has been
stored. -/
theorem C17_slot_array_length (co : Collaborators) (app : App) (messages : List JsVal)
    (hinv : SlotsWithinDeclared app) (hrun : WithinDeclaredRun co app messages) :
    (∀ entry ∈ (deliverAll co app messages).pendingFileTransfers,
      ∃ n : Nat, entry.2.totalChunks = .num (Int.ofNat n) ∧ entry.2.chunks.length ≤ n ∧
        ((∃ chunk, entry.2.chunks[n - 1]? = some (some chunk)) → 1 ≤ n →
          entry.2.chunks.length = n)) ∧
    (∀ (state : App) (data : JsVal), data.prop "type" = .ok (.str "file-start") →
      ∃ t, (handleDataChannelMessage co state (some data)).pendingFileTransfers.get
          (data.field "fileId") = some t ∧
        t.chunks = [] ∧ t.totalChunks = data.field "totalChunks") ∧
    (∀ (chunks : SparseArray (List Nat)) (i : Nat) (bytes : List Nat),
      (chunks.assign i bytes).length = max chunks.length (i + 1)) := by
  refine ⟨?_, ?_, fun chunks i bytes => assign_length chunks i bytes⟩
  · intro entry hentry
    obtain ⟨n, hn, hlen⟩ := slotsWithinDeclared_run co messages app hinv hrun entry hentry
    refine ⟨n, hn, hlen, ?_⟩
    rintro ⟨chunk, hchunk⟩ h1
    have hlt : n - 1 < entry.2.chunks.length := by
      by_contra hnot
      rw [List.getElem?_eq_none (by omega)] at hchunk
      cases hchunk
    omega
  · intro state data htype
    rw [handleDataChannelMessage_fileStart co state data htype]
    exact ⟨_, JsMap.get_set_self _ _ _, rfl, rfl⟩

theorem prop_type_ne (v : JsVal) (a b : String) (h : v.prop "type" = .ok (.str a))
    (hab : a ≠ b) : v.prop "type" ≠ .ok (.str b) := by
  rw [h]
  intro e
  injection e with e
  injection e with e
  exact hab e

/-- C17, witness: a transfer of two chunks is started and its chunks arrive, last index
first; the transfer is then pending with a slot array of length 2. -/
theorem C17_slot_array_length_witness :
    ((JsVal.str "f", (⟨.str "a.bin", .str "x", .num 4, .num 2, .arr [],
        [some [7, 9], some [7, 9]]⟩ : Transfer)) ∈
      (deliverAll ⟨fun v => .ok v, fun p => .ok p.data⟩ App.init
        [fileStartMessage (.str "f") (.str "a.bin") (.str "x") (.num 4) (.arr []) 2,
         fileChunkMessage (.str "f") 1 [7, 9],
         fileChunkMessage (.str "f") 0 [7, 9]]).pendingFileTransfers) ∧
    ∃ n : Nat, JsVal.num 2 = .num (Int.ofNat n) ∧ 2 ≤ n :=
  ⟨List.mem_cons_self _ _,
   ((C17_slot_array_length ⟨fun v => .ok v, fun p => .ok p.data⟩ App.init
    [fileStartMessage (.str "f") (.str "a.bin") (.str "x") (.num 4) (.arr []) 2,
     fileChunkMessage (.str "f") 1 [7, 9],
     fileChunkMessage (.str "f") 0 [7, 9]]
    (fun entry h => by cases h)
    (by
      refine ⟨⟨fun _ => ⟨2, rfl⟩, fun h => ?_⟩, ⟨fun h => ?_, ?_⟩, ⟨fun h => ?_, ?_⟩, trivial⟩
      · exact absurd h (prop_type_ne _ "file-start" "file-chunk" rfl (by decide))
      · exact absurd h (prop_type_ne _ "file-chunk" "file-start" rfl (by decide))
      · intro _ t ht
        have ht' : some (JsVal.num 2) = some t.totalChunks :=
          congrArg (Option.map Transfer.totalChunks) ht
        injection ht' with ht'
        exact ⟨1, 2, rfl, ht'.symm, by decide⟩
      · exact absurd h (prop_type_ne _ "file-chunk" "file-start" rfl (by decide))
      · intro _ t ht
        have ht' : some (JsVal.num 2) = some t.totalChunks :=
          congrArg (Option.map Transfer.totalChunks) ht
        injection ht' with ht'
        exact ⟨0, 2, rfl, ht'.symm, by decide⟩)).1
      (JsVal.str "f", ⟨.str "a.bin", .str "x", .num 4, .num 2, .arr [],
        [some [7, 9], some [7, 9]]⟩)
      (List.mem_cons_self _ _)).elim (fun n hn => ⟨n, hn.1, hn.2.1⟩)⟩

/-- C17 as stated fails.  Right after `file-start` with `totalChunks` 2 has been handled the
slot array of the transfer is empty: its length is 0, not 2.  (And a chunk with index 5
makes its length 6.) -/
theorem C17_slot_array_is_empty_after_file_start :
    ((deliverAll ⟨fun v => .ok v, fun p => .ok p.data⟩ App.init
      [fileStartMessage (.str "f") (.str "a.bin") (.str "x") (.num 4) (.arr []) 2]
      ).pendingFileTransfers.map (fun entry => (entry.2.totalChunks, entry.2.chunks.length)))
      = [(.num 2, 0)] ∧
    ((deliverAll ⟨fun v => .ok v, fun p => .ok p.data⟩ App.init
      [fileStartMessage (.str "f") (.str "a.bin") (.str "x") (.num 4) (.arr []) 2,
       fileChunkMessage (.str "f") 1 [7, 9]]
      ).pendingFileTransfers.map (fun entry => (entry.2.totalChunks, entry.2.chunks.length)))
      = [(.num 2, 2)] ∧
    ((deliverAll ⟨fun v => .ok v, fun p => .ok p.data⟩ App.init
      [fileStartMessage (.str "f") (.str "a.bin") (.str "x") (.num 4) (.arr []) 2,
       fileChunkMessage (.str "f") 5 [7, 9]]
      ).pendingFileTransfers.map (fun entry => (entry.2.totalChunks, entry.2.chunks.length)))
      = [(.num 2, 6)] := by
  decide

/-! ## Signaling relay: two connections under one identifier -/

/-- C21, at the failing input.  Connection 1 joins room `R1` as `bob`, then connection 2
joins room `R1` as `bob`: the registry has `bob` with connection 2.  When connection 1
closes, `onclose` deletes the entry of `bob`, which is the one of connection 2, and then
the room, which has become empty: connection 2 is open, its join is the most recent one for
`R1` and `bob`, and it is not registered.  When `carol` then joins `R1` and sends an offer to
`bob`, the relay sends nothing to anybody.  With a third member `alice` in the room the room
stays, without `bob`, and `alice` is told that `bob` has left. -/
theorem C21_close_of_earlier_connection_removes_later_member :
    (Relay.run Relay.init
      [.connect 1, .message 1 (some (joinMessage (.str "R1") (.str "bob"))),
       .connect 2, .message 2 (some (joinMessage (.str "R1") (.str "bob")))]).rooms
      = [(.str "R1", [(.str "bob", 2)])] ∧
    (Relay.run Relay.init
      [.connect 1, .message 1 (some (joinMessage (.str "R1") (.str "bob"))),
       .connect 2, .message 2 (some (joinMessage (.str "R1") (.str "bob"))),
       .close 1]).rooms = [] ∧
    (Relay.run Relay.init
      [.connect 1, .message 1 (some (joinMessage (.str "R1") (.str "bob"))),
       .connect 2, .message 2 (some (joinMessage (.str "R1") (.str "bob"))),
       .close 1]).conns.get 2 = some (⟨.str "bob", .str "R1"⟩, true) ∧
    (Relay.run Relay.init
      [.connect 1, .message 1 (some (joinMessage (.str "R1") (.str "bob"))),
       .connect 2, .message 2 (some (joinMessage (.str "R1") (.str "bob"))),
       .close 1,
       .connect 3, .message 3 (some (joinMessage (.str "R1") (.str "carol"))),
       .message 3 (some (.obj [("type", .str "offer"), ("to", .str "bob"),
         ("offer", .obj [("type", .str "offer")])]))]).sent = [] ∧
    (Relay.run Relay.init
      [.connect 0, .message 0 (some (joinMessage (.str "R1") (.str "alice"))),
       .connect 1, .message 1 (some (joinMessage (.str "R1") (.str "bob"))),
       .connect 2, .message 2 (some (joinMessage (.str "R1") (.str "bob"))),
       .close 1]).rooms = [(.str "R1", [(.str "alice", 0)])] ∧
    (Relay.run Relay.init
      [.connect 0, .message 0 (some (joinMessage (.str "R1") (.str "alice"))),
       .connect 1, .message 1 (some (joinMessage (.str "R1") (.str "bob"))),
       .connect 2, .message 2 (some (joinMessage (.str "R1") (.str "bob"))),
       .close 1]).sent =
      [(0, userJoined (.str "bob") (.str "R1")), (0, userJoined (.str "bob") (.str "R1")),
       (0, userLeft (.str "bob") (.str "R1"))] := by
  decide

/-! ## Accounts: registration and login -/

/-- What a successful `register` has checked and stored. -/
theorem register_ok (auth auth1 : Auth) (username password confirmPassword now : String)
    (h : register auth username password confirmPassword now = .ok auth1) :
    username ≠ "" ∧ 6 ≤ (utf16 password).length ∧ auth.users.get username = none ∧
    auth1 = { auth with users := (auth.users.set username
                (⟨username, hashPassword password, now⟩ : UserRecord)) } := by
  unfold register at h
  split_ifs at h with h1 h2 h3 h4
  simp only [not_or] at h1 h4
  injection h with h
  refine ⟨h1.1, by omega, ?_, h.symm⟩
  have hf : JsMap.has auth.users username = false := by simpa using h4.1
  exact (JsMap.has_false_iff _ _).1 hf

/-- A successful `login` leaves the stored users as they are. -/
theorem login_ok_users (auth auth1 : Auth) (username password : String) (c : CurrentUser)
    (h : login auth username password = .ok (auth1, c)) : auth1.users = auth.users := by
  unfold login at h
  split_ifs at h
  split at h
  · cases h
  · split_ifs at h
    injection h with h
    injection h with h1 h2
    rw [← h1]

/-- No call changes the record of a registered user. -/
theorem step_users_get (auth : Auth) (call : AuthCall) (username : String)
    (user : UserRecord) (h : auth.users.get username = some user) :
    (auth.step call).users.get username = some user := by
  cases call with
  | register u pw c now =>
    cases hreg : register auth u pw c now with
    | error e =>
      simp only [Auth.step, hreg]
      exact h
    | ok auth1 =>
      obtain ⟨_, _, hnone, heq⟩ := register_ok auth auth1 u pw c now hreg
      have hne : username ≠ u := by
        intro e
        rw [e, hnone] at h
        cases h
      simp only [Auth.step, hreg]
      rw [heq]
      show (JsMap.set auth.users u _).get username = some user
      rw [JsMap.get_set_of_ne _ _ _ _ hne]
      exact h
  | login u pw =>
    cases hlog : login auth u pw with
    | error e =>
      simp only [Auth.step, hlog]
      exact h
    | ok pair =>
      obtain ⟨auth1, c⟩ := pair
      simp only [Auth.step, hlog]
      rw [login_ok_users auth auth1 u pw c hlog]
      exact h
  | logout => exact h

theorem run_users_get (calls : List AuthCall) (auth : Auth) (username : String)
    (user : UserRecord) (h : auth.users.get username = some user) :
    (auth.run calls).users.get username = some user := by
  induction calls generalizing auth with
  | nil => exact h
  | cons call calls ih => exact ih _ (step_users_get auth call username user h)

/-- C22, amended: `login` compares hashes.  A user name is registered through `register`
with password `p` (so `p` has at least 6 code units) at time `now`; any calls of `register`,
`login` and `logout` follow.  Then for every non-empty `q`: if `hashPassword(q)` differs
from `hashPassword(p)`, `login(username, q)` throws `Invalid username or password` and the
state, `currentUser` included, is unchanged; if `hashPassword(q)` equals `hashPassword(p)`,
as it does for `q = p`, `login` succeeds and `currentUser` is the registered user. -/
theorem C22_login_compares_hashes (auth0 auth1 : Auth)
    (username p confirmPassword now : String)
    (hreg : register auth0 username p confirmPassword now = .ok auth1)
    (calls : List AuthCall) (q : String) (hq : q ≠ "") :
    6 ≤ (utf16 p).length ∧
    (hashPassword q ≠ hashPassword p →
      login (auth1.run calls) username q = .error "Invalid username or password" ∧
      (auth1.run calls).step (.login username q) = auth1.run calls) ∧
    (hashPassword q = hashPassword p →
      login (auth1.run calls) username q =
        .ok ({ auth1.run calls with currentUser := some ⟨username, now⟩,
                                    storedCurrentUser := some ⟨username, now⟩ },
             ⟨username, now⟩)) ∧
    (q = p → ((auth1.run calls).step (.login username q)).currentUser =
      some ⟨username, now⟩) := by
  obtain ⟨hu, hlen, _, heq⟩ := register_ok auth0 auth1 username p confirmPassword now hreg
  have hget1 : auth1.users.get username = some ⟨username, hashPassword p, now⟩ := by
    rw [heq]
    exact JsMap.get_set_self auth0.users username _
  have hget := run_users_get calls auth1 username _ hget1
  have hne : ¬ (username = "" ∨ q = "") := by
    rintro (h | h)
    · exact hu h
    · exact hq h
  have hbad : hashPassword q ≠ hashPassword p →
      login (auth1.run calls) username q = .error "Invalid username or password" := by
    intro hh
    unfold login
    rw [if_neg hne]
    simp only [hget]
    rw [if_pos (fun e => hh e.symm)]
  have hgood : hashPassword q = hashPassword p →
      login (auth1.run calls) username q =
        .ok ({ auth1.run calls with currentUser := some ⟨username, now⟩,
                                    storedCurrentUser := some ⟨username, now⟩ },
             ⟨username, now⟩) := by
    intro hh
    unfold login
    rw [if_neg hne]
    simp only [hget]
    rw [if_neg (fun e => e hh.symm)]
  refine ⟨hlen, fun hh => ⟨hbad hh, ?_⟩, hgood, ?_⟩
  · simp only [Auth.step, hbad hh]
  · intro e
    simp only [Auth.step, hgood (by rw [e])]

/-- C22, witness: `alice` registers with `secret1`, logs out, and `bob` registers; a login
of `alice` with `secret2` is rejected. -/
theorem C22_login_compares_hashes_witness :
    login (Auth.run
        { Auth.init with users := [("alice", ⟨"alice", hashPassword "secret1", "t0"⟩)] }
        [.logout, .register "bob" "hunter22" "hunter22" "t1"])
      "alice" "secret2" = .error "Invalid username or password" :=
  ((C22_login_compares_hashes Auth.init
    { Auth.init with users := [("alice", ⟨"alice", hashPassword "secret1", "t0"⟩)] }
    "alice" "secret1" "secret1" "t0" rfl
    [.logout, .register "bob" "hunter22" "hunter22" "t1"] "secret2" (by decide)).2.1
    (by decide)).1

/-- C22 as stated fails.  `alice` registers with the password `AaAaAa`.  The different
password `BBBBBB` has the same hash (`wah0w0`), and `login` with it succeeds: `currentUser`,
which was `null`, is `alice`. -/
theorem C22_other_password_with_the_same_hash_logs_in :
    "BBBBBB" ≠ "AaAaAa" ∧
    hashPassword "AaAaAa" = "wah0w0" ∧ hashPassword "BBBBBB" = "wah0w0" ∧
    (Auth.run Auth.init
      [.register "alice" "AaAaAa" "AaAaAa" "2024-01-01T00:00:00.000Z"]).users =
      [("alice", ⟨"alice", "wah0w0", "2024-01-01T00:00:00.000Z"⟩)] ∧
    (Auth.run Auth.init
      [.register "alice" "AaAaAa" "AaAaAa" "2024-01-01T00:00:00.000Z"]).currentUser = none ∧
    (Auth.run Auth.init
      [.register "alice" "AaAaAa" "AaAaAa" "2024-01-01T00:00:00.000Z",
       .login "alice" "BBBBBB"]).currentUser =
      some ⟨"alice", "2024-01-01T00:00:00.000Z"⟩ := by
  decide

end RTCCollab
